import Mathlib

/-! # BlackJack-OS: a shallow embedding of `server.c` and `client.c`

The C sources are translated function by function.  Conventions:

* a card (`typedef uint8_t Card`) is a natural number, `0..51` for real cards;
* a C array together with its element count (`hand`, `n`) is a `List`;
* `for` loops over an array are folds, `while` loops are recursive functions
  (structural on an explicit measure, or on a fuel argument that is shown to suffice);
* everything the program obtains from outside (bytes on a socket, `rand_r`, what a
  reader thread does while the coordinator is blocked) is an explicit argument;
* calls on mutexes and condition variables, `send_msg` and `close` are recorded, with
  the thread that makes them, in a trace kept in the game state; in the model each of
  these calls returns, so the functions describe the executions in which none blocks
  for ever;
* a round is played by the slots present at its start: `accept_loop` is not part of it;
* the capacity of the arrays `hand[12]` and `dealer_hand[12]` is not enforced.

The file has three parts: the definitions, the lemmas, and the theorems that settle the
claims about the program.
-/

namespace BlackJack

/-! # Definitions -/

/-! ## Constants of `common.h` and `server.c` -/

/-- The sentinel `0xFF` that `deal_card` returns for an exhausted deck.  A card
(`typedef uint8_t Card;` of `deck.h`) is a natural number throughout. -/
def NO_CARD : Nat := 255

/-- Macro `#define MAX_PAYLOAD 1024`. -/
def MAX_PAYLOAD : Nat := 1024

/-- Macro `#define MAX_PLAYERS 6`. -/
def MAX_PLAYERS : Nat := 6

/-- Macro `#define RESHUFFLE_THRESHOLD 15`. -/
def RESHUFFLE_THRESHOLD : Nat := 15

/-! ## `hand_value` (server.c, lines 172-185) -/

/-- One iteration of the `for` loop of `hand_value`; the state is `(total, aces)`. -/
def hand_value_step (st : Nat × Nat) (c : Nat) : Nat × Nat :=
  let r := c % 13
  if r = 0 then (st.1 + 11, st.2 + 1)
  else if r ≥ 10 then (st.1 + 10, st.2)
  else (st.1 + (r + 1), st.2)

/-- The loop `while (total > 21 && aces > 0) { total -= 10; aces--; }`,
by recursion on `aces`. -/
def hand_value_demote : Nat → Nat → Nat
  | total, 0 => total
  | total, aces + 1 => if total > 21 then hand_value_demote (total - 10) aces else total

/-- Function `int hand_value(const Card *hand, int n)`: the list is `hand[0..n-1]`. -/
def hand_value (hand : List Nat) : Nat :=
  let st := hand.foldl hand_value_step (0, 0)
  hand_value_demote st.1 st.2

/-! ### The standard blackjack total, as the specification words it -/

/-- Points of a card with the Ace counted as 1, a face card as 10, any other card
at its pip value (rank `id % 13`, `0` = Ace, `10..12` = J, Q, K). -/
def card_points_hard (c : Nat) : Nat :=
  if c % 13 = 0 then 1 else if 10 ≤ c % 13 then 10 else c % 13 + 1

/-- The hard total of a hand: every Ace counted as 1. -/
def hard_total (hand : List Nat) : Nat := (hand.map card_points_hard).sum

/-- Number of Aces in a hand. -/
def ace_count (hand : List Nat) : Nat := hand.countP (fun c => c % 13 = 0)

/-! ## The socket: `read(2)` and `write(2)` as seen by `read_all` / `write_all` -/

/-- What the operating system does at one `read` call. -/
inductive ReadEvent
  /-- Case `read` returns -1 with `errno == EINTR`. -/
  | eintr
  /-- Case `read` returns -1 with any other `errno`. -/
  | error
  /-- Case `read` delivers at most `k + 1` of the bytes asked for (a short read). -/
  | short (k : Nat)
  deriving DecidableEq, Repr

/-- The receiving side of a connection: the bytes still to arrive (followed by
end-of-stream) and the behaviour of the coming `read` calls.  Once `events` is used
up, a `read` delivers everything asked for that is available. -/
structure Fd where
  bytes : List Nat
  events : List ReadEvent
  deriving DecidableEq, Repr

/-- Result of one `read`: `data bs` is a return value `bs.length` (0 is end-of-stream). -/
inductive ReadResult
  | eintr
  | error
  | data (bs : List Nat)
  deriving DecidableEq, Repr

/-- One call `read(fd, p, count)`. -/
def sys_read (fd : Fd) (count : Nat) : ReadResult × Fd :=
  match fd.events with
  | .eintr :: es => (.eintr, { fd with events := es })
  | .error :: es => (.error, { fd with events := es })
  | .short k :: es =>
      (.data (fd.bytes.take (min count (k + 1))),
        { bytes := fd.bytes.drop (min count (k + 1)), events := es })
  | [] => (.data (fd.bytes.take count), { bytes := fd.bytes.drop count, events := [] })

/-- Function `ssize_t read_all(int fd, void *buf, size_t count)` (server.c, lines 81-95); the
loop state is `left` and the bytes stored so far.  The result is the return value, the
bytes stored in `buf`, and the connection afterwards. -/
def read_all_loop (count : Nat) (fd : Fd) (left : Nat) (buf : List Nat) :
    Int × List Nat × Fd :=
  if left = 0 then ((count : Int), buf, fd)
  else
    match h : sys_read fd left with
    | (.eintr, fd1) => read_all_loop count fd1 left buf
    | (.error, fd1) => (-1, buf, fd1)
    | (.data bs, fd1) =>
        if bs.length = 0 then (((count - left : Nat) : Int), buf, fd1)
        else read_all_loop count fd1 (left - bs.length) (buf ++ bs)
termination_by fd.events.length + left
decreasing_by
  · have hlt : fd1.events.length < fd.events.length := by
      unfold sys_read at h
      split at h <;> simp_all
      obtain ⟨rfl⟩ := h
      simp
    omega
  · have hle : fd1.events.length ≤ fd.events.length ∧ bs.length ≤ left := by
      unfold sys_read at h
      split at h <;> simp_all
      all_goals
        obtain ⟨rfl, rfl⟩ := h
        simp
    omega

/-- Function `read_all(fd, buf, count)`. -/
def read_all (fd : Fd) (count : Nat) : Int × List Nat × Fd :=
  read_all_loop count fd count []

/-- The successful outcome of `read_all_loop`: `count` returned, `xs` appended to the
buffer, `rest` left on the connection. -/
def ReadAllOk (count : Nat) (buf xs rest : List Nat) (r : Int × List Nat × Fd) : Prop :=
  ∃ es, r = ((count : Int), buf ++ xs, (⟨rest, es⟩ : Fd))

/-- What the operating system does at one `write` call. -/
inductive WriteEvent
  /-- Case `write` returns a value `<= 0` with `errno == EINTR`. -/
  | eintr
  /-- Case `write` returns a value `<= 0` with any other `errno`. -/
  | error
  /-- Case `write` accepts at most `k + 1` of the bytes offered (a short write). -/
  | short (k : Nat)
  deriving DecidableEq, Repr

/-- The sending side of a connection: the bytes written so far and the behaviour of the
coming `write` calls (once used up, a `write` accepts everything). -/
structure OutFd where
  written : List Nat
  events : List WriteEvent
  deriving DecidableEq, Repr

/-- Result of one `write`. -/
inductive WriteResult
  | eintr
  | error
  | wrote (n : Nat)
  deriving DecidableEq, Repr

/-- One call `write(fd, p, count)`, `p` being the memory from the pointer on. -/
def sys_write (out : OutFd) (p : List Nat) (count : Nat) : WriteResult × OutFd :=
  match out.events with
  | .eintr :: es => (.eintr, { out with events := es })
  | .error :: es => (.error, { out with events := es })
  | .short k :: es =>
      (.wrote (min count (k + 1)),
        { written := out.written ++ p.take (min count (k + 1)), events := es })
  | [] => (.wrote count, { written := out.written ++ p.take count, events := [] })

/-- Function `ssize_t write_all(int fd, const void *buf, size_t count)` (server.c, lines 66-79). -/
def write_all_loop (count : Nat) (out : OutFd) (p : List Nat) (left : Nat) : Int × OutFd :=
  if left = 0 then ((count : Int), out)
  else
    match h : sys_write out p left with
    | (.eintr, o1) => write_all_loop count o1 p left
    | (.error, o1) => (-1, o1)
    | (.wrote n, o1) => write_all_loop count o1 (p.drop n) (left - n)
termination_by out.events.length + left
decreasing_by
  · have hlt : o1.events.length < out.events.length := by
      unfold sys_write at h
      split at h <;> simp_all
      obtain ⟨rfl⟩ := h
      simp
    omega
  · have hle : o1.events.length ≤ out.events.length ∧ n ≤ left ∧ (0 < left → 0 < n) := by
      unfold sys_write at h
      split at h <;> simp_all
      all_goals
        obtain ⟨rfl, rfl⟩ := h
        simp
    omega

/-- Function `write_all(fd, buf, count)`. -/
def write_all (out : OutFd) (buf : List Nat) (count : Nat) : Int × OutFd :=
  write_all_loop count out buf count

/-! ## The frame codec: `send_msg`, `recv_msg` -/

/-- Function `strlen` of the C string stored in `s` (terminated by the first NUL, or by the NUL
that follows the list). -/
def strlen (s : List Nat) : Nat := (s.takeWhile (fun b => b ≠ 0)).length

/-- The four bytes, in memory order, of the `uint32_t` `htonl(x)`: big-endian `x`. -/
def htonl (x : Nat) : List Nat :=
  [x / 2 ^ 24 % 256, x / 2 ^ 16 % 256, x / 2 ^ 8 % 256, x % 256]

/-- The value `ntohl(nlen)` of a `uint32_t` whose four bytes in memory are `bs`. -/
def ntohl (bs : List Nat) : Nat :=
  bs.getD 0 0 % 256 * 2 ^ 24 + bs.getD 1 0 % 256 * 2 ^ 16 + bs.getD 2 0 % 256 * 2 ^ 8
    + bs.getD 3 0 % 256

/-- Function `int send_msg(int fd, const char *msg)` (server.c, lines 97-103; client.c, 39-45). -/
def send_msg (out : OutFd) (msg : List Nat) : Int × OutFd :=
  let len := strlen msg % 2 ^ 32
  let nlen := htonl len
  let w1 := write_all out nlen 4
  if w1.1 < 0 then (-1, w1.2)
  else
    let w2 := write_all w1.2 msg len
    if w2.1 < 0 then (-1, w2.2) else (0, w2.2)

/-- The drain loop of the oversized branch of `recv_msg` (server.c, lines 116-122):
`while (to_read > 0) { rr = read(fd, tmp, min(256, to_read)); if (rr <= 0) break;
to_read -= rr; }`. -/
def drain (fd : Fd) (to_read : Nat) : Fd :=
  if to_read = 0 then fd
  else
    match h : sys_read fd (min 256 to_read) with
    | (.eintr, fd1) => fd1
    | (.error, fd1) => fd1
    | (.data bs, fd1) =>
        if hb : bs.length = 0 then fd1
        else
          have : to_read - bs.length < to_read := by
            have hle : bs.length ≤ min 256 to_read := by
              unfold sys_read at h
              split at h <;> simp_all
              all_goals
                obtain ⟨rfl, rfl⟩ := h
                simp
            omega
          drain fd1 (to_read - bs.length)
termination_by to_read

/-- Everything a call of `recv_msg` does: its return value, the pointer stored in
`*out_buf` (`none` when it is not written: the callers initialise it to `NULL`), the
sizes of the heap blocks it requested, and the connection afterwards. -/
structure RecvResult where
  ret : Int
  out_buf : Option (List Nat)
  mallocs : List Nat
  fd : Fd
  deriving DecidableEq, Repr

/-- Function `int recv_msg(int fd, char **out_buf)` of the server (server.c, lines 105-134).
`junk` is the indeterminate initial content of the local `nlen`; `malloc_ok` tells
whether the allocator succeeds. -/
def recv_msg (fd : Fd) (junk : List Nat) (malloc_ok : Bool) : RecvResult :=
  let r := read_all fd 4
  if r.1 ≤ 0 then ⟨-1, none, [], r.2.2⟩
  else
    let nlen := r.2.1 ++ (junk.take 4).drop r.2.1.length
    let len := ntohl nlen
    if len = 0 then
      ⟨0, if malloc_ok then some [] else none, [1], r.2.2⟩
    else if len > MAX_PAYLOAD then
      ⟨-1, none, [], drain r.2.2 len⟩
    else if !malloc_ok then ⟨-1, none, [len + 1], r.2.2⟩
    else
      let p := read_all r.2.2 len
      if p.1 ≠ (len : Int) then ⟨-1, none, [len + 1], p.2.2⟩
      else ⟨(len : Int), some p.2.1, [len + 1], p.2.2⟩

namespace Client

/-- Function `int recv_msg(int fd, char **out_buf)` of the client (client.c, lines 47-59). -/
def recv_msg (fd : Fd) (junk : List Nat) (malloc_ok : Bool) : RecvResult :=
  let r := read_all fd 4
  if r.1 ≤ 0 then ⟨-1, none, [], r.2.2⟩
  else
    let nlen := r.2.1 ++ (junk.take 4).drop r.2.1.length
    let len := ntohl nlen
    if len > MAX_PAYLOAD then ⟨-1, none, [], r.2.2⟩
    else if !malloc_ok then ⟨-1, none, [len + 1], r.2.2⟩
    else
      let p := read_all r.2.2 len
      if p.1 ≠ (len : Int) then ⟨-1, none, [len + 1], p.2.2⟩
      else ⟨(len : Int), some p.2.1, [len + 1], p.2.2⟩

end Client

/-! ## The deck: `init_deck`, `shuffle_deck`, `deal_card` (server.c, lines 138-155) -/

/-- Function `void init_deck(Card deck[52])`: `deck[i] = (Card)i` for `i = 0 .. 51`. -/
def init_deck : List Nat := List.range 52

/-- The body `Card tmp = deck[i]; deck[i] = deck[j]; deck[j] = tmp;` of the shuffle loop. -/
def swap_cards (deck : List Nat) (i j : Nat) : List Nat :=
  let tmp := deck.getD i 0
  (deck.set i (deck.getD j 0)).set j tmp

/-- The loop `for (int i = 51; i > 0; --i)` of `shuffle_deck`, entered with the loop
variable equal to the first argument.  `rand_r` maps the seed to the value returned
(a non-negative `int`) and the seed stored back through `seedp`. -/
def shuffle_loop (rand_r : Nat → Nat × Nat) : Nat → List Nat → Nat → List Nat × Nat
  | 0, deck, seed => (deck, seed)
  | i + 1, deck, seed =>
      let r := rand_r seed
      let j := r.1 % (i + 1 + 1)
      shuffle_loop rand_r i (swap_cards deck (i + 1) j) r.2

/-- Function `void shuffle_deck(Card deck[52], unsigned *seedp)`: the shuffled deck and the
final seed. -/
def shuffle_deck (rand_r : Nat → Nat × Nat) (deck : List Nat) (seed : Nat) : List Nat × Nat :=
  shuffle_loop rand_r 51 deck seed

/-- Function `Card deal_card(Card deck[52], int *top_index)`: the card returned and the new
value of `*top_index`. -/
def deal_card (deck : List Nat) (top_index : Nat) : Nat × Nat :=
  if top_index ≥ 52 then (NO_CARD, top_index)
  else (deck.getD top_index 0, top_index + 1)

/-! ## Text: protocol tokens of `protocol.h`, `card_to_str`, `snprintf` -/

/-- The bytes of an ASCII string literal. -/
def str (s : String) : List Nat := s.toList.map Char.toNat

/-- The conversion `%d` of a non-negative `int`. -/
def fmt_d (n : Nat) : List Nat := str (toString n)

/-- What `snprintf(buf, sizeof(buf), ...)` leaves in a buffer of `MAX_PAYLOAD` bytes:
the formatted text cut to `MAX_PAYLOAD - 1` characters. -/
def snprintf_buf (text : List Nat) : List Nat := text.take (MAX_PAYLOAD - 1)

/-- Macro `#define MSG_DEAL "DEAL"` of `protocol.h`. -/
def MSG_DEAL : List Nat := str "DEAL"

/-- Macro `#define MSG_YOUR_TURN "YOUR_TURN"` of `protocol.h`. -/
def MSG_YOUR_TURN : List Nat := str "YOUR_TURN"

/-- Macro `#define MSG_REQUEST_ACTION "REQUEST_ACTION"` of `protocol.h`. -/
def MSG_REQUEST_ACTION : List Nat := str "REQUEST_ACTION"

/-- Macro `#define MSG_CARD "CARD"` of `protocol.h`. -/
def MSG_CARD : List Nat := str "CARD"

/-- Macro `#define MSG_BUSTED "BUSTED"` of `protocol.h`. -/
def MSG_BUSTED : List Nat := str "BUSTED"

/-- Macro `#define MSG_RESULT "RESULT"` of `protocol.h`. -/
def MSG_RESULT : List Nat := str "RESULT"

/-- Macro `#define MSG_BROADCAST "BROADCAST"` of `protocol.h`. -/
def MSG_BROADCAST : List Nat := str "BROADCAST"

/-- Macro `#define CMD_ACTION "ACTION"` of `protocol.h`. -/
def CMD_ACTION : List Nat := str "ACTION"

/-- Macro `#define CMD_QUIT "QUIT"` of `protocol.h`. -/
def CMD_QUIT : List Nat := str "QUIT"

/-- Macro `#define CMD_CHAT "CHAT"` of `protocol.h`. -/
def CMD_CHAT : List Nat := str "CHAT"

/-- Function `void card_to_str(Card c, char *out)` (server.c, lines 157-170). -/
def card_to_str (c : Nat) : List Nat :=
  if c > 51 then str "??"
  else
    let suit := c / 13
    let rank := c % 13
    let rbuf :=
      if rank = 0 then str "A"
      else if rank ≥ 1 ∧ rank ≤ 8 then fmt_d (rank + 1)
      else if rank = 9 then str "10"
      else if rank = 10 then str "J"
      else if rank = 11 then str "Q"
      else str "K"
    (str "SHDC").getD suit 0 :: rbuf

/-- The test `strncmp(s, lit, strlen(lit)) == 0` for a NUL-free literal `lit`, `s` being
a C string: `lit` is an initial segment of `s`. -/
def strncmp_eq (s lit : List Nat) : Bool := lit.isPrefixOf s

/-- The C string seen through a pointer to the bytes `s`: everything before the first NUL. -/
def c_string (s : List Nat) : List Nat := s.takeWhile (fun b => b ≠ 0)

/-- The pointer walk `while (*arg == ' ') arg++;`. -/
def skip_spaces (s : List Nat) : List Nat := s.dropWhile (fun b => b = 32)

/-! ## Game state (server.c, lines 11-52) -/

/-- Type `enum PlayerState`. -/
inductive PlayerState
  | EMPTY
  | CONNECTED
  | IN_GAME
  deriving DecidableEq, Repr

/-- Type `enum PlayerAction`. -/
inductive PlayerAction
  | NONE
  | HIT
  | STAND
  deriving DecidableEq, Repr

/-- Type `struct Player`.  `hand` is `hand[0 .. hand_size - 1]`, so `hand_size` is its length;
the mutex and condition variable appear only through the events of the trace. -/
structure Player where
  sockfd : Int
  id : Nat
  name : List Nat
  state : PlayerState
  hand : List Nat
  is_busted : Bool
  has_stood : Bool
  pending_action : PlayerAction
  awaiting_action : Bool
  alive : Bool
  deriving DecidableEq, Repr

/-- A slot as `init_game_state` leaves it. -/
def Player.empty (i : Nat) : Player :=
  { sockfd := -1, id := i + 1, name := [], state := .EMPTY, hand := [], is_busted := false,
    has_stood := false, pending_action := .NONE, awaiting_action := false, alive := false }

instance : Inhabited Player := ⟨Player.empty 0⟩

/-- The synchronisation and network operations a thread performs, in program order. -/
inductive Ev
  /-- Case `pthread_mutex_lock(&G.lock)`. -/
  | lock_G
  /-- Case `pthread_mutex_unlock(&G.lock)`. -/
  | unlock_G
  /-- Case `pthread_mutex_lock(&p->action_lock)` of the slot. -/
  | lock_action (slot : Nat)
  /-- Case `pthread_mutex_unlock(&p->action_lock)` of the slot. -/
  | unlock_action (slot : Nat)
  /-- Case `pthread_cond_signal(&p->action_cond)` of the slot. -/
  | cond_signal (slot : Nat)
  /-- Case `pthread_cond_timedwait(&p->action_cond, &p->action_lock, &ts)` of the slot. -/
  | cond_timedwait (slot : Nat)
  /-- Case `send_msg(fd, frame)`. -/
  | send (fd : Int) (frame : List Nat)
  /-- Case `close(fd)`. -/
  | close (fd : Int)
  deriving DecidableEq, Repr

/-- The threads of the server that act on the game state. -/
inductive Thread
  /-- The thread running `game_loop`. -/
  | coordinator
  /-- The thread running `client_reader_thread` for the slot. -/
  | reader (slot : Nat)
  deriving DecidableEq, Repr

/-- Type `struct GameState`, with the trace of the operations performed so far, each with the
thread that performed it. -/
structure GameState where
  players : List Player
  connected_count : Int
  deck : List Nat
  deck_top : Nat
  rand_seed : Nat
  log : List (Thread × Ev)
  deriving DecidableEq, Repr

/-- Access `&G.players[i]`, read. -/
def GameState.player (g : GameState) (i : Nat) : Player := g.players.getD i default

/-- A store through `p = &G.players[i]`. -/
def GameState.set_player (g : GameState) (i : Nat) (p : Player) : GameState :=
  { g with players := g.players.set i p }

/-- Operations marked with the thread that performs them. -/
def tagged (t : Thread) (evs : List Ev) : List (Thread × Ev) := evs.map (fun e => (t, e))

/-- Append operations of the thread `t` to the trace. -/
def GameState.emit (g : GameState) (t : Thread) (evs : List Ev) : GameState :=
  { g with log := g.log ++ tagged t evs }

/-- The condition `p->alive && p->state == PLAYER_STATE_IN_GAME`. -/
def Player.in_round (p : Player) : Bool := p.alive && p.state == .IN_GAME

/-! ## The session actor: one iteration of `client_reader_thread` (server.c, 236-312) -/

/-- The frames the `CHAT` branch sends: for every slot that is alive and has another
socket, the tag frame and the text frame. -/
def chat_sends (g : GameState) (p : Player) (bcast : List Nat) : List Ev :=
  (List.range MAX_PLAYERS).foldl
    (fun evs i =>
      let q := g.player i
      if q.alive && q.sockfd != p.sockfd then
        evs ++ [Ev.send q.sockfd MSG_BROADCAST, Ev.send q.sockfd bcast]
      else evs)
    []

/-- One iteration of the loop of `client_reader_thread` for the slot `i`, given what
`recv_msg` returned (`rr`) and stored (`msg`).  An iteration of a thread whose loop
condition `p->alive` is false does nothing: the thread has ended. -/
def client_reader_iter (g : GameState) (i : Nat) (rr : Int) (msg : List Nat) : GameState :=
  let p := g.player i
  if !p.alive then g
  else if rr ≤ 0 then
    -- disconnected
    let g1 := (g.emit (.reader i) [.lock_G]).set_player i
      { p with alive := false, state := .EMPTY }
    let g2 := { g1 with connected_count := g1.connected_count - 1 }.emit (.reader i)
      [.unlock_G]
    let p2 := g2.player i
    ((g2.emit (.reader i) [.lock_action i]).set_player i
        { p2 with pending_action := .STAND, awaiting_action := false }).emit (.reader i)
      [.cond_signal i, .unlock_action i, .close p.sockfd]
  else
    let s := c_string msg
    if strncmp_eq s CMD_ACTION then
      let arg := skip_spaces (s.drop CMD_ACTION.length)
      if strncmp_eq arg (str "HIT") then
        ((g.emit (.reader i) [.lock_action i]).set_player i
            { p with pending_action := .HIT,
                     awaiting_action :=
                       if p.awaiting_action then false else p.awaiting_action }).emit
          (.reader i)
          ((if p.awaiting_action then [Ev.cond_signal i] else []) ++ [.unlock_action i])
      else if strncmp_eq arg (str "STAND") then
        ((g.emit (.reader i) [.lock_action i]).set_player i
            { p with pending_action := .STAND,
                     awaiting_action :=
                       if p.awaiting_action then false else p.awaiting_action }).emit
          (.reader i)
          ((if p.awaiting_action then [Ev.cond_signal i] else []) ++ [.unlock_action i])
      else g
    else if strncmp_eq s CMD_QUIT then
      let g1 := (g.emit (.reader i) [.lock_G]).set_player i
        { p with alive := false, state := .EMPTY }
      { g1 with connected_count := g1.connected_count - 1 }.emit (.reader i)
        [.unlock_G, .close p.sockfd]
    else if strncmp_eq s CMD_CHAT then
      let payload := skip_spaces (s.drop CMD_CHAT.length)
      let bcast := snprintf_buf (p.name ++ str ": " ++ payload)
      g.emit (.reader i) ([.lock_G] ++ chat_sends g p bcast ++ [.unlock_G])
    else g

/-- What a reader thread handles at some moment: the slot it serves and the outcome of
its `recv_msg`. -/
structure ReaderEvent where
  slot : Nat
  rr : Int
  msg : List Nat
  deriving DecidableEq, Repr

/-- The reader-thread iterations that take place, in order, while the coordinator is
elsewhere. -/
def apply_reader_events (g : GameState) (evs : List ReaderEvent) : GameState :=
  evs.foldl (fun g e => client_reader_iter g e.slot e.rr e.msg) g

/-! ## The coordinator: one round of `game_loop` (server.c, lines 357-520) -/

/-- One call of `pthread_cond_timedwait`: the reader-thread iterations that take place
while the coordinator is blocked with the action lock released, and whether the call
returns `ETIMEDOUT`. -/
structure WaitStep where
  events : List ReaderEvent
  timedout : Bool
  deriving DecidableEq, Repr

/-- The surroundings of one timed wait: the reader-thread iterations since the
coordinator last looked (`pre`), and the successive `pthread_cond_timedwait` calls.
The deadline is absolute: a call beyond the listed ones returns `ETIMEDOUT`. -/
structure WaitOracle where
  pre : List ReaderEvent
  steps : List WaitStep
  deriving DecidableEq, Repr

/-- The loop condition
`p->awaiting_action && p->pending_action == PLAYER_ACTION_NONE && p->alive`. -/
def wait_cond (p : Player) : Bool :=
  p.awaiting_action && p.pending_action == .NONE && p.alive

/-- The `ETIMEDOUT` branch: `pending_action = STAND; awaiting_action = 0; break;`. -/
def wait_timeout (g : GameState) (i : Nat) : GameState :=
  g.set_player i { g.player i with pending_action := .STAND, awaiting_action := false }

/-- The loop `while (p->awaiting_action && ... ) { rc = pthread_cond_timedwait(...);
if (rc == ETIMEDOUT) { ...; break; } }` (server.c, lines 424-432). -/
def wait_loop (i : Nat) : GameState → List WaitStep → GameState
  | g, [] =>
      if wait_cond (g.player i) then wait_timeout (g.emit .coordinator [.cond_timedwait i]) i
      else g
  | g, s :: rest =>
      if wait_cond (g.player i) then
        let g1 := apply_reader_events (g.emit .coordinator [.cond_timedwait i]) s.events
        if s.timedout then wait_timeout g1 i else wait_loop i g1 rest
      else g

/-- The timed wait for the action of slot `i` (server.c, lines 417-437): the action
read into `act`, and the state after `pthread_mutex_unlock(&p->action_lock)`. -/
def wait_action (g : GameState) (i : Nat) (o : WaitOracle) : PlayerAction × GameState :=
  let g0 := (apply_reader_events g o.pre).emit .coordinator [.lock_action i]
  let g1 := g0.set_player i { g0.player i with awaiting_action := true }
  let g2 := wait_loop i g1 o.steps
  let act := (g2.player i).pending_action
  let g3 := g2.set_player i { g2.player i with pending_action := .NONE, awaiting_action := false }
  (act, g3.emit .coordinator [.unlock_action i])

/-- Function `void reset_player_round(Player *p)`. -/
def reset_player_round (p : Player) : Player :=
  { p with hand := [], is_busted := false, has_stood := false, pending_action := .NONE,
           awaiting_action := false }

/-- The statement `p->hand[p->hand_size++] = deal_card(G.deck, &G.deck_top);` for the
slot `i`. -/
def deal_to_player (g : GameState) (i : Nat) : GameState :=
  let d := deal_card g.deck g.deck_top
  let p := g.player i
  { g with deck_top := d.2 }.set_player i { p with hand := p.hand ++ [d.1] }

/-- The reshuffle check at the start of a round (server.c, lines 372-379). -/
def reshuffle_check (rand_r : Nat → Nat × Nat) (g : GameState) : GameState :=
  let g1 := g.emit .coordinator [.lock_G]
  if g1.deck_top > 52 - RESHUFFLE_THRESHOLD then
    let s := shuffle_deck rand_r init_deck g1.rand_seed
    { g1 with deck := s.1, rand_seed := s.2, deck_top := 0 }
  else g1

/-- The loop that resets the players of the round and deals two cards to each
(server.c, lines 382-390). -/
def deal_players (g : GameState) : GameState :=
  (List.range MAX_PLAYERS).foldl
    (fun g i =>
      if (g.player i).in_round then
        deal_to_player (deal_to_player (g.set_player i (reset_player_round (g.player i))) i) i
      else g)
    g

/-- The state of a round after the deal: the shared state and the coordinator's local
`dealer_hand` (with `dealer_size` its length). -/
structure Round where
  g : GameState
  dealer_hand : List Nat
  deriving DecidableEq, Repr

/-- The statement `dealer_hand[dealer_size++] = deal_card(G.deck, &G.deck_top);`. -/
def deal_to_dealer (r : Round) : Round :=
  let d := deal_card r.g.deck r.g.deck_top
  { g := { r.g with deck_top := d.2 }, dealer_hand := r.dealer_hand ++ [d.1] }

/-- Function `void send_hand_to_player(Player *p)`. -/
def send_hand_to_player (p : Player) : Ev :=
  let c1 := if p.hand.length ≥ 1 then card_to_str (p.hand.getD 0 0) else str "??"
  let c2 := if p.hand.length ≥ 2 then card_to_str (p.hand.getD 1 0) else str "??"
  .send p.sockfd (snprintf_buf (MSG_DEAL ++ str " " ++ c1 ++ str " " ++ c2))

/-- Function `void send_card_to_player(Player *p, Card c)`. -/
def send_card_to_player (p : Player) (c : Nat) : Ev :=
  .send p.sockfd (snprintf_buf (MSG_CARD ++ str " " ++ card_to_str c))

/-- Function `void send_text_to_player(Player *p, const char *text)`: two frames. -/
def send_text_to_player (p : Player) (text : List Nat) : List Ev :=
  [.send p.sockfd MSG_BROADCAST, .send p.sockfd text]

/-- A loop `for (i = 0; i < MAX_PLAYERS; ++i) if (p->alive && p->state == IN_GAME) ...`
that only sends, run with `G.lock` taken before and released after it. -/
def send_to_round_players (g : GameState) (f : Player → List Ev) : GameState :=
  (g.emit .coordinator [.lock_G]).emit .coordinator
    (((List.range MAX_PLAYERS).foldl
      (fun evs i => if (g.player i).in_round then evs ++ f (g.player i) else evs) [])
      ++ [.unlock_G])

/-- What one iteration of a player's turn loop yields: the state, whether the loop
goes on (`continue`) or is left, and the action `act` the iteration read. -/
structure TurnStep where
  g : GameState
  again : Bool
  act : PlayerAction
  deriving DecidableEq, Repr

/-- One iteration of the loop `while (!p->is_busted && !p->has_stood)` for slot `i`
(server.c, lines 412-458). -/
def player_turn_iter (g : GameState) (i : Nat) (o : WaitOracle) : TurnStep :=
  let p := g.player i
  let g1 := g.emit .coordinator
    [.send p.sockfd MSG_YOUR_TURN, .send p.sockfd MSG_REQUEST_ACTION]
  let w := wait_action g1 i o
  let act := w.1
  let g2 := w.2
  if !(g2.player i).alive then ⟨g2, false, act⟩
  else if act = .HIT then
    let c := (deal_card g2.deck g2.deck_top).1
    let g3 := deal_to_player g2 i
    let g4 := g3.emit .coordinator [send_card_to_player (g3.player i) c]
    let hv := hand_value (g4.player i).hand
    if hv > 21 then
      ⟨(g4.set_player i { g4.player i with is_busted := true }).emit .coordinator
        [.send (g4.player i).sockfd MSG_BUSTED], false, act⟩
    else ⟨g4, true, act⟩
  else ⟨g2.set_player i { g2.player i with has_stood := true }, false, act⟩

/-- The loop `while (!p->is_busted && !p->has_stood)` for slot `i`: the final state and
the actions read by its iterations, in order.  The oracles are consumed one per
iteration; beyond them a wait meets no reader event and times out.  The first argument
bounds the number of iterations; `none` means the bound was hit. -/
def player_turn_loop :
    Nat → GameState → Nat → List WaitOracle → Option (GameState × List PlayerAction)
  | 0, _, _, _ => none
  | fuel + 1, g, i, os =>
      if !(g.player i).is_busted && !(g.player i).has_stood then
        let r := player_turn_iter g i (os.headD ⟨[], []⟩)
        if r.again then
          match player_turn_loop fuel r.g i os.tail with
          | none => none
          | some res => some (res.1, r.act :: res.2)
        else some (r.g, [r.act])
      else some (g, [])

/-- The body of the loop over the slots of the per-player turns (server.c, 408-459). -/
def player_turn (g : GameState) (i : Nat) (os : List WaitOracle) : Option GameState :=
  if !(g.player i).in_round then some g
  else (player_turn_loop 22 g i os).map (fun res => res.1)

/-- The per-player turns, in slot order; `oracles` lists, per slot, the surroundings
of its successive waits. -/
def player_turns (g : GameState) (oracles : List (List WaitOracle)) : Option GameState :=
  (List.range MAX_PLAYERS).foldlM (fun g i => player_turn g i (oracles.getD i [])) g

/-- The body of the dealer's loop (server.c, lines 480-493): a card is dealt to the
dealer's hand and announced to the players of the round. -/
def dealer_draw (r : Round) : Round :=
  let c := (deal_card r.g.deck r.g.deck_top).1
  let r1 := deal_to_dealer r
  let dbuf := snprintf_buf (str "Dealer hits " ++ card_to_str c)
  { r1 with g := send_to_round_players r1.g (fun p => send_text_to_player p dbuf) }

/-- The dealer's loop `while (dealer_val < 17)` (server.c, lines 479-495), on the
round state and the local `dealer_val`.  The first argument bounds the number of
iterations; `none` means the bound was hit. -/
def dealer_loop : Nat → Round → Nat → Option (Round × Nat)
  | 0, _, _ => none
  | fuel + 1, r, dealer_val =>
      if dealer_val < 17 then
        dealer_loop fuel (dealer_draw r) (hand_value (dealer_draw r).dealer_hand)
      else some (r, dealer_val)

/-- The reveal of the dealer's two initial cards to the players of the round
(server.c, lines 464-476). -/
def dealer_reveal (r : Round) : Round :=
  let reveal_msg := snprintf_buf (str "Dealer shows " ++ card_to_str (r.dealer_hand.getD 0 0)
    ++ str " " ++ card_to_str (r.dealer_hand.getD 1 0))
  { r with g := send_to_round_players r.g (fun p => send_text_to_player p reveal_msg) }

/-- The dealer's play (server.c, lines 461-495): `dealer_val` is computed, the two
initial cards are revealed, then the drawing loop runs.  The result is the round state
and the final `dealer_val`. -/
def dealer_play (r : Round) : Option (Round × Nat) :=
  let dealer_val := hand_value r.dealer_hand
  dealer_loop 18 (dealer_reveal r) dealer_val

/-- The text of the `RESULT` frame (server.c, lines 504-512). -/
def result_msg (is_busted : Bool) (pval dealer_val : Nat) : List Nat :=
  if is_busted then
    snprintf_buf (MSG_RESULT ++ str " LOSE " ++ fmt_d pval ++ str " " ++ fmt_d dealer_val)
  else if dealer_val > 21 then
    snprintf_buf (MSG_RESULT ++ str " WIN " ++ fmt_d pval ++ str " " ++ fmt_d dealer_val)
  else if pval > dealer_val then
    snprintf_buf (MSG_RESULT ++ str " WIN " ++ fmt_d pval ++ str " " ++ fmt_d dealer_val)
  else if pval < dealer_val then
    snprintf_buf (MSG_RESULT ++ str " LOSE " ++ fmt_d pval ++ str " " ++ fmt_d dealer_val)
  else
    snprintf_buf (MSG_RESULT ++ str " PUSH " ++ fmt_d pval ++ str " " ++ fmt_d dealer_val)

/-- The settlement (server.c, lines 497-515), given the final `dealer_val`. -/
def settle (g : GameState) (dealer_val : Nat) : GameState :=
  send_to_round_players g
    (fun p => [.send p.sockfd (result_msg p.is_busted (hand_value p.hand) dealer_val)])

/-- The deal (server.c, lines 381-405): two cards to every player of the round, two to
the dealer, then the `DEAL` frames. -/
def deal_round (g : GameState) : Round :=
  let g1 := deal_players g
  let r1 := deal_to_dealer (deal_to_dealer { g := g1, dealer_hand := [] })
  { r1 with g := send_to_round_players r1.g (fun p => [send_hand_to_player p]) }

/-- The body of one round of `game_loop`, from the reshuffle check to the settlement
(server.c, lines 372-515), with every lock call taken as an operation that returns: the
calls are recorded in the trace and nothing waits for a mutex.  How far `game_loop`
gets through this body with `G.lock` the default mutex it is initialised as is
`game_loop_round`.  `none` means an iteration bound of a loop was hit. -/
def game_round (rand_r : Nat → Nat × Nat) (g : GameState) (oracles : List (List WaitOracle)) :
    Option GameState :=
  let r1 := deal_round (reshuffle_check rand_r g)
  (player_turns r1.g oracles).bind fun g3 =>
    (dealer_play { g := g3, dealer_hand := r1.dealer_hand }).map fun r2 =>
      settle r2.1.g r2.2

/-! ## The outcome policy of the settlement, as the specification words it -/

/-- The outcome word of a `RESULT` frame. -/
inductive Outcome
  | WIN
  | LOSE
  | PUSH
  deriving DecidableEq, Repr

/-- The outcome policy, in priority order: player busted gives LOSE; else dealer busted
(above 21) gives WIN; else the totals are compared: player above dealer gives WIN, below
gives LOSE, equal gives PUSH. -/
def outcome_policy (is_busted : Bool) (pval dval : Nat) : Outcome :=
  if is_busted then .LOSE
  else if 21 < dval then .WIN
  else if dval < pval then .WIN
  else if pval < dval then .LOSE
  else .PUSH

/-- The word that stands for an outcome on the wire. -/
def Outcome.word : Outcome → List Nat
  | .WIN => str "WIN"
  | .LOSE => str "LOSE"
  | .PUSH => str "PUSH"

/-- The `RESULT` frame of the protocol table: the tag, the outcome word, the player
total and the dealer total, separated by single spaces. -/
def result_text (o : Outcome) (pval dval : Nat) : List Nat :=
  str "RESULT" ++ str " " ++ o.word ++ str " " ++ fmt_d pval ++ str " " ++ fmt_d dval

/-! ## Vocabulary of the proofs -/

/-- The slot `p'` is what reader-thread activity may have made of the slot `p`: the
fields owned by the coordinator are untouched, a slot that is not alive stays so, and a
live slot whose action was awaited or pending keeps that property. -/
def Player.reader_le (p' p : Player) : Prop :=
  p'.hand = p.hand ∧ p'.is_busted = p.is_busted ∧ p'.has_stood = p.has_stood ∧
  p'.sockfd = p.sockfd ∧
  (p'.alive = true → p.alive = true ∧ p'.state = p.state) ∧
  (p'.alive = true → (p.awaiting_action = true ∨ p.pending_action ≠ .NONE) →
    (p'.awaiting_action = true ∨ p'.pending_action ≠ .NONE))

/-- The state `g'` is what reader-thread activity may have made of `g`: the deck, its
cursor and the seed are untouched, and every slot is related by `Player.reader_le`. -/
def GameState.reader_le (g' g : GameState) : Prop :=
  g'.deck = g.deck ∧ g'.deck_top = g.deck_top ∧ g'.rand_seed = g.rand_seed ∧
  g'.players.length = g.players.length ∧ ∀ j, (g'.player j).reader_le (g.player j)

/-- The slot `p'` is what a timed wait may have made of the slot `p`: hand and round
flags untouched, and a slot that is not alive stays so. -/
def Player.env_le (p' p : Player) : Prop :=
  p'.hand = p.hand ∧ p'.is_busted = p.is_busted ∧ p'.has_stood = p.has_stood ∧
  p'.sockfd = p.sockfd ∧ (p'.alive = true → p.alive = true ∧ p'.state = p.state)

/-- The state `g'` is what a timed wait may have made of `g`. -/
def GameState.env_le (g' g : GameState) : Prop :=
  g'.deck = g.deck ∧ g'.deck_top = g.deck_top ∧ g'.rand_seed = g.rand_seed ∧
  g'.players.length = g.players.length ∧ ∀ j, (g'.player j).env_le (g.player j)

/-- The slot `p'` is a later stage, within a round, of the slot `p`. -/
def Player.round_le (p' p : Player) : Prop :=
  p'.sockfd = p.sockfd ∧ (p'.alive = true → p.alive = true ∧ p'.state = p.state)

/-- The state `g'` is a later stage of `g` within a round, after the reshuffle check:
same deck contents and seed, same slots, a cursor that has only advanced and has not
passed 52 if it was not beyond it. -/
def GameState.round_le (g' g : GameState) : Prop :=
  g'.deck = g.deck ∧ g'.rand_seed = g.rand_seed ∧ g'.players.length = g.players.length ∧
  g.deck_top ≤ g'.deck_top ∧ (g.deck_top ≤ 52 → g'.deck_top ≤ 52) ∧
  ∀ j, (g'.player j).round_le (g.player j)

/-! ## A player's turn, as the specification words it -/

/-- How a turn stands after a sequence of resolved actions: the hand, the deck cursor,
the two flags, whether the turn has ended, and the actions that were not needed. -/
structure TurnOutcome where
  hand : List Nat
  top : Nat
  is_busted : Bool
  has_stood : Bool
  ended : Bool
  rest : List PlayerAction
  deriving DecidableEq, Repr

/-- A turn driven by resolved actions.  On Hit one card is dealt and appended to the
hand; a total above 21 marks the player busted and ends the turn, otherwise the next
action is awaited.  On Stand (real or forced) the turn ends, the hand being left as
it is. -/
def turn_by_actions (deck : List Nat) : List PlayerAction → List Nat → Nat → TurnOutcome
  | [], hand, top => ⟨hand, top, false, false, false, []⟩
  | .HIT :: acts, hand, top =>
      if 21 < hand_value (hand ++ [(deal_card deck top).1]) then
        ⟨hand ++ [(deal_card deck top).1], (deal_card deck top).2, true, false, true, acts⟩
      else turn_by_actions deck acts (hand ++ [(deal_card deck top).1]) (deal_card deck top).2
  | .STAND :: acts, hand, top => ⟨hand, top, false, true, true, acts⟩
  | .NONE :: acts, hand, top => ⟨hand, top, false, true, true, acts⟩

/-! ## Example states -/

/-- A connected, live, in-game slot with the given hand. -/
def seated (i : Nat) (hand : List Nat) : Player :=
  { Player.empty i with sockfd := 10 + i, state := .IN_GAME, alive := true, hand := hand }

/-- A table after the deal to one player: the player holds a ten and a nine (the first
two cards of the deck), the next two cards (a two and a three) went to the dealer, and
the cursor is on a five, followed by a six and a seven. -/
def table_one : GameState :=
  { players := [seated 0 [9, 8]], connected_count := 1,
    deck := [9, 8, 1, 2, 4, 5, 6, 0, 3, 7] ++ (List.range 52).drop 10, deck_top := 4,
    rand_seed := 1, log := [] }

/-- A table at the start of a round: six seated players, the deck in canonical order,
15 undealt cards. -/
def table_six : GameState :=
  { players := (List.range 6).map (fun i => seated i []), connected_count := 6,
    deck := List.range 52, deck_top := 37, rand_seed := 1, log := [] }

/-- The results of `n` successive `deal_card` calls, the cursor starting at `top`. -/
def deal_stream (deck : List Nat) : Nat → Nat → List Nat
  | _, 0 => []
  | top, n + 1 => (deal_card deck top).1 :: deal_stream deck (deal_card deck top).2 n

/-- The cursor after `n` successive `deal_card` calls. -/
def deal_cursor (deck : List Nat) : Nat → Nat → Nat
  | top, 0 => top
  | top, n + 1 => deal_cursor deck (deal_card deck top).2 n

/-- The round state before the dealer plays, at a table whose deck has one undealt
card: the dealer holds a two and a three, the last card of the deck is a king. -/
def round_last_card : Round :=
  { g := { players := [seated 0 [9, 8]], connected_count := 1,
           deck := [0, 49, 50] ++ (List.range 49).drop 3 ++ [1, 2, 51], deck_top := 51,
           rand_seed := 1, log := [] },
    dealer_hand := [1, 2] }

/-- Every slot other than `i` is, in `g'`, what a timed wait may have made of it in `g`:
the coordinator's work on slot `i` does not touch the other hands and round flags. -/
def GameState.env_le_off (i : Nat) (g' g : GameState) : Prop :=
  ∀ j, j ≠ i → (g'.player j).env_le (g.player j)

/-! ## The session actor's loop control and the broadcast paths -/

/-- Whether an iteration of the loop of `client_reader_thread` that got `rr` and `msg`
from `recv_msg` leaves the loop through one of its two `break` statements (the
`rr <= 0` branch and the `QUIT` branch; server.c, lines 242-259 and 282-291). -/
def client_reader_leaves (rr : Int) (msg : List Nat) : Bool :=
  if rr ≤ 0 then true
  else
    let s := c_string msg
    if strncmp_eq s CMD_ACTION then false
    else if strncmp_eq s CMD_QUIT then true
    else false

/-- One whole iteration of the loop of `client_reader_thread` for the slot `i`:
`recv_msg` on the session's socket, then the dispatch on what it returned.  A null
`*out_buf` is passed on as the empty buffer (it is only looked at when `rr > 0`). -/
def client_reader_recv (g : GameState) (i : Nat) (fd : Fd) (junk : List Nat)
    (malloc_ok : Bool) : GameState × Bool × Fd :=
  let r := recv_msg fd junk malloc_ok
  (client_reader_iter g i r.ret (r.out_buf.getD []),
    client_reader_leaves r.ret (r.out_buf.getD []), r.fd)

/-- Function `void broadcast_msg(const char *fmt, ...)` (server.c, lines 218-233), run
by the thread `t` with the formatted text `text`: under the registry lock, every slot
that is not empty and is alive is sent the tag frame and then the text frame. -/
def broadcast_msg (g : GameState) (t : Thread) (text : List Nat) : GameState :=
  let buf := snprintf_buf text
  g.emit t ([.lock_G] ++
    (List.range MAX_PLAYERS).foldl
      (fun evs i =>
        let q := g.player i
        if q.state != .EMPTY && q.alive then
          evs ++ [Ev.send q.sockfd (MSG_BROADCAST ++ str " "), Ev.send q.sockfd buf]
        else evs)
      [] ++ [.unlock_G])

/-- A table where the coordinator is blocked in the timed wait for the action of the
one seated player: the prompt is out, `awaiting_action` is set and `pending_action`
is still `PLAYER_ACTION_NONE`. -/
def table_waiting : GameState :=
  table_one.set_player 0 { seated 0 [9, 8] with awaiting_action := true }

/-! ## Lock discipline, read off the trace -/

/-- The operations of the thread `t` in a trace, in order. -/
def thread_events (t : Thread) (log : List (Thread × Ev)) : List Ev :=
  (log.filter (fun x => x.1 = t)).map Prod.snd

/-- The locks a thread holds: how many acquisitions of `G.lock` it has not released,
and the slots whose `action_lock` it holds. -/
structure Held where
  registry : Nat
  action : List Nat
  deriving DecidableEq, Repr

/-- No lock is held. -/
def Held.nothing (h : Held) : Bool := h.registry == 0 && h.action.isEmpty

/-- One operation of a thread that holds `h`, under the rule that a lock is acquired,
and a frame is sent, only while no lock is held; `none` means the rule is broken.  A
lock that is released must be held. -/
def lock_free_step (h : Held) : Ev → Option Held
  | .lock_G => if h.nothing then some { h with registry := h.registry + 1 } else none
  | .unlock_G => if 0 < h.registry then some { h with registry := h.registry - 1 } else none
  | .lock_action i => if h.nothing then some { h with action := i :: h.action } else none
  | .unlock_action i => if i ∈ h.action then some { h with action := h.action.erase i } else none
  | .send _ _ => if h.nothing then some h else none
  | .cond_signal _ => some h
  | .cond_timedwait _ => some h
  | .close _ => some h

/-- The operations of a thread, one after the other, under `lock_free_step`. -/
def lock_free_run (h : Held) : List Ev → Option Held
  | [] => some h
  | e :: es => (lock_free_step h e).bind (fun h1 => lock_free_run h1 es)

/-- The operations `evs` of a thread that starts with no lock acquire locks and send
frames only while no lock is held, and leave no lock held. -/
def lock_free (evs : List Ev) : Bool :=
  match lock_free_run ⟨0, []⟩ evs with
  | some h => h.nothing
  | none => false

/-- Every operation of the list is a `send_msg`. -/
def all_sends (evs : List Ev) : Bool :=
  evs.all (fun e => match e with | .send _ _ => true | _ => false)

/-- The trace of `g'` continues the trace of `g` with operations of the thread `t`
only: `G.lock` is taken, frames are sent, `G.lock` is released. -/
def GameState.sends_locked (t : Thread) (g' g : GameState) : Prop :=
  ∃ sends, all_sends sends = true ∧
    g'.log = g.log ++ tagged t (Ev.lock_G :: (sends ++ [Ev.unlock_G]))

/-! ## The shuffle driven by chosen indices -/

/-- A `rand_r` that hands out chosen values: called with the seed equal to the loop
variable `i` of `shuffle_deck`, it returns `j i` and stores back `i - 1`, the next value
of the loop variable.  With `j i ≤ i` the index `rand_r(seedp) % (i + 1)` of step `i` is
`j i`. -/
def index_source (j : Nat → Nat) : Nat → Nat × Nat := fun s => (j s, s - 1)

/-! ## Hand capacity -/

/-- The capacity of the arrays `Card hand[12]` of a player and `Card dealer_hand[12]`
of `game_loop`. -/
def HAND_CAPACITY : Nat := 12

/-- The entries of a hand that are cards, not the value `0xFF` that `deal_card` returns
when the deck is used up. -/
def real_cards (hand : List Nat) : List Nat := hand.filter (fun c => c != NO_CARD)

/-- The cards of the hand were dealt from the deck, in order, from positions below the
cursor `top`; its other entries are `0xFF`. -/
def dealt_from (deck : List Nat) (top : Nat) (hand : List Nat) : Prop :=
  (real_cards hand).Sublist (deck.take top)

/-- The body of the dealing loop for the slot `i` (server.c, lines 383-389). -/
def deal_players_step (g : GameState) (i : Nat) : GameState :=
  if (g.player i).in_round then
    deal_to_player (deal_to_player (g.set_player i (reset_player_round (g.player i))) i) i
  else g

/-! ## The round and the registry mutex -/

/-- Whether the thread `t` holds `G.lock` after the operations of a trace, given
whether it held it before: an acquisition by `t` takes it, a release by `t` gives it
up. -/
def holds_G (t : Thread) (held : Bool) : List (Thread × Ev) → Bool
  | [] => held
  | (u, .lock_G) :: rest => holds_G t (if u = t then true else held) rest
  | (u, .unlock_G) :: rest => holds_G t (if u = t then false else held) rest
  | _ :: rest => holds_G t held rest

/-- The cards of the initial deal (server.c, lines 381-395): two to every player of the
round, then two to the dealer; the state is the one in which line 398 is reached. -/
def deal_cards (g : GameState) : Round :=
  deal_to_dealer (deal_to_dealer { g := deal_players g, dealer_hand := [] })

/-- How far a round of `game_loop` gets. -/
inductive RoundRun
  /-- Case the call `pthread_mutex_lock(&G.lock)` of line 398 does not return: the
  coordinator holds `G.lock` itself.  The state is the one in which the call is made. -/
  | blocked (r : Round)
  /-- Case the round is played to its end. -/
  | finished (g : GameState)
  deriving DecidableEq, Repr

/-- One round of `game_loop` (server.c, lines 372-515) with `G.lock` the default,
non-recursive mutex of `pthread_mutex_init(&g->lock, NULL)`: a `pthread_mutex_lock` by
the thread that holds the mutex does not return.  The coordinator enters the round
without `G.lock` (lines 360-366 release it), takes it for the reshuffle check (line
373), deals, and calls `pthread_mutex_lock(&G.lock)` again at line 398; whether it
holds the mutex then is read off the operations it has recorded since the round
began. -/
def game_loop_round (rand_r : Nat → Nat × Nat) (g : GameState)
    (oracles : List (List WaitOracle)) : Option RoundRun :=
  let r := deal_cards (reshuffle_check rand_r g)
  if holds_G .coordinator false (r.g.log.drop g.log.length) then some (.blocked r)
  else (game_round rand_r g oracles).map .finished

/-! # Lemmas -/

/-! ## `read` and `write` -/

theorem sys_read_eintr {fd fd1 : Fd} {count : Nat} (h : sys_read fd count = (.eintr, fd1)) :
    fd1.events.length < fd.events.length ∧ fd1.bytes = fd.bytes := by
  unfold sys_read at h
  split at h <;> simp_all
  obtain ⟨rfl⟩ := h
  simp

theorem sys_read_data {fd fd1 : Fd} {count : Nat} {bs : List Nat}
    (h : sys_read fd count = (.data bs, fd1)) :
    fd1.events.length ≤ fd.events.length ∧ bs.length ≤ count ∧ fd.bytes = bs ++ fd1.bytes ∧
      (bs = [] → 0 < count → fd.bytes = []) := by
  unfold sys_read at h
  split at h <;> simp_all
  all_goals
    obtain ⟨rfl, rfl⟩ := h
    simp
    intro h0 hc
    rcases h0 with h0 | h0
    · omega
    · exact h0

theorem sys_write_eintr {out o1 : OutFd} {p : List Nat} {count : Nat}
    (h : sys_write out p count = (.eintr, o1)) :
    o1.events.length < out.events.length ∧ o1.written = out.written := by
  unfold sys_write at h
  split at h <;> simp_all
  obtain ⟨rfl⟩ := h
  simp

theorem sys_write_wrote {out o1 : OutFd} {p : List Nat} {count n : Nat}
    (h : sys_write out p count = (.wrote n, o1)) :
    o1.events.length ≤ out.events.length ∧ n ≤ count ∧ (0 < count → 0 < n) ∧
      o1.written = out.written ++ p.take n := by
  unfold sys_write at h
  split at h <;> simp_all
  all_goals
    obtain ⟨rfl, rfl⟩ := h
    simp

/-! ## `hand_value` -/

theorem hand_value_fold_eq (hand : List Nat) (t a : Nat) :
    hand.foldl hand_value_step (t, a)
      = (t + hard_total hand + 10 * ace_count hand, a + ace_count hand) := by
  induction hand generalizing t a with
  | nil => simp [hard_total, ace_count]
  | cons c cs ih =>
    simp only [List.foldl_cons]
    by_cases h0 : c % 13 = 0
    · have hs : hand_value_step (t, a) c = (t + 11, a + 1) := by
        simp [hand_value_step, h0]
      rw [hs, ih]
      simp [hard_total, ace_count, card_points_hard, h0, List.countP_cons]
      constructor <;> omega
    · by_cases h10 : 10 ≤ c % 13
      · have hs : hand_value_step (t, a) c = (t + 10, a) := by
          simp [hand_value_step, h0, h10]
        rw [hs, ih]
        simp [hard_total, ace_count, card_points_hard, h0, h10, List.countP_cons]
        omega
      · have hs : hand_value_step (t, a) c = (t + (c % 13 + 1), a) := by
          simp [hand_value_step, h0, h10]
        rw [hs, ih]
        simp [hard_total, ace_count, card_points_hard, h0, h10, List.countP_cons]
        omega

/-- What the demotion loop computes from `hard + 10 * aces`. -/
theorem hand_value_demote_spec (hard aces : Nat) :
    ∃ k, k ≤ aces ∧ hand_value_demote (hard + 10 * aces) aces = hard + 10 * k ∧
      (21 < hard + 10 * k → k = 0) ∧
      (∀ j, j ≤ aces → hard + 10 * j ≤ 21 → j ≤ k) := by
  induction aces with
  | zero => exact ⟨0, le_refl _, by simp [hand_value_demote], fun _ => rfl, fun j hj _ => hj⟩
  | succ n ih =>
    by_cases h : 21 < hard + 10 * (n + 1)
    · obtain ⟨k, hk, he, hz, hm⟩ := ih
      refine ⟨k, by omega, ?_, hz, ?_⟩
      · have : hard + 10 * (n + 1) - 10 = hard + 10 * n := by omega
        simp [hand_value_demote, h, this, he]
      · intro j hj hle
        have : j ≤ n := by omega
        exact hm j this hle
    · refine ⟨n + 1, le_refl _, ?_, fun h2 => absurd h2 h, fun j hj _ => hj⟩
      simp [hand_value_demote, h]

theorem hand_value_eq (hand : List Nat) :
    hand_value hand = hand_value_demote (hard_total hand + 10 * ace_count hand) (ace_count hand) := by
  unfold hand_value
  rw [hand_value_fold_eq]
  simp

theorem hard_total_cons (c : Nat) (cs : List Nat) :
    hard_total (c :: cs) = card_points_hard c + hard_total cs := by
  simp [hard_total]

theorem ace_count_cons (c : Nat) (cs : List Nat) :
    ace_count (c :: cs) = ace_count cs + (if c % 13 = 0 then 1 else 0) := by
  simp [ace_count, List.countP_cons]

theorem hard_total_append (xs ys : List Nat) :
    hard_total (xs ++ ys) = hard_total xs + hard_total ys := by
  simp [hard_total]

theorem card_points_hard_pos (c : Nat) : 1 ≤ card_points_hard c := by
  unfold card_points_hard
  split_ifs <;> omega

theorem card_points_hard_le (c : Nat) : card_points_hard c ≤ 10 := by
  unfold card_points_hard
  split_ifs <;> omega

/-- The running total of the `for` loop never exceeds `11 * n`, so it fits a C `int`
for every hand of at most 195225786 cards. -/
theorem hand_value_fold_le (hand : List Nat) :
    (hand.foldl hand_value_step (0, 0)).1 ≤ 11 * hand.length := by
  rw [hand_value_fold_eq]
  simp only [Nat.zero_add]
  induction hand with
  | nil => simp [hard_total, ace_count]
  | cons c cs ih =>
    rw [hard_total_cons, ace_count_cons, List.length_cons]
    unfold card_points_hard
    split_ifs <;> omega

/-- The hard total is a lower bound of `hand_value`. -/
theorem hard_total_le_hand_value (hand : List Nat) : hard_total hand ≤ hand_value hand := by
  obtain ⟨k, _, he, _, _⟩ := hand_value_demote_spec (hard_total hand) (ace_count hand)
  rw [hand_value_eq, he]
  omega

theorem sys_read_events {fd fd1 : Fd} {count : Nat} {r : ReadResult}
    (h : sys_read fd count = (r, fd1)) :
    (∀ e, e ∈ fd1.events → e ∈ fd.events) ∧ (r = .error → ReadEvent.error ∈ fd.events) := by
  unfold sys_read at h
  split at h
  all_goals
    rename_i heq
    simp only [Prod.mk.injEq] at h
    obtain ⟨rfl, rfl⟩ := h
    simp [heq]
    try (intro e he; exact Or.inr he)

/-- On a connection that still holds the `left` bytes `xs` asked for, `read_all` either
fails with -1 on a `read` error or stores exactly `xs`, leaves the rest of the stream, and
returns `count`; without a `read` error in the schedule it is the latter. -/
theorem read_all_loop_full (count : Nat) :
    ∀ (n : Nat) (fd : Fd) (left : Nat) (buf xs rest : List Nat),
      fd.events.length + left ≤ n → fd.bytes = xs ++ rest → xs.length = left →
      (ReadEvent.error ∉ fd.events →
          ReadAllOk count buf xs rest (read_all_loop count fd left buf)) ∧
      ((read_all_loop count fd left buf).1 = -1 ∨
          ReadAllOk count buf xs rest (read_all_loop count fd left buf)) := by
  intro n
  induction n with
  | zero =>
    intro fd left buf xs rest hn hb hx
    have hl : left = 0 := by omega
    subst hl
    have hxs : xs = [] := List.length_eq_zero.mp hx
    subst hxs
    rw [read_all_loop]
    have : ReadAllOk count buf [] rest ((count : Int), buf, fd) := by
      refine ⟨fd.events, ?_⟩
      cases fd
      simp_all
    simp [this]
  | succ n ih =>
    intro fd left buf xs rest hn hb hx
    by_cases hl : left = 0
    · subst hl
      have hxs : xs = [] := List.length_eq_zero.mp hx
      subst hxs
      rw [read_all_loop]
      have : ReadAllOk count buf [] rest ((count : Int), buf, fd) := by
        refine ⟨fd.events, ?_⟩
        cases fd
        simp_all
      simp [this]
    · rw [read_all_loop]
      simp only [hl, if_false]
      split
      next fd1 h =>
        have h1 := sys_read_eintr h
        have h2 := sys_read_events h
        have := ih fd1 left buf xs rest (by omega) (by rw [h1.2]; exact hb) hx
        exact ⟨fun hne => this.1 (fun hm => hne (h2.1 _ hm)), this.2⟩
      next fd1 h =>
        have h2 := sys_read_events h
        exact ⟨fun hne => absurd (h2.2 rfl) hne, Or.inl rfl⟩
      next bs fd1 h =>
        have h1 := sys_read_data h
        have h2 := sys_read_events h
        have hne : bs ≠ [] := by
          intro hbs
          have h0 := h1.2.2.2 hbs (by omega)
          rw [h0] at hb
          have hx0 : xs = [] := by
            cases xs with
            | nil => rfl
            | cons a as => simp at hb
          rw [hx0] at hx
          exact hl hx.symm
        have hlen : bs.length ≠ 0 := fun h0 => hne (List.length_eq_zero.mp h0)
        simp only [hlen, if_false]
        have hbb : bs ++ fd1.bytes = xs ++ rest := by rw [← h1.2.2.1, hb]
        have hle : bs.length ≤ xs.length := by omega
        have e1 : bs = xs.take bs.length := by
          have := congrArg (List.take bs.length) hbb
          simpa [List.take_append_of_le_length hle] using this
        have e2 : fd1.bytes = xs.drop bs.length ++ rest := by
          have := congrArg (List.drop bs.length) hbb
          simpa [List.drop_append_of_le_length hle] using this
        have e3 : bs ++ xs.drop bs.length = xs := by
          have := List.take_append_drop bs.length xs
          rw [← e1] at this
          exact this
        have := ih fd1 (left - bs.length) (buf ++ bs) (xs.drop bs.length) rest
          (by omega) e2 (by simp; omega)
        unfold ReadAllOk at this ⊢
        rw [List.append_assoc, e3] at this
        exact ⟨fun hne => this.1 (fun hm => hne (h2.1 _ hm)), this.2⟩

/-- A `write_all` that does not return -1 has appended the first `left` bytes of the
buffer to the stream, and returned `count`. -/
theorem write_all_loop_ok (count : Nat) :
    ∀ (n : Nat) (out : OutFd) (p : List Nat) (left : Nat),
      out.events.length + left ≤ n →
      (write_all_loop count out p left).1 = -1 ∨
        ((write_all_loop count out p left).1 = (count : Int) ∧
          (write_all_loop count out p left).2.written = out.written ++ p.take left) := by
  intro n
  induction n with
  | zero =>
    intro out p left hn
    have hl : left = 0 := by omega
    subst hl
    rw [write_all_loop]
    simp
  | succ n ih =>
    intro out p left hn
    by_cases hl : left = 0
    · subst hl
      rw [write_all_loop]
      simp
    · rw [write_all_loop]
      simp only [hl, if_false]
      split
      next o1 h =>
        have h1 := sys_write_eintr h
        have := ih o1 p left (by omega)
        rw [h1.2] at this
        exact this
      next o1 h => exact Or.inl rfl
      next k o1 h =>
        have h1 := sys_write_wrote h
        have h0 := h1.2.2.1 (by omega)
        have := ih o1 (p.drop k) (left - k) (by omega)
        rw [h1.2.2.2, List.append_assoc] at this
        have e : List.take k p ++ List.take (left - k) (List.drop k p) = List.take left p := by
          have hk : k + (left - k) = left := by omega
          rw [← hk, List.take_add]
          simp
        rw [e] at this
        exact this

theorem write_all_ok (out : OutFd) (buf : List Nat) (count : Nat) :
    (write_all out buf count).1 = -1 ∨
      ((write_all out buf count).1 = (count : Int) ∧
        (write_all out buf count).2.written = out.written ++ buf.take count) :=
  write_all_loop_ok count _ out buf count (le_refl _)

/-- The schedule left after `read_all` is part of the schedule before it. -/
theorem read_all_loop_events (count : Nat) :
    ∀ (n : Nat) (fd : Fd) (left : Nat) (buf : List Nat),
      fd.events.length + left ≤ n →
      ∀ e, e ∈ (read_all_loop count fd left buf).2.2.events → e ∈ fd.events := by
  intro n
  induction n with
  | zero =>
    intro fd left buf hn
    have hl : left = 0 := by omega
    subst hl
    rw [read_all_loop]
    simp
  | succ n ih =>
    intro fd left buf hn
    by_cases hl : left = 0
    · subst hl
      rw [read_all_loop]
      simp
    · rw [read_all_loop]
      simp only [hl, if_false]
      split
      next fd1 h =>
        have h1 := sys_read_eintr h
        have h2 := sys_read_events h
        intro e he
        exact h2.1 e (ih fd1 left buf (by omega) e he)
      next fd1 h =>
        have h2 := sys_read_events h
        intro e he
        exact h2.1 e he
      next bs fd1 h =>
        have h1 := sys_read_data h
        have h2 := sys_read_events h
        split
        · intro e he
          exact h2.1 e he
        · rename_i hlen
          intro e he
          exact h2.1 e (ih fd1 (left - bs.length) (buf ++ bs) (by omega) e he)

/-- Function `read_all` of `xs.length` bytes on a connection that holds `xs ++ rest`. -/
theorem read_all_full (fd : Fd) (xs rest : List Nat) (hb : fd.bytes = xs ++ rest) :
    (ReadEvent.error ∉ fd.events →
        ∃ es, read_all fd xs.length = ((xs.length : Int), xs, (⟨rest, es⟩ : Fd)) ∧
          ∀ e, e ∈ es → e ∈ fd.events) ∧
    ((read_all fd xs.length).1 = -1 ∨
        ∃ es, read_all fd xs.length = ((xs.length : Int), xs, (⟨rest, es⟩ : Fd))) := by
  have h := read_all_loop_full xs.length _ fd xs.length [] xs rest (le_refl _) hb rfl
  have hev := read_all_loop_events xs.length _ fd xs.length [] (le_refl _)
  unfold ReadAllOk at h
  simp only [List.nil_append] at h
  unfold read_all
  refine ⟨fun hne => ?_, h.2⟩
  obtain ⟨es, he⟩ := h.1 hne
  refine ⟨es, he, ?_⟩
  intro e hmem
  apply hev
  rw [he]
  exact hmem

theorem ntohl_htonl (x : Nat) (h : x < 2 ^ 32) : ntohl (htonl x) = x := by
  simp only [ntohl, htonl, List.getD_cons_zero, List.getD_cons_succ]
  omega

theorem strlen_of_no_nul (msg : List Nat) (h : ∀ b ∈ msg, b ≠ 0) : strlen msg = msg.length := by
  unfold strlen
  congr 1
  rw [List.takeWhile_eq_self_iff]
  intro b hb
  simpa using h b hb

/-! ## The shuffle -/

theorem swap_cards_length (deck : List Nat) (i j : Nat) :
    (swap_cards deck i j).length = deck.length := by
  simp [swap_cards]

/-- Exchanging two entries of a list rearranges it. -/
theorem swap_cards_perm (deck : List Nat) (i j : Nat) (hi : i < deck.length)
    (hj : j < deck.length) : (swap_cards deck i j).Perm deck := by
  rw [List.perm_iff_count]
  intro b
  have hi2 : j < (deck.set i (deck.getD j 0)).length := by simpa using hj
  have hget : (deck.set i (deck.getD j 0))[j] = deck[j] := by
    rw [List.getElem_set]
    split
    · rename_i hij
      subst hij
      exact List.getD_eq_getElem _ _ hj
    · rfl
  have hdi : deck.getD i 0 = deck[i] := List.getD_eq_getElem _ _ hi
  have hdj : deck.getD j 0 = deck[j] := List.getD_eq_getElem _ _ hj
  have hci : (if deck[i] == b then 1 else 0) ≤ deck.count b := by
    split
    · rename_i hb
      have hb2 : deck[i] = b := by simpa using hb
      have : b ∈ deck := hb2 ▸ List.getElem_mem hi
      exact List.count_pos_iff.mpr this
    · exact Nat.zero_le _
  unfold swap_cards
  rw [List.count_set _ _ _ _ hi2, List.count_set _ _ _ _ hi, hget, hdi, hdj]
  omega

theorem shuffle_loop_perm (rand_r : Nat → Nat × Nat) :
    ∀ (i : Nat) (deck : List Nat) (seed : Nat), i < deck.length →
      (shuffle_loop rand_r i deck seed).1.Perm deck := by
  intro i
  induction i with
  | zero =>
    intro deck seed _
    simp [shuffle_loop]
  | succ i ih =>
    intro deck seed hi
    have hj : (rand_r seed).1 % (i + 1 + 1) < deck.length :=
      Nat.lt_of_lt_of_le (Nat.mod_lt _ (by omega)) (by omega)
    have hs := swap_cards_perm deck (i + 1) ((rand_r seed).1 % (i + 1 + 1)) hi hj
    have := ih (swap_cards deck (i + 1) ((rand_r seed).1 % (i + 1 + 1))) (rand_r seed).2
      (by rw [swap_cards_length]; omega)
    simp only [shuffle_loop]
    exact this.trans hs

/-! ## Sending loops -/

theorem foldl_sends (c : Nat → Bool) (f : Nat → List Ev) (l : List Nat) (acc : List Ev) :
    l.foldl (fun evs i => if c i then evs ++ f i else evs) acc
      = acc ++ ((l.filter c).map f).flatten := by
  induction l generalizing acc with
  | nil => simp
  | cons a as ih =>
    simp only [List.foldl_cons, List.filter_cons]
    by_cases h : c a
    · simp [h, ih]
    · simp [h, ih]

theorem flatten_map_singleton {α β : Type} (f : α → β) (l : List α) :
    (l.map (fun x => [f x])).flatten = l.map f := by
  induction l with
  | nil => rfl
  | cons a as ih => simp [ih]

/-- The trace of a sending loop: `G.lock` is taken, every slot of the round gets its
frames in slot order, `G.lock` is released; nothing else changes. -/
theorem send_to_round_players_eq (g : GameState) (f : Player → List Ev) :
    send_to_round_players g f =
      { g with log := g.log ++ tagged .coordinator (Ev.lock_G ::
        ((((List.range MAX_PLAYERS).filter (fun i => (g.player i).in_round)).map
          (fun i => f (g.player i))).flatten ++ [Ev.unlock_G])) } := by
  unfold send_to_round_players
  rw [foldl_sends (fun i => (g.player i).in_round) (fun i => f (g.player i))]
  simp [GameState.emit, tagged]

theorem fmt_d_length (n : Nat) (h : n < 2 ^ 31) : (fmt_d n).length ≤ 10 := by
  have h1 : (fmt_d n).length = n.repr.length := by
    simp [fmt_d, str, toString]
  rw [h1]
  exact Nat.repr_length n 10 (by decide) (by omega)

/-! ## Slots -/

theorem player_set_player (g : GameState) (i j : Nat) (p : Player) :
    (g.set_player i p).player j
      = if i = j ∧ i < g.players.length then p else g.player j := by
  unfold GameState.set_player GameState.player
  simp only [List.getD_eq_getElem?_getD, List.getElem?_set]
  by_cases hij : i = j
  · subst hij
    by_cases hl : i < g.players.length
    · simp [hl]
    · have : g.players[i]? = none := List.getElem?_eq_none (by omega)
      simp [hl, this]
  · simp [hij]

theorem player_set_player_same (g : GameState) (i : Nat) (p : Player)
    (h : i < g.players.length) : (g.set_player i p).player i = p := by
  rw [player_set_player]
  simp [h]

theorem player_set_player_ne (g : GameState) (i j : Nat) (p : Player) (h : i ≠ j) :
    (g.set_player i p).player j = g.player j := by
  rw [player_set_player]
  simp [h]

theorem player_emit (g : GameState) (t : Thread) (evs : List Ev) (i : Nat) :
    (g.emit t evs).player i = g.player i := rfl

theorem players_length_set_player (g : GameState) (i : Nat) (p : Player) :
    (g.set_player i p).players.length = g.players.length := by
  simp [GameState.set_player]

theorem players_length_emit (g : GameState) (t : Thread) (evs : List Ev) :
    (g.emit t evs).players.length = g.players.length := rfl

theorem player_default_of_le (g : GameState) (i : Nat) (h : g.players.length ≤ i) :
    g.player i = default := by
  unfold GameState.player
  simp [List.getElem?_eq_none h]

/-! ## What the reader threads can and cannot change -/

theorem slot_reader_refl (p : Player) : p.reader_le p :=
  ⟨rfl, rfl, rfl, rfl, fun h => ⟨h, rfl⟩, fun _ h => h⟩

theorem slot_reader_trans {p q r : Player} (h1 : p.reader_le q) (h2 : q.reader_le r) :
    p.reader_le r := by
  obtain ⟨a1, a2, a3, a4, a5, a6⟩ := h1
  obtain ⟨b1, b2, b3, b4, b5, b6⟩ := h2
  refine ⟨a1.trans b1, a2.trans b2, a3.trans b3, a4.trans b4, ?_, ?_⟩
  · intro h
    have hq := a5 h
    have hr := b5 hq.1
    exact ⟨hr.1, hq.2.trans hr.2⟩
  · intro h hj
    exact a6 h (b6 (a5 h).1 hj)

theorem reader_refl (g : GameState) : g.reader_le g :=
  ⟨rfl, rfl, rfl, rfl, fun _ => slot_reader_refl _⟩

theorem GameState.reader_le.reader_trans {g1 g2 g3 : GameState} (h1 : g1.reader_le g2)
    (h2 : g2.reader_le g3) : g1.reader_le g3 :=
  ⟨h1.1.trans h2.1, h1.2.1.trans h2.2.1, h1.2.2.1.trans h2.2.2.1,
    h1.2.2.2.1.trans h2.2.2.2.1, fun j => slot_reader_trans (h1.2.2.2.2 j) (h2.2.2.2.2 j)⟩

theorem reader_le_emit (g : GameState) (t : Thread) (evs : List Ev) :
    (g.emit t evs).reader_le g :=
  ⟨rfl, rfl, rfl, rfl, fun _ => slot_reader_refl _⟩

theorem reader_le_count (g : GameState) (c : Int) :
    ({ g with connected_count := c } : GameState).reader_le g :=
  ⟨rfl, rfl, rfl, rfl, fun _ => slot_reader_refl _⟩

theorem reader_le_set_player (g : GameState) (i : Nat) (p : Player)
    (h : p.reader_le (g.player i)) : (g.set_player i p).reader_le g := by
  refine ⟨rfl, rfl, rfl, players_length_set_player g i p, ?_⟩
  intro j
  rw [player_set_player]
  split
  · rename_i hij
    rw [← hij.1]
    exact h
  · exact slot_reader_refl _

theorem Player.reader_le_dead (p : Player) (st : PlayerState) :
    ({ p with alive := false, state := st } : Player).reader_le p :=
  ⟨rfl, rfl, rfl, rfl, by simp, by simp⟩

theorem Player.reader_le_action (p : Player) (a : PlayerAction) (w : Bool) (h : a ≠ .NONE) :
    ({ p with pending_action := a, awaiting_action := w } : Player).reader_le p :=
  ⟨rfl, rfl, rfl, rfl, fun hal => ⟨hal, rfl⟩, fun _ _ => Or.inr h⟩

/-- One iteration of a reader thread leaves the deck, the hands and the round flags
alone, never revives a slot, and keeps an awaited-or-pending live slot so. -/
theorem client_reader_iter_le (g : GameState) (i : Nat) (rr : Int) (msg : List Nat) :
    (client_reader_iter g i rr msg).reader_le g := by
  unfold client_reader_iter
  simp only []
  split
  · exact reader_refl g
  · split
    · exact (reader_le_emit _ _ _).reader_trans
        ((reader_le_set_player _ _ _ (Player.reader_le_action _ _ _ (by decide))).reader_trans
          ((reader_le_emit _ _ _).reader_trans ((reader_le_emit _ _ _).reader_trans
            ((reader_le_count _ _).reader_trans
              ((reader_le_set_player _ _ _ (Player.reader_le_dead _ _)).reader_trans
                (reader_le_emit _ _ _))))))
    · split
      · split
        · exact (reader_le_emit _ _ _).reader_trans
            ((reader_le_set_player _ _ _ (Player.reader_le_action _ _ _ (by decide))).reader_trans
              (reader_le_emit _ _ _))
        · split
          · exact (reader_le_emit _ _ _).reader_trans
              ((reader_le_set_player _ _ _ (Player.reader_le_action _ _ _ (by decide))).reader_trans
                (reader_le_emit _ _ _))
          · exact reader_refl g
      · split
        · exact (reader_le_emit _ _ _).reader_trans
            ((reader_le_count _ _).reader_trans
              ((reader_le_set_player _ _ _ (Player.reader_le_dead _ _)).reader_trans
                (reader_le_emit _ _ _)))
        · split
          · exact reader_le_emit _ _ _
          · exact reader_refl g

theorem apply_reader_events_le (evs : List ReaderEvent) :
    ∀ g : GameState, (apply_reader_events g evs).reader_le g := by
  induction evs with
  | nil => exact fun g => reader_refl g
  | cons e es ih =>
    intro g
    exact (ih _).reader_trans (client_reader_iter_le g e.slot e.rr e.msg)

/-! ## The timed wait -/

theorem wait_timeout_player (g : GameState) (i : Nat) (h : i < g.players.length) :
    (wait_timeout g i).player i
      = { g.player i with pending_action := .STAND, awaiting_action := false } := by
  unfold wait_timeout
  rw [player_set_player_same _ _ _ h]

theorem wait_timeout_le (g : GameState) (i : Nat) : (wait_timeout g i).reader_le g :=
  reader_le_set_player _ _ _ (Player.reader_le_action _ _ _ (by decide))

theorem wait_loop_le (i : Nat) (steps : List WaitStep) :
    ∀ g : GameState, (wait_loop i g steps).reader_le g := by
  induction steps with
  | nil =>
    intro g
    unfold wait_loop
    split
    · exact (wait_timeout_le _ _).reader_trans (reader_le_emit _ _ _)
    · exact reader_refl g
  | cons s rest ih =>
    intro g
    unfold wait_loop
    simp only []
    split
    · split
      · exact (wait_timeout_le _ _).reader_trans
          ((apply_reader_events_le _ _).reader_trans (reader_le_emit _ _ _))
      · exact (ih _).reader_trans ((apply_reader_events_le _ _).reader_trans (reader_le_emit _ _ _))
    · exact reader_refl g

/-- A live slot has a resolved action after a timed-out wait. -/
theorem wait_timeout_pending (g : GameState) (i : Nat)
    (h : ((wait_timeout g i).player i).alive = true) :
    ((wait_timeout g i).player i).pending_action = .STAND := by
  by_cases hi : i < g.players.length
  · rw [wait_timeout_player g i hi]
  · have hd : (wait_timeout g i).player i = default :=
      player_default_of_le _ _ (by rw [wait_timeout, players_length_set_player]; omega)
    rw [hd] at h
    exact absurd h (by decide)

/-- When the wait loop is entered with the slot awaited or an action pending, it is
left, for a slot that is still alive, with an action pending. -/
theorem wait_loop_pending (i : Nat) (steps : List WaitStep) :
    ∀ g : GameState,
      ((g.player i).alive = true →
        (g.player i).awaiting_action = true ∨ (g.player i).pending_action ≠ .NONE) →
      ((wait_loop i g steps).player i).alive = true →
      ((wait_loop i g steps).player i).pending_action ≠ .NONE := by
  induction steps with
  | nil =>
    intro g hJ
    unfold wait_loop
    split
    · intro hal
      rw [wait_timeout_pending _ _ hal]
      decide
    · rename_i hc
      intro hal
      rcases hJ hal with hw | hp
      · intro hn
        apply hc
        simp [wait_cond, hw, hn, hal]
      · exact hp
  | cons s rest ih =>
    intro g hJ
    unfold wait_loop
    simp only []
    split
    · have hle := (apply_reader_events_le s.events
        (g.emit .coordinator [.cond_timedwait i])).2.2.2.2 i
      split
      · intro hal
        rw [wait_timeout_pending _ _ hal]
        decide
      · apply ih
        intro hal
        exact hle.2.2.2.2.2 hal (hJ (hle.2.2.2.2.1 hal).1)
    · rename_i hc
      intro hal
      rcases hJ hal with hw | hp
      · intro hn
        apply hc
        simp [wait_cond, hw, hn, hal]
      · exact hp

/-- The `ACTION HIT` frame, handled by the reader thread of a live slot. -/
theorem client_reader_iter_hit (g : GameState) (i : Nat) (rr : Int)
    (hi : i < g.players.length) (hal : (g.player i).alive = true) (hrr : 0 < rr) :
    (client_reader_iter g i rr (str "ACTION HIT")).player i
      = { g.player i with pending_action := .HIT, awaiting_action := false } := by
  have h1 : strncmp_eq (c_string (str "ACTION HIT")) CMD_ACTION = true := by decide
  have h2 : strncmp_eq (skip_spaces ((c_string (str "ACTION HIT")).drop CMD_ACTION.length))
      (str "HIT") = true := by decide
  have hrr2 : ¬ rr ≤ 0 := by omega
  unfold client_reader_iter
  simp only [hal, hrr2, h1, h2, Bool.not_true, Bool.false_eq_true, if_false, if_true]
  rw [player_emit, player_set_player_same _ _ _ (by rw [players_length_emit]; exact hi)]
  cases (g.player i).awaiting_action <;> rfl

/-- The `ACTION STAND` frame, handled by the reader thread of a live slot. -/
theorem client_reader_iter_stand (g : GameState) (i : Nat) (rr : Int)
    (hi : i < g.players.length) (hal : (g.player i).alive = true) (hrr : 0 < rr) :
    (client_reader_iter g i rr (str "ACTION STAND")).player i
      = { g.player i with pending_action := .STAND, awaiting_action := false } := by
  have h1 : strncmp_eq (c_string (str "ACTION STAND")) CMD_ACTION = true := by decide
  have h2 : strncmp_eq (skip_spaces ((c_string (str "ACTION STAND")).drop CMD_ACTION.length))
      (str "HIT") = false := by decide
  have h3 : strncmp_eq (skip_spaces ((c_string (str "ACTION STAND")).drop CMD_ACTION.length))
      (str "STAND") = true := by decide
  have hrr2 : ¬ rr ≤ 0 := by omega
  unfold client_reader_iter
  simp only [hal, hrr2, h1, h2, h3, Bool.not_true, Bool.false_eq_true, if_false, if_true]
  rw [player_emit, player_set_player_same _ _ _ (by rw [players_length_emit]; exact hi)]
  cases (g.player i).awaiting_action <;> rfl

/-- The wait loop once the slot is no longer awaited. -/
theorem wait_loop_of_not_cond (i : Nat) (g : GameState) (steps : List WaitStep)
    (h : wait_cond (g.player i) = false) : wait_loop i g steps = g := by
  cases steps <;> simp [wait_loop, h]

/-- Spurious wake-ups leave the slot as it is. -/
theorem wait_loop_spurious (i : Nat) (k : Nat) (tail : List WaitStep)
    (P : Player → Prop)
    (hP : ∀ g : GameState, wait_cond (g.player i) = true →
      P ((wait_loop i g tail).player i)) :
    ∀ g : GameState, wait_cond (g.player i) = true →
      P ((wait_loop i g (List.replicate k ⟨[], false⟩ ++ tail)).player i) := by
  induction k with
  | zero => simpa using hP
  | succ k ih =>
    intro g hc
    rw [List.replicate_succ, List.cons_append, wait_loop]
    simp only [hc, if_true, apply_reader_events, List.foldl_nil, Bool.false_eq_true, if_false]
    exact ih _ hc

theorem wait_cond_true {g : GameState} {i : Nat} (h : wait_cond (g.player i) = true) :
    i < g.players.length ∧ (g.player i).alive = true := by
  have hal : (g.player i).alive = true := by
    simp [wait_cond] at h
    exact h.2
  refine ⟨?_, hal⟩
  by_contra hi
  rw [player_default_of_le g i (by omega)] at hal
  exact absurd hal (by decide)

/-- The state in which the wait loop is entered: the reader events before the wait
are applied, the action lock is taken and `awaiting_action` is set. -/
theorem wait_action_fst (g : GameState) (i : Nat) (o : WaitOracle) :
    (wait_action g i o).1 =
      ((wait_loop i
        (((apply_reader_events g o.pre).emit .coordinator [.lock_action i]).set_player i
          { ((apply_reader_events g o.pre).emit .coordinator [.lock_action i]).player i with
            awaiting_action := true }) o.steps).player i).pending_action := rfl

/-- A wake-up by the `ACTION HIT` frame of the awaited slot resolves to Hit. -/
theorem wait_loop_hit (i : Nat) (rr : Int) (hrr : 0 < rr) (rest : List WaitStep)
    (g : GameState) (hc : wait_cond (g.player i) = true) :
    ((wait_loop i g (⟨[⟨i, rr, str "ACTION HIT"⟩], false⟩ :: rest)).player i).pending_action
      = .HIT := by
  obtain ⟨hi, hal⟩ := wait_cond_true hc
  have hp := client_reader_iter_hit (g.emit .coordinator [.cond_timedwait i]) i rr hi hal hrr
  rw [wait_loop]
  simp only [hc, if_true, apply_reader_events, List.foldl_cons, List.foldl_nil,
    Bool.false_eq_true, if_false]
  rw [wait_loop_of_not_cond, hp]
  rw [hp]
  simp [wait_cond]

/-- A wake-up by the `ACTION STAND` frame of the awaited slot resolves to Stand. -/
theorem wait_loop_stand (i : Nat) (rr : Int) (hrr : 0 < rr) (rest : List WaitStep)
    (g : GameState) (hc : wait_cond (g.player i) = true) :
    ((wait_loop i g (⟨[⟨i, rr, str "ACTION STAND"⟩], false⟩ :: rest)).player i).pending_action
      = .STAND := by
  obtain ⟨hi, hal⟩ := wait_cond_true hc
  have hp := client_reader_iter_stand (g.emit .coordinator [.cond_timedwait i]) i rr hi hal hrr
  rw [wait_loop]
  simp only [hc, if_true, apply_reader_events, List.foldl_cons, List.foldl_nil,
    Bool.false_eq_true, if_false]
  rw [wait_loop_of_not_cond, hp]
  rw [hp]
  simp [wait_cond]

/-- A wait that times out resolves to Stand, whatever happened while it was blocked. -/
theorem wait_loop_timedout (i : Nat) (evs : List ReaderEvent) (rest : List WaitStep)
    (g : GameState) (hc : wait_cond (g.player i) = true) :
    ((wait_loop i g (⟨evs, true⟩ :: rest)).player i).pending_action = .STAND := by
  obtain ⟨hi, -⟩ := wait_cond_true hc
  rw [wait_loop]
  simp only [hc, if_true]
  have hlen := (apply_reader_events_le evs (g.emit .coordinator [.cond_timedwait i])).2.2.2.1
  rw [wait_timeout_player _ _ (by rw [hlen]; exact hi)]

/-- A wait whose deadline passes after the listed calls resolves to Stand. -/
theorem wait_loop_deadline (i : Nat) (g : GameState) (hc : wait_cond (g.player i) = true) :
    ((wait_loop i g []).player i).pending_action = .STAND := by
  obtain ⟨hi, -⟩ := wait_cond_true hc
  rw [wait_loop]
  simp only [hc, if_true]
  rw [wait_timeout_player (g.emit .coordinator [.cond_timedwait i]) i hi]

/-- Arming the wait: a live slot is awaited once `awaiting_action` is set. -/
theorem armed_awaiting (g : GameState) (i : Nat)
    (h : ((g.set_player i { g.player i with awaiting_action := true }).player i).alive = true) :
    ((g.set_player i { g.player i with awaiting_action := true }).player i).awaiting_action
      = true := by
  by_cases hi : i < g.players.length
  · rw [player_set_player_same _ _ _ hi]
  · rw [player_default_of_le _ i (by rw [players_length_set_player]; omega)] at h
    exact absurd h (by decide)

theorem armed_cond (g : GameState) (i : Nat) (hi : i < g.players.length)
    (hal : (g.player i).alive = true) (hp : (g.player i).pending_action = .NONE) :
    wait_cond ((g.set_player i { g.player i with awaiting_action := true }).player i)
      = true := by
  rw [player_set_player_same _ _ _ hi]
  simp [wait_cond, hal, hp]

/-! ## What a timed wait can and cannot change -/

theorem slot_env_refl (p : Player) : p.env_le p :=
  ⟨rfl, rfl, rfl, rfl, fun h => ⟨h, rfl⟩⟩

theorem slot_env_trans {p q r : Player} (h1 : p.env_le q) (h2 : q.env_le r) :
    p.env_le r := by
  obtain ⟨a1, a2, a3, a4, a5⟩ := h1
  obtain ⟨b1, b2, b3, b4, b5⟩ := h2
  refine ⟨a1.trans b1, a2.trans b2, a3.trans b3, a4.trans b4, ?_⟩
  intro h
  have hq := a5 h
  have hr := b5 hq.1
  exact ⟨hr.1, hq.2.trans hr.2⟩

theorem Player.reader_le.to_slot_env {p q : Player} (h : p.reader_le q) : p.env_le q :=
  ⟨h.1, h.2.1, h.2.2.1, h.2.2.2.1, h.2.2.2.2.1⟩

theorem env_refl (g : GameState) : g.env_le g :=
  ⟨rfl, rfl, rfl, rfl, fun _ => slot_env_refl _⟩

theorem GameState.env_le.env_trans {g1 g2 g3 : GameState} (h1 : g1.env_le g2)
    (h2 : g2.env_le g3) : g1.env_le g3 :=
  ⟨h1.1.trans h2.1, h1.2.1.trans h2.2.1, h1.2.2.1.trans h2.2.2.1,
    h1.2.2.2.1.trans h2.2.2.2.1, fun j => slot_env_trans (h1.2.2.2.2 j) (h2.2.2.2.2 j)⟩

theorem GameState.reader_le.to_env {g' g : GameState} (h : g'.reader_le g) : g'.env_le g :=
  ⟨h.1, h.2.1, h.2.2.1, h.2.2.2.1, fun j => (h.2.2.2.2 j).to_slot_env⟩

theorem env_le_emit (g : GameState) (t : Thread) (evs : List Ev) : (g.emit t evs).env_le g :=
  ⟨rfl, rfl, rfl, rfl, fun _ => slot_env_refl _⟩

theorem env_le_set_player (g : GameState) (i : Nat) (p : Player)
    (h : p.env_le (g.player i)) : (g.set_player i p).env_le g := by
  refine ⟨rfl, rfl, rfl, players_length_set_player g i p, ?_⟩
  intro j
  rw [player_set_player]
  split
  · rename_i hij
    rw [← hij.1]
    exact h
  · exact slot_env_refl _

theorem Player.env_le_sync (p : Player) (a : PlayerAction) (w : Bool) :
    ({ p with pending_action := a, awaiting_action := w } : Player).env_le p :=
  ⟨rfl, rfl, rfl, rfl, fun h => ⟨h, rfl⟩⟩

theorem Player.env_le_await (p : Player) (w : Bool) :
    ({ p with awaiting_action := w } : Player).env_le p :=
  ⟨rfl, rfl, rfl, rfl, fun h => ⟨h, rfl⟩⟩

/-- The timed wait changes neither the deck nor any hand or round flag. -/
theorem wait_action_le (g : GameState) (i : Nat) (o : WaitOracle) :
    (wait_action g i o).2.env_le g := by
  unfold wait_action
  simp only []
  exact (env_le_emit _ _ _).env_trans
    ((env_le_set_player _ _ _ (Player.env_le_sync _ _ _)).env_trans
      ((wait_loop_le i o.steps _).to_env.env_trans
        ((env_le_set_player _ _ _ (Player.env_le_await _ _)).env_trans
          ((env_le_emit _ _ _).env_trans (apply_reader_events_le o.pre g).to_env))))

/-! ## Progress within a round -/

theorem slot_round_refl (p : Player) : p.round_le p := ⟨rfl, fun h => ⟨h, rfl⟩⟩

theorem slot_round_trans {p q r : Player} (h1 : p.round_le q) (h2 : q.round_le r) :
    p.round_le r := by
  refine ⟨h1.1.trans h2.1, ?_⟩
  intro h
  have hq := h1.2 h
  have hr := h2.2 hq.1
  exact ⟨hr.1, hq.2.trans hr.2⟩

theorem round_refl (g : GameState) : g.round_le g :=
  ⟨rfl, rfl, rfl, le_refl _, fun h => h, fun _ => slot_round_refl _⟩

theorem GameState.round_le.round_trans {g1 g2 g3 : GameState} (h1 : g1.round_le g2)
    (h2 : g2.round_le g3) : g1.round_le g3 :=
  ⟨h1.1.trans h2.1, h1.2.1.trans h2.2.1, h1.2.2.1.trans h2.2.2.1,
    le_trans h2.2.2.2.1 h1.2.2.2.1, fun h => h1.2.2.2.2.1 (h2.2.2.2.2.1 h),
    fun j => slot_round_trans (h1.2.2.2.2.2 j) (h2.2.2.2.2.2 j)⟩

theorem GameState.env_le.to_round {g' g : GameState} (h : g'.env_le g) : g'.round_le g :=
  ⟨h.1, h.2.2.1, h.2.2.2.1, le_of_eq h.2.1.symm, fun h52 => by rw [h.2.1]; exact h52,
    fun j => ⟨(h.2.2.2.2 j).2.2.2.1, (h.2.2.2.2 j).2.2.2.2⟩⟩

theorem round_le_emit (g : GameState) (t : Thread) (evs : List Ev) :
    (g.emit t evs).round_le g := (env_le_emit g t evs).to_round

theorem round_le_set_player (g : GameState) (i : Nat) (p : Player)
    (h : p.round_le (g.player i)) : (g.set_player i p).round_le g := by
  refine ⟨rfl, rfl, players_length_set_player g i p, le_refl _, fun h => h, ?_⟩
  intro j
  rw [player_set_player]
  split
  · rename_i hij
    rw [← hij.1]
    exact h
  · exact slot_round_refl _

theorem Player.round_le_of_eq (p' p : Player) (h1 : p'.sockfd = p.sockfd)
    (h2 : p'.alive = p.alive) (h3 : p'.state = p.state) : p'.round_le p :=
  ⟨h1, fun h => ⟨h2 ▸ h, h3⟩⟩

theorem deal_card_snd (deck : List Nat) (top : Nat) :
    top ≤ (deal_card deck top).2 ∧ (top ≤ 52 → (deal_card deck top).2 ≤ 52) := by
  unfold deal_card
  split
  · exact ⟨le_refl _, fun h => h⟩
  · exact ⟨Nat.le_succ _, fun _ => by omega⟩

theorem round_le_deal_to_player (g : GameState) (i : Nat) : (deal_to_player g i).round_le g := by
  unfold deal_to_player
  simp only []
  have hd := deal_card_snd g.deck g.deck_top
  exact GameState.round_le.round_trans
    (round_le_set_player _ _ _ (by exact Player.round_le_of_eq _ _ rfl rfl rfl))
    ⟨rfl, rfl, rfl, hd.1, hd.2, fun _ => slot_round_refl _⟩

theorem send_to_round_players_le (g : GameState) (f : Player → List Ev) :
    (send_to_round_players g f).env_le g := by
  unfold send_to_round_players
  exact (env_le_emit _ _ _).env_trans (env_le_emit _ _ _)

/-! ## One iteration of a player's turn -/

theorem alive_lt_length {g : GameState} {i : Nat} (h : (g.player i).alive = true) :
    i < g.players.length := by
  by_contra hi
  rw [player_default_of_le g i (by omega)] at h
  exact absurd h (by decide)

theorem deal_to_player_player (g : GameState) (i : Nat) (hi : i < g.players.length) :
    (deal_to_player g i).player i
      = { g.player i with hand := (g.player i).hand ++ [(deal_card g.deck g.deck_top).1] } := by
  unfold deal_to_player
  simp only []
  exact player_set_player_same _ _ _ hi

theorem deal_to_player_other (g : GameState) (i j : Nat) (hij : i ≠ j) :
    (deal_to_player g i).player j = g.player j := by
  unfold deal_to_player
  simp only []
  exact player_set_player_ne _ _ _ _ hij

theorem deal_to_player_deck_top (g : GameState) (i : Nat) :
    (deal_to_player g i).deck_top = (deal_card g.deck g.deck_top).2 := rfl

/-- The state in which an iteration of the turn loop looks at the action it read. -/
theorem turn_wait_le (g : GameState) (i : Nat) (o : WaitOracle) :
    (wait_action (g.emit .coordinator [.send (g.player i).sockfd MSG_YOUR_TURN,
      .send (g.player i).sockfd MSG_REQUEST_ACTION]) i o).2.env_le g :=
  (wait_action_le _ i o).env_trans (env_le_emit _ _ _)

/-- One iteration of the turn loop of slot `i`, by cases on the action read `act`:
a slot found not alive leaves the loop as it is; on Hit one `deal_card` result is
appended to the hand, the slot is marked busted and the loop left when the value
exceeds 21, and the loop goes on otherwise; on any other action the slot is marked
stood, its hand is unchanged, and the loop is left. -/
theorem player_turn_iter_spec (g : GameState) (i : Nat) (o : WaitOracle) :
    ((player_turn_iter g i o).g.player i).alive = false ∧
      (player_turn_iter g i o).again = false ∧
      (player_turn_iter g i o).g.env_le g
    ∨
    ((player_turn_iter g i o).g.player i).alive = true ∧
      (player_turn_iter g i o).act = .HIT ∧
      ((player_turn_iter g i o).g.player i).hand
        = (g.player i).hand ++ [(deal_card g.deck g.deck_top).1] ∧
      (player_turn_iter g i o).g.deck_top = (deal_card g.deck g.deck_top).2 ∧
      ((player_turn_iter g i o).g.player i).has_stood = (g.player i).has_stood ∧
      (21 < hand_value ((player_turn_iter g i o).g.player i).hand ∧
          ((player_turn_iter g i o).g.player i).is_busted = true ∧
          (player_turn_iter g i o).again = false
        ∨ hand_value ((player_turn_iter g i o).g.player i).hand ≤ 21 ∧
          ((player_turn_iter g i o).g.player i).is_busted = (g.player i).is_busted ∧
          (player_turn_iter g i o).again = true)
    ∨
    ((player_turn_iter g i o).g.player i).alive = true ∧
      (player_turn_iter g i o).act ≠ .HIT ∧
      ((player_turn_iter g i o).g.player i).hand = (g.player i).hand ∧
      (player_turn_iter g i o).g.deck_top = g.deck_top ∧
      ((player_turn_iter g i o).g.player i).has_stood = true ∧
      ((player_turn_iter g i o).g.player i).is_busted = (g.player i).is_busted ∧
      (player_turn_iter g i o).again = false := by
  have he := turn_wait_le g i o
  have hp := he.2.2.2.2 i
  unfold player_turn_iter
  simp only []
  split
  · rename_i hal
    left
    exact ⟨by simpa using hal, rfl, he⟩
  · rename_i hal
    have hal2 : ((wait_action (g.emit .coordinator [.send (g.player i).sockfd MSG_YOUR_TURN,
      .send (g.player i).sockfd MSG_REQUEST_ACTION]) i o).2.player i).alive = true := by
      simpa using hal
    have hi := alive_lt_length hal2
    right
    split
    · rename_i hact
      left
      have hdp := deal_to_player_player _ i hi
      rw [he.1, he.2.1, hp.1] at hdp
      split
      · rename_i hv
        rw [player_emit, player_set_player_same _ _ _
          (by rw [players_length_emit, deal_to_player,
            players_length_set_player]; exact hi)]
        rw [player_emit] at hv ⊢
        rw [hdp] at hv ⊢
        refine ⟨hal2, hact, rfl, ?_, hp.2.2.1, Or.inl ⟨hv, rfl, rfl⟩⟩
        show (deal_to_player _ i).deck_top = _
        rw [deal_to_player_deck_top, he.1, he.2.1]
      · rename_i hv
        rw [player_emit] at hv ⊢
        rw [hdp] at hv ⊢
        refine ⟨hal2, hact, rfl, ?_, hp.2.2.1, Or.inr ⟨by omega, hp.2.1, rfl⟩⟩
        show (deal_to_player _ i).deck_top = _
        rw [deal_to_player_deck_top, he.1, he.2.1]
    · rename_i hact
      right
      rw [player_set_player_same _ _ _ hi]
      exact ⟨hal2, hact, hp.1, he.2.1, rfl, hp.2.1, rfl⟩

theorem player_turn_iter_le (g : GameState) (i : Nat) (o : WaitOracle) :
    (player_turn_iter g i o).g.round_le g := by
  have he := (turn_wait_le g i o).to_round
  unfold player_turn_iter
  simp only []
  split
  · exact he
  · split
    · split
      · exact (round_le_emit _ _ _).round_trans
          ((round_le_set_player _ _ _ (by exact Player.round_le_of_eq _ _ rfl rfl rfl)).round_trans
            ((round_le_emit _ _ _).round_trans ((round_le_deal_to_player _ _).round_trans he)))
      · exact (round_le_emit _ _ _).round_trans ((round_le_deal_to_player _ _).round_trans he)
    · exact (round_le_set_player _ _ _ (by exact Player.round_le_of_eq _ _ rfl rfl rfl)).round_trans he

theorem hard_total_snoc (hand : List Nat) (c : Nat) :
    hard_total hand + 1 ≤ hard_total (hand ++ [c]) := by
  rw [hard_total_append]
  have := card_points_hard_pos c
  simp only [hard_total, List.map_cons, List.map_nil, List.sum_cons, List.sum_nil] at *
  omega

/-- The turn loop of slot `i` with enough iterations in hand: it ends, its state is a
later stage of the round, and, for a slot that has neither flag set, whose hand is worth
at most 21 and that is alive at the end, it has done what `turn_by_actions` does with
the actions it read. -/
theorem player_turn_loop_spec (i : Nat) :
    ∀ (fuel : Nat) (g : GameState) (os : List WaitOracle),
      1 ≤ fuel → 22 - hard_total (g.player i).hand ≤ fuel →
      ∃ g' acts, player_turn_loop fuel g i os = some (g', acts) ∧ g'.round_le g ∧
        ((g.player i).is_busted = false → (g.player i).has_stood = false →
          hand_value (g.player i).hand ≤ 21 → (g'.player i).alive = true →
          (turn_by_actions g.deck acts (g.player i).hand g.deck_top).ended = true ∧
          (turn_by_actions g.deck acts (g.player i).hand g.deck_top).rest = [] ∧
          (g'.player i).hand = (turn_by_actions g.deck acts (g.player i).hand g.deck_top).hand ∧
          g'.deck_top = (turn_by_actions g.deck acts (g.player i).hand g.deck_top).top ∧
          (g'.player i).is_busted
            = (turn_by_actions g.deck acts (g.player i).hand g.deck_top).is_busted ∧
          (g'.player i).has_stood
            = (turn_by_actions g.deck acts (g.player i).hand g.deck_top).has_stood ∧
          ((g'.player i).is_busted = true ↔ 21 < hand_value (g'.player i).hand) ∧
          ((g'.player i).has_stood = true ↔ (g'.player i).is_busted = false) ∧
          (g'.player i).hand.length = (g.player i).hand.length + acts.count .HIT) := by
  intro fuel
  induction fuel with
  | zero => intro g os h1; omega
  | succ fuel ih =>
    intro g os _ hfuel
    rw [player_turn_loop]
    split
    · -- the loop body runs
      have hs := player_turn_iter_spec g i (os.headD ⟨[], []⟩)
      have hle := player_turn_iter_le g i (os.headD ⟨[], []⟩)
      simp only []
      split
      · -- the loop goes on
        rename_i hagain
        rcases hs with ⟨-, hf, -⟩ | ⟨hal, hact, hhand, htop, hstood, hb⟩ | ⟨-, -, -, -, -, -, hf⟩
        · rw [hf] at hagain
          exact absurd hagain (by decide)
        · rcases hb with ⟨-, -, hf⟩ | ⟨hv, hbust, -⟩
          · rw [hf] at hagain
            exact absurd hagain (by decide)
          · have hh1 := hard_total_snoc (g.player i).hand (deal_card g.deck g.deck_top).1
            have hh2 := hard_total_le_hand_value
              ((player_turn_iter g i (os.headD ⟨[], []⟩)).g.player i).hand
            rw [hhand] at hh2
            rw [hhand] at hv
            obtain ⟨g', acts, hrun, hle2, hspec⟩ :=
              ih (player_turn_iter g i (os.headD ⟨[], []⟩)).g os.tail (by omega)
                (by rw [hhand]; omega)
            refine ⟨g', (player_turn_iter g i (os.headD ⟨[], []⟩)).act :: acts, ?_,
              hle2.round_trans hle, ?_⟩
            · rw [hrun]
            · intro hb0 hs0 hv0 hal'
              have := hspec (by rw [hbust, hb0]) (by rw [hstood, hs0])
                (by rw [hhand]; exact hv) hal'
              rw [hhand, htop, hle.1] at this
              rw [hact]
              have hnot : ¬ 21 < hand_value ((g.player i).hand ++
                  [(deal_card g.deck g.deck_top).1]) := by omega
              simp only [turn_by_actions, hnot, if_false]
              obtain ⟨t1, t2, t3, t4, t5, t6, t7, t8, t9⟩ := this
              refine ⟨t1, t2, t3, t4, t5, t6, t7, t8, ?_⟩
              rw [t9]
              simp
              omega
        · rw [hf] at hagain
          exact absurd hagain (by decide)
      · -- the loop is left
        rename_i hagain
        refine ⟨_, _, rfl, hle, ?_⟩
        intro hb0 hs0 hv0 hal'
        rcases hs with ⟨hdead, -, -⟩ | ⟨hal, hact, hhand, htop, hstood, hb⟩ |
          ⟨hal, hact, hhand, htop, hstood, hbust, -⟩
        · rw [hdead] at hal'
          exact absurd hal' (by decide)
        · rcases hb with ⟨hv, hbust, -⟩ | ⟨-, -, ht⟩
          · rw [hact]
            have hv2 := hv
            rw [hhand] at hv2
            simp only [turn_by_actions, hv2, if_true]
            refine ⟨trivial, trivial, hhand, htop, hbust, by rw [hstood, hs0], ?_, ?_, ?_⟩
            · exact ⟨fun _ => hv, fun _ => hbust⟩
            · rw [hstood, hs0, hbust]
              decide
            · rw [hhand]
              simp
          · exact absurd ht hagain
        · have hout : turn_by_actions g.deck
              [(player_turn_iter g i (os.headD ⟨[], []⟩)).act] (g.player i).hand g.deck_top
              = ⟨(g.player i).hand, g.deck_top, false, true, true, []⟩ := by
            cases hk : (player_turn_iter g i (os.headD ⟨[], []⟩)).act with
            | HIT => exact absurd hk hact
            | STAND => rfl
            | NONE => rfl
          rw [hout]
          refine ⟨rfl, rfl, hhand, htop, by rw [hbust, hb0], hstood, ?_, ?_, ?_⟩
          · rw [hbust, hb0, hhand]
            constructor
            · intro h
              exact absurd h (by decide)
            · intro h
              omega
          · rw [hstood, hbust, hb0]
            decide
          · rw [hhand]
            cases hk : (player_turn_iter g i (os.headD ⟨[], []⟩)).act with
            | HIT => exact absurd hk hact
            | STAND => simp
            | NONE => simp
    · -- the loop condition fails at entry
      rename_i hcond
      refine ⟨g, [], rfl, round_refl g, ?_⟩
      intro hb0 hs0
      simp [hb0, hs0] at hcond

/-- A hand of at most two cards is never worth more than 21. -/
theorem hand_value_le_of_length_le_two (hand : List Nat) (h : hand.length ≤ 2) :
    hand_value hand ≤ 21 := by
  obtain ⟨k, _, he, hz, _⟩ := hand_value_demote_spec (hard_total hand) (ace_count hand)
  rw [← hand_value_eq] at he
  have hhard : hard_total hand ≤ 20 := by
    match hand, h with
    | [], _ => simp [hard_total]
    | [a], _ =>
      have := card_points_hard_le a
      simp only [hard_total, List.map_cons, List.map_nil, List.sum_cons, List.sum_nil]
      omega
    | [a, b], _ =>
      have := card_points_hard_le a
      have := card_points_hard_le b
      simp only [hard_total, List.map_cons, List.map_nil, List.sum_cons, List.sum_nil]
      omega
  by_contra hc
  have hk : k = 0 := hz (by omega)
  subst hk
  omega

/-! ## The dealer -/

theorem deal_stream_succ (deck : List Nat) (n : Nat) :
    ∀ top, deal_stream deck top (n + 1)
      = deal_stream deck top n ++ [(deal_card deck (deal_cursor deck top n)).1] := by
  induction n with
  | zero => intro top; rfl
  | succ n ih =>
    intro top
    rw [deal_stream, ih, deal_stream, deal_cursor]
    rfl

theorem deal_cursor_of_le (deck : List Nat) (n : Nat) :
    ∀ top, top + n ≤ 52 → deal_cursor deck top n = top + n := by
  induction n with
  | zero => intro top _; rfl
  | succ n ih =>
    intro top h
    have hd : (deal_card deck top).2 = top + 1 := by
      unfold deal_card
      have : ¬ top ≥ 52 := by omega
      simp [this]
    rw [deal_cursor, hd, ih _ (by omega)]
    omega

/-- While the deck is not exhausted, the cards dealt are those at the successive
cursor positions. -/
theorem deal_stream_of_le (deck : List Nat) (n : Nat) :
    ∀ top, top + n ≤ 52 → top + n ≤ deck.length →
      deal_stream deck top n = (deck.drop top).take n := by
  induction n with
  | zero => intro top _ _; simp [deal_stream]
  | succ n ih =>
    intro top h hl
    have hlt : top < deck.length := by omega
    have hd : deal_card deck top = (deck[top], top + 1) := by
      unfold deal_card
      have : ¬ top ≥ 52 := by omega
      rw [if_neg this, List.getD_eq_getElem _ _ hlt]
    rw [deal_stream, hd, ih _ (by omega) (by omega)]
    rw [List.drop_eq_getElem_cons hlt, List.take_succ_cons]

theorem deal_to_dealer_le (r : Round) : (deal_to_dealer r).g.round_le r.g := by
  have hd := deal_card_snd r.g.deck r.g.deck_top
  exact ⟨rfl, rfl, rfl, hd.1, hd.2, fun _ => slot_round_refl _⟩

theorem dealer_draw_hand (r : Round) :
    (dealer_draw r).dealer_hand = r.dealer_hand ++ [(deal_card r.g.deck r.g.deck_top).1] := rfl

theorem dealer_draw_deck (r : Round) : (dealer_draw r).g.deck = r.g.deck := rfl

theorem dealer_draw_top (r : Round) :
    (dealer_draw r).g.deck_top = (deal_card r.g.deck r.g.deck_top).2 := rfl

theorem dealer_draw_le (r : Round) : (dealer_draw r).g.round_le r.g := by
  unfold dealer_draw
  simp only []
  exact (send_to_round_players_le (deal_to_dealer r).g _).to_round.round_trans (deal_to_dealer_le r)

/-- The dealer's loop with enough iterations in hand: it ends after some number `n` of
draws with a total of at least 17, every hand before the last being worth less than 17,
the hand being the initial one followed by the `n` results of `deal_card`. -/
theorem dealer_loop_spec :
    ∀ (fuel : Nat) (r : Round) (dv : Nat), dv = hand_value r.dealer_hand →
      1 ≤ fuel → 18 - hard_total r.dealer_hand ≤ fuel →
      ∃ res n, dealer_loop fuel r dv = some res ∧
        res.2 = hand_value res.1.dealer_hand ∧ 17 ≤ res.2 ∧
        res.1.dealer_hand = r.dealer_hand ++ deal_stream r.g.deck r.g.deck_top n ∧
        res.1.g.deck_top = deal_cursor r.g.deck r.g.deck_top n ∧
        res.1.g.round_le r.g ∧
        ∀ m, m < n →
          hand_value (r.dealer_hand ++ deal_stream r.g.deck r.g.deck_top m) < 17 := by
  intro fuel
  induction fuel with
  | zero => intro r dv _ h1; omega
  | succ fuel ih =>
    intro r dv hdv _ hfuel
    rw [dealer_loop]
    split
    · rename_i hlt
      have hh1 := hard_total_snoc r.dealer_hand (deal_card r.g.deck r.g.deck_top).1
      have hh2 := hard_total_le_hand_value r.dealer_hand
      obtain ⟨res, n, hrun, hval, h17, hhand, htop, hle, hmin⟩ :=
        ih (dealer_draw r) (hand_value (dealer_draw r).dealer_hand) rfl
          (by omega) (by rw [dealer_draw_hand]; omega)
      rw [dealer_draw_hand, dealer_draw_deck, dealer_draw_top] at hhand hmin
      rw [dealer_draw_deck, dealer_draw_top] at htop
      refine ⟨res, n + 1, hrun, hval, h17, ?_, ?_, hle.round_trans (dealer_draw_le r), ?_⟩
      · rw [hhand, deal_stream, List.append_assoc]
        rfl
      · rw [htop, deal_cursor]
      · intro m hm
        cases m with
        | zero =>
          simp only [deal_stream, List.append_nil]
          omega
        | succ m =>
          have := hmin m (by omega)
          rw [List.append_assoc] at this
          rw [deal_stream]
          exact this
    · rename_i hge
      refine ⟨(r, dv), 0, rfl, hdv, by omega, by simp [deal_stream], rfl,
        round_refl _, ?_⟩
      intro m hm
      omega

/-! ## The round as a whole -/

theorem foldl_round_le (f : GameState → Nat → GameState)
    (hf : ∀ g i, (f g i).round_le g) (l : List Nat) :
    ∀ g, (l.foldl f g).round_le g := by
  induction l with
  | nil => exact fun g => round_refl g
  | cons a as ih =>
    intro g
    exact (ih (f g a)).round_trans (hf g a)

theorem foldlM_round_le (f : GameState → Nat → Option GameState)
    (hf : ∀ g i, ∃ g', f g i = some g' ∧ g'.round_le g) (l : List Nat) :
    ∀ g, ∃ g', l.foldlM f g = some g' ∧ g'.round_le g := by
  induction l with
  | nil => exact fun g => ⟨g, rfl, round_refl g⟩
  | cons a as ih =>
    intro g
    obtain ⟨g1, h1, hle1⟩ := hf g a
    obtain ⟨g2, h2, hle2⟩ := ih g1
    refine ⟨g2, ?_, hle2.round_trans hle1⟩
    rw [List.foldlM_cons, h1]
    exact h2

theorem deal_players_le (g : GameState) : (deal_players g).round_le g := by
  unfold deal_players
  apply foldl_round_le
  intro g i
  split
  · exact (round_le_deal_to_player _ _).round_trans ((round_le_deal_to_player _ _).round_trans
      (round_le_set_player _ _ _ (by exact Player.round_le_of_eq _ _ rfl rfl rfl)))
  · exact round_refl g

/-- A player's turn ends, in a later stage of the round. -/
theorem player_turn_le (g : GameState) (i : Nat) (os : List WaitOracle) :
    ∃ g', player_turn g i os = some g' ∧ g'.round_le g := by
  unfold player_turn
  split
  · exact ⟨g, rfl, round_refl g⟩
  · obtain ⟨g', acts, hrun, hle, -⟩ := player_turn_loop_spec i 22 g os (by omega) (by omega)
    exact ⟨g', by rw [hrun]; rfl, hle⟩

theorem player_turns_le (g : GameState) (oracles : List (List WaitOracle)) :
    ∃ g', player_turns g oracles = some g' ∧ g'.round_le g := by
  unfold player_turns
  exact foldlM_round_le _ (fun g i => player_turn_le g i _) _ g

theorem dealer_reveal_le (r : Round) : (dealer_reveal r).g.env_le r.g := by
  unfold dealer_reveal
  simp only []
  exact send_to_round_players_le r.g _

theorem dealer_reveal_hand (r : Round) : (dealer_reveal r).dealer_hand = r.dealer_hand := rfl

/-- The dealer's play in terms of the state it starts from. -/
theorem dealer_play_spec (r : Round) :
    ∃ res n, dealer_play r = some res ∧
      res.2 = hand_value res.1.dealer_hand ∧ 17 ≤ res.2 ∧
      res.1.dealer_hand = r.dealer_hand ++ deal_stream r.g.deck r.g.deck_top n ∧
      res.1.g.deck_top = deal_cursor r.g.deck r.g.deck_top n ∧
      res.1.g.round_le r.g ∧
      ∀ m, m < n → hand_value (r.dealer_hand ++ deal_stream r.g.deck r.g.deck_top m) < 17 := by
  have he := dealer_reveal_le r
  obtain ⟨res, n, hrun, hval, h17, hhand, htop, hle, hmin⟩ :=
    dealer_loop_spec 18 (dealer_reveal r) (hand_value r.dealer_hand) rfl (by omega) (by omega)
  rw [dealer_reveal_hand, he.1, he.2.1] at hhand hmin
  rw [he.1, he.2.1] at htop
  exact ⟨res, n, hrun, hval, h17, hhand, htop, hle.round_trans he.to_round, hmin⟩

theorem dealer_play_le (r : Round) :
    ∃ res, dealer_play r = some res ∧ res.1.g.round_le r.g := by
  obtain ⟨res, n, hrun, -, -, -, -, hle, -⟩ := dealer_play_spec r
  exact ⟨res, hrun, hle⟩

theorem deal_round_le (g : GameState) : (deal_round g).g.round_le g := by
  unfold deal_round
  simp only []
  exact (send_to_round_players_le _ _).to_round.round_trans
    ((deal_to_dealer_le _).round_trans ((deal_to_dealer_le _).round_trans (deal_players_le g)))

theorem settle_le (g : GameState) (dv : Nat) : (settle g dv).env_le g := by
  unfold settle
  exact send_to_round_players_le g _

/-- A round ends, and its final state is a later stage of the state left by the
reshuffle check: same deck contents, same seed, a cursor that has only advanced. -/
theorem game_round_le (rand_r : Nat → Nat × Nat) (g : GameState)
    (oracles : List (List WaitOracle)) :
    ∃ g', game_round rand_r g oracles = some g' ∧ g'.round_le (reshuffle_check rand_r g) := by
  have h1 := deal_round_le (reshuffle_check rand_r g)
  obtain ⟨g3, hg3, hle3⟩ := player_turns_le (deal_round (reshuffle_check rand_r g)).g oracles
  obtain ⟨res, hres, hle4⟩ := dealer_play_le
    { g := g3, dealer_hand := (deal_round (reshuffle_check rand_r g)).dealer_hand }
  refine ⟨settle res.1.g res.2, ?_, ?_⟩
  · unfold game_round
    simp only []
    rw [hg3]
    simp only [Option.some_bind, Option.bind_some, hres, Option.map_some']
  · exact (settle_le _ _).to_round.round_trans (hle4.round_trans (hle3.round_trans h1))

theorem env_le_off_refl (i : Nat) (g : GameState) : g.env_le_off i g :=
  fun _ _ => slot_env_refl _

theorem GameState.env_le_off.off_trans {i : Nat} {g1 g2 g3 : GameState}
    (h1 : g1.env_le_off i g2) (h2 : g2.env_le_off i g3) : g1.env_le_off i g3 :=
  fun j hj => slot_env_trans (h1 j hj) (h2 j hj)

theorem GameState.env_le.to_off {g' g : GameState} (h : g'.env_le g) (i : Nat) :
    g'.env_le_off i g :=
  fun j _ => h.2.2.2.2 j

theorem env_le_off_set_player (g : GameState) (i : Nat) (p : Player) :
    (g.set_player i p).env_le_off i g := by
  intro j hj
  rw [player_set_player_ne _ _ _ _ (Ne.symm hj)]
  exact slot_env_refl _

theorem env_le_off_deal_to_player (g : GameState) (i : Nat) :
    (deal_to_player g i).env_le_off i g := by
  intro j hj
  rw [deal_to_player_other _ _ _ (Ne.symm hj)]
  exact slot_env_refl _

theorem player_turn_iter_off (g : GameState) (i : Nat) (o : WaitOracle) :
    (player_turn_iter g i o).g.env_le_off i g := by
  have he := (turn_wait_le g i o).to_off i
  unfold player_turn_iter
  simp only []
  split
  · exact he
  · split
    · split
      · exact ((env_le_emit _ _ _).to_off i).off_trans
          ((env_le_off_set_player _ _ _).off_trans
            (((env_le_emit _ _ _).to_off i).off_trans
              ((env_le_off_deal_to_player _ _).off_trans he)))
      · exact ((env_le_emit _ _ _).to_off i).off_trans
          ((env_le_off_deal_to_player _ _).off_trans he)
    · exact (env_le_off_set_player _ _ _).off_trans he

theorem player_turn_loop_off (i : Nat) :
    ∀ (fuel : Nat) (g : GameState) (os : List WaitOracle) (res : GameState × List PlayerAction),
      player_turn_loop fuel g i os = some res → res.1.env_le_off i g := by
  intro fuel
  induction fuel with
  | zero =>
    intro g os res h
    simp [player_turn_loop] at h
  | succ fuel ih =>
    intro g os res h
    rw [player_turn_loop] at h
    split at h
    · simp only [] at h
      split at h
      · split at h
        · exact absurd h (by simp)
        · rename_i r hr
          simp only [Option.some.injEq] at h
          subst h
          exact (ih _ _ _ hr).off_trans (player_turn_iter_off g i _)
      · simp only [Option.some.injEq] at h
        subst h
        exact player_turn_iter_off g i _
    · simp only [Option.some.injEq] at h
      subst h
      exact env_le_off_refl i g

/-- The turn of slot `i` changes no hand and no round flag of another slot. -/
theorem player_turn_off (g g' : GameState) (i : Nat) (os : List WaitOracle)
    (h : player_turn g i os = some g') : g'.env_le_off i g := by
  unfold player_turn at h
  split at h
  · simp only [Option.some.injEq] at h
    subst h
    exact env_le_off_refl i g
  · cases hr : player_turn_loop 22 g i os with
    | none => simp [hr] at h
    | some res =>
      simp only [hr, Option.map_some', Option.some.injEq] at h
      subst h
      exact player_turn_loop_off i 22 g os res hr

/-- The turns of the slots of `l` leave a slot outside `l` with its hand and flags. -/
theorem turns_off (oracles : List (List WaitOracle)) (i : Nat) (l : List Nat) (hi : i ∉ l) :
    ∀ (g g' : GameState),
      l.foldlM (fun g j => player_turn g j (oracles.getD j [])) g = some g' →
      (g'.player i).env_le (g.player i) := by
  induction l with
  | nil =>
    intro g g' h
    simp only [List.foldlM_nil] at h
    cases h
    exact slot_env_refl _
  | cons a as ih =>
    intro g g' h
    rw [List.foldlM_cons] at h
    cases h1 : player_turn g a (oracles.getD a []) with
    | none =>
      rw [h1] at h
      cases h
    | some g1 =>
      rw [h1] at h
      have hne : i ≠ a := fun e => hi (e ▸ List.mem_cons_self _ _)
      have hrest : i ∉ as := fun hm => hi (List.mem_cons_of_mem _ hm)
      exact slot_env_trans (ih hrest g1 g' h) (player_turn_off g g1 a _ h1 i hne)

/-! ## The state in which a turn begins -/

theorem reset_deal_player (g : GameState) (i : Nat) (hi : i < g.players.length) :
    ((deal_to_player (deal_to_player (g.set_player i (reset_player_round (g.player i))) i)
        i).player i).hand.length = 2 ∧
    ((deal_to_player (deal_to_player (g.set_player i (reset_player_round (g.player i))) i)
        i).player i).is_busted = false ∧
    ((deal_to_player (deal_to_player (g.set_player i (reset_player_round (g.player i))) i)
        i).player i).has_stood = false := by
  have h1 : i < (g.set_player i (reset_player_round (g.player i))).players.length := by
    rw [players_length_set_player]
    exact hi
  have h2 : i < (deal_to_player (g.set_player i (reset_player_round (g.player i)))
      i).players.length := by
    rw [deal_to_player, players_length_set_player]
    exact h1
  rw [deal_to_player_player _ i h2, deal_to_player_player _ i h1,
    player_set_player_same _ _ _ hi]
  simp [reset_player_round]

theorem reset_deal_other (g : GameState) (i j : Nat) (hij : i ≠ j) :
    (deal_to_player (deal_to_player (g.set_player i (reset_player_round (g.player i))) i)
      i).player j = g.player j := by
  rw [deal_to_player_other _ _ _ hij, deal_to_player_other _ _ _ hij,
    player_set_player_ne _ _ _ _ hij]

theorem reset_deal_in_round (g : GameState) (i j : Nat) :
    ((deal_to_player (deal_to_player (g.set_player i (reset_player_round (g.player i))) i)
      i).player j).in_round = (g.player j).in_round := by
  by_cases hij : i = j
  · subst hij
    by_cases hi : i < g.players.length
    · have h1 : i < (g.set_player i (reset_player_round (g.player i))).players.length := by
        rw [players_length_set_player]
        exact hi
      have h2 : i < (deal_to_player (g.set_player i (reset_player_round (g.player i)))
          i).players.length := by
        rw [deal_to_player, players_length_set_player]
        exact h1
      rw [deal_to_player_player _ i h2, deal_to_player_player _ i h1,
        player_set_player_same _ _ _ hi]
      rfl
    · rw [player_default_of_le _ i, player_default_of_le g i (by omega)]
      rw [deal_to_player, players_length_set_player, deal_to_player,
        players_length_set_player, players_length_set_player]
      omega
  · rw [reset_deal_other g i j hij]

/-- After the dealing loop has visited the slots of `l`, every visited slot that plays
the round holds two cards with both flags clear; the other slots are as they were. -/
theorem deal_fold_spec (l : List Nat) :
    ∀ g : GameState,
      (∀ i, i ∈ l → ((l.foldl (fun g i =>
          if (g.player i).in_round then
            deal_to_player (deal_to_player (g.set_player i (reset_player_round (g.player i)))
              i) i
          else g) g).player i).in_round = true →
        ((l.foldl (fun g i =>
          if (g.player i).in_round then
            deal_to_player (deal_to_player (g.set_player i (reset_player_round (g.player i)))
              i) i
          else g) g).player i).hand.length = 2 ∧
        ((l.foldl (fun g i =>
          if (g.player i).in_round then
            deal_to_player (deal_to_player (g.set_player i (reset_player_round (g.player i)))
              i) i
          else g) g).player i).is_busted = false ∧
        ((l.foldl (fun g i =>
          if (g.player i).in_round then
            deal_to_player (deal_to_player (g.set_player i (reset_player_round (g.player i)))
              i) i
          else g) g).player i).has_stood = false) ∧
      (∀ i, i ∉ l → (l.foldl (fun g i =>
          if (g.player i).in_round then
            deal_to_player (deal_to_player (g.set_player i (reset_player_round (g.player i)))
              i) i
          else g) g).player i = g.player i) := by
  induction l with
  | nil =>
    intro g
    exact ⟨fun i hi => absurd hi (List.not_mem_nil i), fun _ _ => rfl⟩
  | cons a as ih =>
    intro g
    simp only [List.foldl_cons]
    have hstep_other : ∀ j, a ≠ j →
        (if (g.player a).in_round then
          deal_to_player (deal_to_player (g.set_player a (reset_player_round (g.player a)))
            a) a
        else g).player j = g.player j := by
      intro j hj
      split
      · exact reset_deal_other g a j hj
      · rfl
    obtain ⟨ih1, ih2⟩ := ih (if (g.player a).in_round then
          deal_to_player (deal_to_player (g.set_player a (reset_player_round (g.player a)))
            a) a
        else g)
    refine ⟨?_, ?_⟩
    · intro i hi hin
      by_cases hmem : i ∈ as
      · exact ih1 i hmem hin
      · have hia : i = a := by
          rcases List.mem_cons.mp hi with h | h
          · exact h
          · exact absurd h hmem
        subst hia
        rw [ih2 i hmem] at hin ⊢
        by_cases hr : (g.player i).in_round = true
        · simp only [hr, if_true] at hin ⊢
          have hlt : i < g.players.length := by
            apply alive_lt_length
            simp only [Player.in_round, Bool.and_eq_true] at hr
            exact hr.1
          exact reset_deal_player g i hlt
        · simp only [hr, if_false] at hin
          exact absurd hin hr
    · intro i hi
      have hne : a ≠ i := fun e => hi (e ▸ List.mem_cons_self _ _)
      have hrest : i ∉ as := fun hm => hi (List.mem_cons_of_mem _ hm)
      rw [ih2 i hrest, hstep_other i hne]

theorem send_to_round_players_players (g : GameState) (f : Player → List Ev) :
    (send_to_round_players g f).players = g.players := rfl

theorem deal_to_dealer_players (r : Round) : (deal_to_dealer r).g.players = r.g.players := rfl

theorem deal_round_players (g : GameState) :
    (deal_round g).g.players = (deal_players g).players := by
  unfold deal_round
  simp only []
  rw [send_to_round_players_players, deal_to_dealer_players, deal_to_dealer_players]

/-- After the deal, every slot that plays the round holds two cards and has both flags
clear. -/
theorem deal_round_spec (g : GameState) (i : Nat) (hi : i < MAX_PLAYERS)
    (hin : ((deal_round g).g.player i).in_round = true) :
    ((deal_round g).g.player i).hand.length = 2 ∧
    ((deal_round g).g.player i).is_busted = false ∧
    ((deal_round g).g.player i).has_stood = false := by
  have hp : ∀ j, (deal_round g).g.player j = (deal_players g).player j := by
    intro j
    unfold GameState.player
    rw [deal_round_players]
  rw [hp] at hin ⊢
  exact (deal_fold_spec (List.range MAX_PLAYERS) g).1 i (List.mem_range.mpr hi) hin

/-- In a round, the turn of every slot that is then alive and in the game begins with
two cards in its hand, worth at most 21, and both flags clear, whatever happened in the
turns of the slots before it. -/
theorem turn_entry_state (rand_r : Nat → Nat × Nat) (g gi : GameState)
    (oracles : List (List WaitOracle)) (i : Nat) (hi : i < MAX_PLAYERS)
    (h : (List.range i).foldlM (fun g j => player_turn g j (oracles.getD j []))
      (deal_round (reshuffle_check rand_r g)).g = some gi)
    (hin : (gi.player i).in_round = true) :
    (gi.player i).hand.length = 2 ∧ (gi.player i).is_busted = false ∧
    (gi.player i).has_stood = false ∧ hand_value (gi.player i).hand ≤ 21 := by
  have he := turns_off oracles i (List.range i) (by simp) _ _ h
  obtain ⟨e1, e2, e3, -, e5⟩ := he
  have hal : (gi.player i).alive = true := by
    simp only [Player.in_round, Bool.and_eq_true] at hin
    exact hin.1
  have hst : (gi.player i).state = .IN_GAME := by
    simp only [Player.in_round, Bool.and_eq_true, beq_iff_eq] at hin
    exact hin.2
  have hin2 : ((deal_round (reshuffle_check rand_r g)).g.player i).in_round = true := by
    have := e5 hal
    simp only [Player.in_round, Bool.and_eq_true, beq_iff_eq]
    exact ⟨this.1, by rw [← this.2]; exact hst⟩
  obtain ⟨d1, d2, d3⟩ := deal_round_spec (reshuffle_check rand_r g) i hi hin2
  refine ⟨by rw [e1]; exact d1, by rw [e2]; exact d2, by rw [e3]; exact d3, ?_⟩
  apply hand_value_le_of_length_le_two
  rw [e1, d1]

/-! ## Frames through the session actor -/

theorem recv_msg_frame (payload rest junk : List Nat) (ev : List ReadEvent)
    (hlen : payload.length ≤ 1024) (hev : ReadEvent.error ∉ ev) :
    (recv_msg ⟨htonl payload.length ++ payload ++ rest, ev⟩ junk true).ret
      = (payload.length : Int) ∧
    (recv_msg ⟨htonl payload.length ++ payload ++ rest, ev⟩ junk true).out_buf
      = some payload ∧
    (recv_msg ⟨htonl payload.length ++ payload ++ rest, ev⟩ junk true).fd.bytes = rest := by
  have hhead : (htonl payload.length).length = 4 := by simp [htonl]
  obtain ⟨es1, he1, hes1⟩ := (read_all_full ⟨htonl payload.length ++ payload ++ rest, ev⟩
    (htonl payload.length) (payload ++ rest) (by simp)).1 hev
  rw [hhead] at he1
  have hes1n : ReadEvent.error ∉ es1 := fun hm => hev (hes1 _ hm)
  obtain ⟨es2, he2, -⟩ := (read_all_full ⟨payload ++ rest, es1⟩ payload rest rfl).1 hes1n
  have hnt : ntohl (htonl payload.length ++ List.drop 4 (List.take 4 junk))
      = payload.length := by
    have : List.drop 4 (List.take 4 junk) = [] := by
      apply List.drop_eq_nil_of_le
      simp
    rw [this, List.append_nil]
    exact ntohl_htonl _ (by omega)
  unfold recv_msg
  simp only [he1, hhead, hnt]
  by_cases h0 : payload.length = 0
  · have hm : payload = [] := List.length_eq_zero.mp h0
    subst hm
    simp
  · have hmax : ¬ payload.length > MAX_PAYLOAD := by
      unfold MAX_PAYLOAD
      omega
    simp [h0, hmax, he2]

theorem client_reader_iter_ignored (g : GameState) (i : Nat) (rr : Int) (msg : List Nat)
    (hrr : 0 < rr)
    (hact : strncmp_eq (c_string msg) CMD_ACTION = true →
      strncmp_eq (skip_spaces ((c_string msg).drop CMD_ACTION.length)) (str "HIT") = false ∧
      strncmp_eq (skip_spaces ((c_string msg).drop CMD_ACTION.length)) (str "STAND") = false)
    (hquit : strncmp_eq (c_string msg) CMD_ACTION = false →
      strncmp_eq (c_string msg) CMD_QUIT = false) :
    client_reader_leaves rr msg = false ∧
    (client_reader_iter g i rr msg).players = g.players ∧
    (client_reader_iter g i rr msg).connected_count = g.connected_count := by
  have hrr2 : ¬ rr ≤ 0 := by omega
  unfold client_reader_leaves client_reader_iter
  by_cases ha : strncmp_eq (c_string msg) CMD_ACTION = true
  · obtain ⟨h1, h2⟩ := hact ha
    simp only [hrr2, ha, h1, h2, Bool.false_eq_true, if_false, if_true]
    refine ⟨by simp, ?_, ?_⟩ <;> split_ifs <;> rfl
  · have ha2 : strncmp_eq (c_string msg) CMD_ACTION = false := by simpa using ha
    have hq := hquit ha2
    simp only [hrr2, ha2, hq, Bool.false_eq_true, if_false]
    refine ⟨by simp, ?_, ?_⟩ <;> split_ifs <;> rfl

/-- On a connection that ends before the `left` bytes asked for, `read_all` returns -1
if a `read` fails and otherwise, at the end of the stream, the number of bytes it got,
which is less than `count`. -/
theorem read_all_loop_short (count : Nat) :
    ∀ (n : Nat) (fd : Fd) (left : Nat) (buf : List Nat),
      fd.events.length + left ≤ n → fd.bytes.length < left →
      (ReadEvent.error ∉ fd.events →
          (read_all_loop count fd left buf).1
            = ((count - (left - fd.bytes.length) : Nat) : Int)) ∧
      ((read_all_loop count fd left buf).1 = -1 ∨
          (read_all_loop count fd left buf).1
            = ((count - (left - fd.bytes.length) : Nat) : Int)) := by
  intro n
  induction n with
  | zero =>
    intro fd left buf hn hb
    omega
  | succ n ih =>
    intro fd left buf hn hb
    have hl : left ≠ 0 := by omega
    rw [read_all_loop]
    simp only [hl, if_false]
    split
    next fd1 h =>
      have h1 := sys_read_eintr h
      have h2 := sys_read_events h
      have := ih fd1 left buf (by omega) (by rw [h1.2]; exact hb)
      rw [h1.2] at this
      exact ⟨fun hne => this.1 (fun hm => hne (h2.1 _ hm)), this.2⟩
    next fd1 h =>
      have h2 := sys_read_events h
      exact ⟨fun hne => absurd (h2.2 rfl) hne, Or.inl rfl⟩
    next bs fd1 h =>
      have h1 := sys_read_data h
      have h2 := sys_read_events h
      have hlen : fd.bytes.length = bs.length + fd1.bytes.length := by
        rw [h1.2.2.1, List.length_append]
      by_cases h0 : bs.length = 0
      · simp only [h0, if_true]
        have hb0 : fd.bytes = [] := h1.2.2.2 (List.length_eq_zero.mp h0) (by omega)
        have : fd.bytes.length = 0 := by rw [hb0]; rfl
        rw [this, Nat.sub_zero]
        exact ⟨fun _ => rfl, Or.inr rfl⟩
      · simp only [h0, if_false]
        have := ih fd1 (left - bs.length) (buf ++ bs) (by omega) (by omega)
        have e : left - bs.length - fd1.bytes.length = left - fd.bytes.length := by omega
        rw [e] at this
        exact ⟨fun hne => this.1 (fun hm => hne (h2.1 _ hm)), this.2⟩

theorem read_all_short (fd : Fd) (count : Nat) (hb : fd.bytes.length < count) :
    (ReadEvent.error ∉ fd.events → (read_all fd count).1 = (fd.bytes.length : Int)) ∧
    ((read_all fd count).1 = -1 ∨ (read_all fd count).1 = (fd.bytes.length : Int)) := by
  have h := read_all_loop_short count _ fd count [] (le_refl _) hb
  have e : count - (count - fd.bytes.length) = fd.bytes.length := by omega
  rw [e] at h
  exact h

/-! ## The sending loops and the registry lock -/

theorem all_sends_flatten (l : List (List Ev)) (h : ∀ x ∈ l, all_sends x = true) :
    all_sends l.flatten = true := by
  induction l with
  | nil => rfl
  | cons a as ih =>
    have ha := h a (List.mem_cons_self _ _)
    have hr := ih (fun x hx => h x (List.mem_cons_of_mem _ hx))
    unfold all_sends at ha hr ⊢
    simp only [List.flatten_cons, List.all_append, ha, hr, Bool.and_self]

theorem all_sends_text (p : Player) (text : List Nat) :
    all_sends (send_text_to_player p text) = true := rfl

theorem all_sends_foldl (c : Nat → Bool) (f : Nat → List Ev) (l : List Nat)
    (hf : ∀ i, all_sends (f i) = true) :
    all_sends (l.foldl (fun evs i => if c i then evs ++ f i else evs) []) = true := by
  rw [foldl_sends, List.nil_append]
  apply all_sends_flatten
  intro x hx
  obtain ⟨i, -, rfl⟩ := List.mem_map.mp hx
  exact hf i

theorem send_to_round_players_locked (g : GameState) (f : Player → List Ev)
    (hf : ∀ p, all_sends (f p) = true) :
    (send_to_round_players g f).sends_locked .coordinator g := by
  refine ⟨_, ?_, by rw [send_to_round_players_eq]⟩
  apply all_sends_flatten
  intro x hx
  obtain ⟨i, -, rfl⟩ := List.mem_map.mp hx
  exact hf _

theorem foldl_log (f : GameState → Nat → GameState) (hf : ∀ g i, (f g i).log = g.log)
    (l : List Nat) : ∀ g, (l.foldl f g).log = g.log := by
  induction l with
  | nil => exact fun g => rfl
  | cons a as ih =>
    intro g
    exact (ih (f g a)).trans (hf g a)

theorem deal_players_log (g : GameState) : (deal_players g).log = g.log := by
  unfold deal_players
  apply foldl_log
  intro g i
  split <;> rfl

theorem all_sends_hand (p : Player) : all_sends [send_hand_to_player p] = true := by
  simp [all_sends, send_hand_to_player]

theorem deal_round_g (g : GameState) :
    (deal_round g).g = send_to_round_players
      (deal_to_dealer (deal_to_dealer { g := deal_players g, dealer_hand := [] })).g
      (fun p => [send_hand_to_player p]) := rfl

theorem deal_to_dealer_log (r : Round) : (deal_to_dealer r).g.log = r.g.log := rfl

theorem deal_round_locked (g : GameState) : (deal_round g).g.sends_locked .coordinator g := by
  rw [deal_round_g]
  obtain ⟨sends, hs, hl⟩ := send_to_round_players_locked
    (deal_to_dealer (deal_to_dealer { g := deal_players g, dealer_hand := [] })).g
    (fun p => [send_hand_to_player p]) all_sends_hand
  rw [deal_to_dealer_log, deal_to_dealer_log, deal_players_log] at hl
  exact ⟨sends, hs, hl⟩

theorem dealer_reveal_locked (r : Round) :
    (dealer_reveal r).g.sends_locked .coordinator r.g := by
  unfold dealer_reveal
  simp only []
  exact send_to_round_players_locked _ _ (fun p => all_sends_text p _)

theorem dealer_draw_locked (r : Round) : (dealer_draw r).g.sends_locked .coordinator r.g := by
  obtain ⟨sends, hs, hl⟩ := send_to_round_players_locked (deal_to_dealer r).g
    (fun p => send_text_to_player p
      (snprintf_buf (str "Dealer hits " ++ card_to_str (deal_card r.g.deck r.g.deck_top).1)))
    (fun p => all_sends_text p _)
  exact ⟨sends, hs, hl⟩

theorem settle_locked (g : GameState) (dv : Nat) : (settle g dv).sends_locked .coordinator g := by
  unfold settle
  exact send_to_round_players_locked g _ (fun _ => by rfl)

theorem broadcast_msg_locked (g : GameState) (t : Thread) (text : List Nat) :
    (broadcast_msg g t text).sends_locked t g := by
  refine ⟨_, all_sends_foldl (fun i => (g.player i).state != .EMPTY && (g.player i).alive)
    (fun i => [Ev.send (g.player i).sockfd (MSG_BROADCAST ++ str " "),
      Ev.send (g.player i).sockfd (snprintf_buf text)]) (List.range MAX_PLAYERS)
    (fun _ => by rfl), ?_⟩
  unfold broadcast_msg
  simp [GameState.emit]

theorem strncmp_chat_only (s : List Nat) (h : strncmp_eq s CMD_CHAT = true) :
    strncmp_eq s CMD_ACTION = false ∧ strncmp_eq s CMD_QUIT = false := by
  unfold strncmp_eq at h ⊢
  obtain ⟨t, rfl⟩ := List.isPrefixOf_iff_prefix.mp h
  exact ⟨rfl, rfl⟩

theorem chat_relay_locked (g : GameState) (i : Nat) (rr : Int) (msg : List Nat)
    (halive : (g.player i).alive = true) (hrr : 0 < rr)
    (hchat : strncmp_eq (c_string msg) CMD_CHAT = true) :
    (client_reader_iter g i rr msg).sends_locked (.reader i) g := by
  obtain ⟨h1, h2⟩ := strncmp_chat_only _ hchat
  have hrr2 : ¬ rr ≤ 0 := by omega
  refine ⟨chat_sends g (g.player i) (snprintf_buf ((g.player i).name ++ str ": " ++
    skip_spaces ((c_string msg).drop CMD_CHAT.length))), ?_, ?_⟩
  · unfold chat_sends
    exact all_sends_foldl _ (fun j => [Ev.send (g.player j).sockfd MSG_BROADCAST,
      Ev.send (g.player j).sockfd _]) _ (fun _ => by rfl)
  · unfold client_reader_iter
    simp [halive, hrr2, h1, h2, hchat, GameState.emit]

/-! ## The shuffle as a function of its indices -/

theorem swap_cards_getD (deck : List Nat) (i j k : Nat) (hi : i < deck.length)
    (hj : j < deck.length) :
    (swap_cards deck i j).getD k 0
      = if k = j then deck.getD i 0 else if k = i then deck.getD j 0 else deck.getD k 0 := by
  unfold swap_cards
  simp only [List.getD_eq_getElem?_getD, List.getElem?_set, List.length_set]
  by_cases hkj : k = j
  · subst hkj
    simp [hj]
  · have hjk : ¬ j = k := fun h => hkj h.symm
    simp only [hjk, hkj, if_false]
    by_cases hki : k = i
    · subst hki
      simp [hi]
    · have hik : ¬ i = k := fun h => hki h.symm
      simp [hik, hki]

/-- The steps from `i` down leave the entries above `i` alone. -/
theorem shuffle_loop_above (rand_r : Nat → Nat × Nat) :
    ∀ (i : Nat) (deck : List Nat) (seed : Nat), i < deck.length →
      ∀ k, i < k → (shuffle_loop rand_r i deck seed).1.getD k 0 = deck.getD k 0 := by
  intro i
  induction i with
  | zero =>
    intro deck seed _ k _
    simp [shuffle_loop]
  | succ i ih =>
    intro deck seed hi k hk
    have hj : (rand_r seed).1 % (i + 1 + 1) < i + 1 + 1 := Nat.mod_lt _ (by omega)
    simp only [shuffle_loop]
    rw [ih _ _ (by rw [swap_cards_length]; omega) k (by omega),
      swap_cards_getD deck (i + 1) _ k hi (by omega)]
    have h1 : ¬ k = (rand_r seed).1 % (i + 1 + 1) := by omega
    have h2 : ¬ k = i + 1 := by omega
    simp [h1, h2]

/-- Step `i + 1` decides the entry `i + 1` of the result: it is the entry of the deck at
the index chosen for that step. -/
theorem shuffle_loop_top (rand_r : Nat → Nat × Nat) (i : Nat) (deck : List Nat) (seed : Nat)
    (hi : i + 1 < deck.length) :
    (shuffle_loop rand_r (i + 1) deck seed).1.getD (i + 1) 0
      = deck.getD ((rand_r seed).1 % (i + 1 + 1)) 0 := by
  have hj : (rand_r seed).1 % (i + 1 + 1) < i + 1 + 1 := Nat.mod_lt _ (by omega)
  simp only [shuffle_loop]
  rw [shuffle_loop_above rand_r i _ _ (by rw [swap_cards_length]; omega) (i + 1) (by omega),
    swap_cards_getD deck (i + 1) _ (i + 1) hi (by omega)]
  split
  · rename_i h
    rw [← h]
  · simp

theorem getD_inj_of_nodup (l : List Nat) (h : l.Nodup) (a b : Nat) (ha : a < l.length)
    (hb : b < l.length) (hab : l.getD a 0 = l.getD b 0) : a = b := by
  rw [List.getD_eq_getElem _ _ ha, List.getD_eq_getElem _ _ hb] at hab
  exact (List.Nodup.getElem_inj_iff h).mp hab

theorem shuffle_loop_index_succ (j : Nat → Nat) (i : Nat) (deck : List Nat) :
    shuffle_loop (index_source j) (i + 1) deck (i + 1)
      = shuffle_loop (index_source j) i (swap_cards deck (i + 1) (j (i + 1) % (i + 1 + 1))) i := by
  simp [shuffle_loop, index_source]

/-- Two index sequences that give the same deck choose the same index at every step. -/
theorem shuffle_loop_index_inj (j j' : Nat → Nat) :
    ∀ (i : Nat) (deck : List Nat), deck.Nodup → i < deck.length →
      (shuffle_loop (index_source j) i deck i).1 = (shuffle_loop (index_source j') i deck i).1 →
      ∀ k, 1 ≤ k → k ≤ i → j k % (k + 1) = j' k % (k + 1) := by
  intro i
  induction i with
  | zero =>
    intro deck _ _ _ k h1 h2
    omega
  | succ i ih =>
    intro deck hnd hi heq k hk1 hk2
    have ha : j (i + 1) % (i + 1 + 1) < i + 1 + 1 := Nat.mod_lt _ (by omega)
    have ha' : j' (i + 1) % (i + 1 + 1) < i + 1 + 1 := Nat.mod_lt _ (by omega)
    have htop : deck.getD (j (i + 1) % (i + 1 + 1)) 0 = deck.getD (j' (i + 1) % (i + 1 + 1)) 0 := by
      have h1 := shuffle_loop_top (index_source j) i deck (i + 1) hi
      have h2 := shuffle_loop_top (index_source j') i deck (i + 1) hi
      rw [heq] at h1
      rw [h1] at h2
      exact h2
    have hidx := getD_inj_of_nodup deck hnd _ _ (by omega) (by omega) htop
    by_cases hk : k = i + 1
    · subst hk
      exact hidx
    · rw [shuffle_loop_index_succ, shuffle_loop_index_succ, ← hidx] at heq
      have hp := swap_cards_perm deck (i + 1) (j (i + 1) % (i + 1 + 1)) hi (by omega)
      exact ih _ (hp.nodup_iff.mpr hnd) (by rw [swap_cards_length]; omega) heq k hk1 (by omega)

/-- The result depends on the indices of the steps taken only. -/
theorem shuffle_loop_index_congr (j j' : Nat → Nat) :
    ∀ (i : Nat) (deck : List Nat), (∀ k, 1 ≤ k → k ≤ i → j k = j' k) →
      shuffle_loop (index_source j) i deck i = shuffle_loop (index_source j') i deck i := by
  intro i
  induction i with
  | zero =>
    intro deck _
    simp [shuffle_loop]
  | succ i ih =>
    intro deck h
    rw [shuffle_loop_index_succ, shuffle_loop_index_succ, h (i + 1) (by omega) (le_refl _)]
    exact ih _ (fun k h1 h2 => h k h1 (by omega))

theorem eq_of_perm_of_getD_tail (t deck : List Nat) (hnd : deck.Nodup) (hp : t.Perm deck)
    (h : ∀ k, 0 < k → t.getD k 0 = deck.getD k 0) : t = deck := by
  have hlen := hp.length_eq
  cases t with
  | nil =>
    cases deck with
    | nil => rfl
    | cons b d => simp at hlen
  | cons a t' =>
    cases deck with
    | nil => simp at hlen
    | cons b d =>
      have htl : t' = d := by
        apply List.ext_getElem
        · simpa using hlen
        · intro n h1 h2
          have := h (n + 1) (by omega)
          simpa [List.getD_eq_getElem?_getD, h1, h2] using this
      subst htl
      have hmem : a ∈ b :: t' := hp.subset (List.mem_cons_self _ _)
      have hnt : (a :: t').Nodup := hp.nodup_iff.mpr hnd
      have hat : a ∉ t' := (List.nodup_cons.mp hnt).1
      rcases List.mem_cons.mp hmem with hab | hab
      · rw [hab]
      · exact absurd hab hat

/-- Every rearrangement of the deck that agrees with it above `i` is reached by the
steps from `i` down, for some choice of their indices. -/
theorem shuffle_loop_index_surj :
    ∀ (i : Nat) (deck t : List Nat), deck.Nodup → t.Perm deck → i < deck.length →
      (∀ k, i < k → t.getD k 0 = deck.getD k 0) →
      ∃ j : Nat → Nat, (∀ k, j k ≤ k) ∧ (shuffle_loop (index_source j) i deck i).1 = t := by
  intro i
  induction i with
  | zero =>
    intro deck t hnd hp _ h
    refine ⟨fun _ => 0, fun k => Nat.zero_le k, ?_⟩
    simp only [shuffle_loop]
    exact (eq_of_perm_of_getD_tail t deck hnd hp h).symm
  | succ i ih =>
    intro deck t hnd hp hi h
    have hlen := hp.length_eq
    have hnt : t.Nodup := hp.nodup_iff.mpr hnd
    have hit : i + 1 < t.length := by omega
    have hx : t.getD (i + 1) 0 ∈ deck := by
      rw [List.getD_eq_getElem _ _ hit]
      exact hp.subset (List.getElem_mem hit)
    obtain ⟨a, ha, hda⟩ := List.getElem_of_mem hx
    have hda2 : deck.getD a 0 = t.getD (i + 1) 0 := by
      rw [List.getD_eq_getElem _ _ ha]
      exact hda
    have hale : a ≤ i + 1 := by
      by_contra hgt
      have h1 := h a (by omega)
      rw [hda2] at h1
      have := getD_inj_of_nodup t hnt a (i + 1) (by omega) hit h1
      omega
    have hp2 := swap_cards_perm deck (i + 1) a hi ha
    obtain ⟨j', hj', hrun⟩ := ih (swap_cards deck (i + 1) a) t (hp2.nodup_iff.mpr hnd)
      (hp.trans hp2.symm) (by rw [swap_cards_length]; omega) (by
        intro k hk
        rw [swap_cards_getD deck (i + 1) a k hi ha]
        by_cases hk1 : k = i + 1
        · subst hk1
          by_cases haa : i + 1 = a
          · simp only [haa, if_true]
            rw [← haa, ← hda2, ← haa]
          · simp only [haa, if_false, if_true]
            exact hda2.symm
        · have hka : ¬ k = a := by omega
          simp only [hka, hk1, if_false]
          exact h k (by omega))
    refine ⟨fun k => if k = i + 1 then a else j' k, ?_, ?_⟩
    · intro k
      by_cases hk : k = i + 1
      · simp only [hk, if_true]
        exact hale
      · simp only [hk, if_false]
        exact hj' k
    · rw [shuffle_loop_index_succ]
      simp only [if_true]
      rw [Nat.mod_eq_of_lt (by omega : a < i + 1 + 1),
        shuffle_loop_index_congr _ j' i _ (fun k _ h2 => by
          have : ¬ k = i + 1 := by omega
          simp [this])]
      exact hrun

/-! ## Hand capacity -/

theorem hard_total_lower (hand : List Nat) :
    3 * hand.length
      ≤ hard_total hand + 2 * hand.countP (fun c => c % 13 = 0)
        + hand.countP (fun c => c % 13 = 1) := by
  induction hand with
  | nil => simp [hard_total]
  | cons c cs ih =>
    rw [hard_total_cons, List.countP_cons, List.countP_cons, List.length_cons]
    have hc : 3 ≤ card_points_hard c + 2 * (if c % 13 = 0 then 1 else 0)
        + (if c % 13 = 1 then 1 else 0) := by
      unfold card_points_hard
      split_ifs <;> omega
    simp only [decide_eq_true_eq]
    omega

theorem countP_real_cards (p : Nat → Bool) (hp : p NO_CARD = false) (hand : List Nat) :
    hand.countP p = (real_cards hand).countP p := by
  induction hand with
  | nil => rfl
  | cons c cs ih =>
    unfold real_cards at ih ⊢
    by_cases hc : c = NO_CARD
    · subst hc
      simp [List.countP_cons, hp, ih]
    · have : (c != NO_CARD) = true := by simpa using hc
      simp [List.countP_cons, List.filter_cons, this, ih]

/-- A hand dealt from a deck that is a permutation of 0..51 holds at most four Aces and
four twos, so three points a card less twelve. -/
theorem dealt_from_bound (deck : List Nat) (top : Nat) (hand : List Nat)
    (hdeck : deck.Perm (List.range 52)) (h : dealt_from deck top hand) :
    3 * hand.length ≤ hard_total hand + 12 := by
  have hsub : (real_cards hand).Sublist deck := h.trans (List.take_sublist _ _)
  have ha : hand.countP (fun c => c % 13 = 0) ≤ 4 := by
    rw [countP_real_cards _ (by decide)]
    calc (real_cards hand).countP (fun c => c % 13 = 0)
        ≤ deck.countP (fun c => c % 13 = 0) := List.Sublist.countP_le _ hsub
      _ = (List.range 52).countP (fun c => c % 13 = 0) := hdeck.countP_eq _
      _ = 4 := by decide
  have hb : hand.countP (fun c => c % 13 = 1) ≤ 4 := by
    rw [countP_real_cards _ (by decide)]
    calc (real_cards hand).countP (fun c => c % 13 = 1)
        ≤ deck.countP (fun c => c % 13 = 1) := List.Sublist.countP_le _ hsub
      _ = (List.range 52).countP (fun c => c % 13 = 1) := hdeck.countP_eq _
      _ = 4 := by decide
  have := hard_total_lower hand
  omega

/-- A hand that is not busted holds at most 11 cards. -/
theorem dealt_from_le_eleven (deck : List Nat) (top : Nat) (hand : List Nat)
    (hdeck : deck.Perm (List.range 52)) (h : dealt_from deck top hand)
    (hv : hand_value hand ≤ 21) : hand.length ≤ 11 := by
  have h1 := dealt_from_bound deck top hand hdeck h
  have h2 := hard_total_le_hand_value hand
  omega

/-- A hand worth less than 17 holds at most 9 cards. -/
theorem dealt_from_le_nine (deck : List Nat) (top : Nat) (hand : List Nat)
    (hdeck : deck.Perm (List.range 52)) (h : dealt_from deck top hand)
    (hv : hand_value hand < 17) : hand.length ≤ 9 := by
  have h1 := dealt_from_bound deck top hand hdeck h
  have h2 := hard_total_le_hand_value hand
  omega

theorem dealt_from_nil (deck : List Nat) (top : Nat) : dealt_from deck top [] :=
  List.nil_sublist _

theorem dealt_from_mono (deck : List Nat) (top top' : Nat) (hand : List Nat)
    (ht : top ≤ top') (h : dealt_from deck top hand) : dealt_from deck top' hand :=
  h.trans (List.take_sublist_take_left deck ht)

/-- Dealing a card to a hand dealt from the deck gives a hand dealt from the deck, at
the new cursor. -/
theorem dealt_from_deal (deck : List Nat) (top : Nat) (hand : List Nat)
    (hdeck : deck.Perm (List.range 52)) (h : dealt_from deck top hand) :
    dealt_from deck (deal_card deck top).2 (hand ++ [(deal_card deck top).1]) := by
  have hlen : deck.length = 52 := by simpa using hdeck.length_eq
  unfold deal_card
  split
  · unfold dealt_from real_cards at h ⊢
    simpa [List.filter_append] using h
  · rename_i hlt
    have hlt2 : top < deck.length := by omega
    have hmem : deck[top] ∈ List.range 52 := hdeck.subset (List.getElem_mem hlt2)
    have hne : (deck[top] != NO_CARD) = true := by
      have := List.mem_range.mp hmem
      simp only [bne_iff_ne, ne_eq, NO_CARD]
      omega
    unfold dealt_from real_cards at h ⊢
    simp only [List.getD_eq_getElem _ _ hlt2, List.filter_append, List.filter_cons, hne,
      if_true, List.filter_nil]
    rw [List.take_succ, List.getElem?_eq_getElem hlt2]
    exact List.Sublist.append h (List.Sublist.refl _)

theorem deal_players_fold (g : GameState) :
    deal_players g = (List.range MAX_PLAYERS).foldl deal_players_step g := rfl

theorem deal_players_step_le (g : GameState) (i : Nat) : (deal_players_step g i).round_le g := by
  unfold deal_players_step
  split
  · exact (round_le_deal_to_player _ _).round_trans ((round_le_deal_to_player _ _).round_trans
      (round_le_set_player _ _ _ (by exact Player.round_le_of_eq _ _ rfl rfl rfl)))
  · exact round_refl g

theorem deal_players_step_in_round (g : GameState) (i j : Nat) :
    ((deal_players_step g i).player j).in_round = (g.player j).in_round := by
  unfold deal_players_step
  split
  · exact reset_deal_in_round g i j
  · rfl

theorem deal_players_step_other (g : GameState) (i j : Nat) (hij : i ≠ j) :
    (deal_players_step g i).player j = g.player j := by
  unfold deal_players_step
  split
  · exact reset_deal_other g i j hij
  · rfl

/-- The two cards dealt to a slot of the round were dealt from the deck. -/
theorem deal_players_step_dealt (g : GameState) (i : Nat)
    (hdeck : g.deck.Perm (List.range 52)) (hin : (g.player i).in_round = true) :
    dealt_from (deal_players_step g i).deck (deal_players_step g i).deck_top
      ((deal_players_step g i).player i).hand := by
  have hi : i < g.players.length := by
    apply alive_lt_length
    simp only [Player.in_round, Bool.and_eq_true] at hin
    exact hin.1
  have h1 : i < (g.set_player i (reset_player_round (g.player i))).players.length := by
    rw [players_length_set_player]
    exact hi
  have h2 : i < (deal_to_player (g.set_player i (reset_player_round (g.player i)))
      i).players.length := by
    rw [deal_to_player, players_length_set_player]
    exact h1
  unfold deal_players_step
  simp only [hin, if_true]
  rw [deal_to_player_player _ i h2, deal_to_player_player _ i h1,
    player_set_player_same _ _ _ hi]
  have d0 : dealt_from g.deck g.deck_top (reset_player_round (g.player i)).hand :=
    dealt_from_nil _ _
  have d1 := dealt_from_deal g.deck g.deck_top _ hdeck d0
  exact dealt_from_deal g.deck (deal_card g.deck g.deck_top).2 _ hdeck d1

/-- After the dealing loop has visited the slots of `l`, the hand of every visited slot
of the round was dealt from the deck; the deck is the same and the cursor has only
advanced; the slots of the round are the same. -/
theorem deal_fold_dealt (l : List Nat) :
    ∀ g : GameState, g.deck.Perm (List.range 52) →
      (l.foldl deal_players_step g).deck = g.deck ∧
      g.deck_top ≤ (l.foldl deal_players_step g).deck_top ∧
      (∀ j, ((l.foldl deal_players_step g).player j).in_round = (g.player j).in_round) ∧
      (∀ j, j ∉ l → (l.foldl deal_players_step g).player j = g.player j) ∧
      (∀ i, i ∈ l → (g.player i).in_round = true →
        dealt_from (l.foldl deal_players_step g).deck (l.foldl deal_players_step g).deck_top
          ((l.foldl deal_players_step g).player i).hand) := by
  induction l with
  | nil =>
    intro g _
    exact ⟨rfl, le_refl _, fun _ => rfl, fun _ _ => rfl,
      fun i hi => absurd hi (List.not_mem_nil i)⟩
  | cons a as ih =>
    intro g hdeck
    simp only [List.foldl_cons]
    have hle := deal_players_step_le g a
    have hdeck1 : (deal_players_step g a).deck.Perm (List.range 52) := by
      rw [hle.1]
      exact hdeck
    obtain ⟨i1, i2, i3, i4, i5⟩ := ih (deal_players_step g a) hdeck1
    refine ⟨i1.trans hle.1, le_trans hle.2.2.2.1 i2,
      fun j => (i3 j).trans (deal_players_step_in_round g a j), ?_, ?_⟩
    · intro j hj
      have hne : a ≠ j := fun e => hj (e ▸ List.mem_cons_self _ _)
      have hrest : j ∉ as := fun hm => hj (List.mem_cons_of_mem _ hm)
      rw [i4 j hrest, deal_players_step_other g a j hne]
    · intro i hi hin
      by_cases hmem : i ∈ as
      · exact i5 i hmem (by rw [deal_players_step_in_round]; exact hin)
      · have hia : i = a := by
          rcases List.mem_cons.mp hi with h | h
          · exact h
          · exact absurd h hmem
        subst hia
        rw [i4 i hmem, i1]
        exact dealt_from_mono _ _ _ _ i2 (deal_players_step_dealt g i hdeck hin)

theorem deal_round_dealer_hand (g : GameState) :
    (deal_round g).dealer_hand
      = (deal_to_dealer (deal_to_dealer { g := deal_players g, dealer_hand := [] })).dealer_hand :=
  rfl

theorem deal_dealer_two (g1 : GameState) :
    (deal_to_dealer (deal_to_dealer { g := g1, dealer_hand := [] })).g.deck = g1.deck ∧
    (deal_to_dealer (deal_to_dealer { g := g1, dealer_hand := [] })).g.deck_top
      = (deal_card g1.deck (deal_card g1.deck g1.deck_top).2).2 ∧
    (deal_to_dealer (deal_to_dealer { g := g1, dealer_hand := [] })).dealer_hand
      = ([] ++ [(deal_card g1.deck g1.deck_top).1])
        ++ [(deal_card g1.deck (deal_card g1.deck g1.deck_top).2).1] ∧
    (deal_to_dealer (deal_to_dealer { g := g1, dealer_hand := [] })).g.players = g1.players :=
  ⟨rfl, rfl, rfl, rfl⟩

theorem send_to_round_players_deck (g : GameState) (f : Player → List Ev) :
    (send_to_round_players g f).deck = g.deck ∧
    (send_to_round_players g f).deck_top = g.deck_top := ⟨rfl, rfl⟩

/-- After the deal, the hand of every slot of the round and the dealer's hand were
dealt from the deck, and the dealer holds two cards. -/
theorem deal_round_dealt (g : GameState) (hdeck : g.deck.Perm (List.range 52)) :
    (deal_round g).g.deck = g.deck ∧
    (∀ j, ((deal_round g).g.player j).in_round = (g.player j).in_round) ∧
    (∀ i, i < MAX_PLAYERS → (g.player i).in_round = true →
      dealt_from (deal_round g).g.deck (deal_round g).g.deck_top
        ((deal_round g).g.player i).hand) ∧
    dealt_from (deal_round g).g.deck (deal_round g).g.deck_top (deal_round g).dealer_hand ∧
    (deal_round g).dealer_hand.length = 2 := by
  obtain ⟨f1, f2, f3, -, f5⟩ := deal_fold_dealt (List.range MAX_PLAYERS) g hdeck
  rw [← deal_players_fold] at f1 f2 f3 f5
  obtain ⟨e1, e2, e3, e4⟩ := deal_dealer_two (deal_players g)
  have hp : ∀ j, (deal_round g).g.player j = (deal_players g).player j := by
    intro j
    unfold GameState.player
    rw [deal_round_players]
  have hd : (deal_round g).g.deck = (deal_players g).deck := by
    rw [deal_round_g, (send_to_round_players_deck _ _).1, e1]
  have ht : (deal_round g).g.deck_top
      = (deal_card (deal_players g).deck
          (deal_card (deal_players g).deck (deal_players g).deck_top).2).2 := by
    rw [deal_round_g, (send_to_round_players_deck _ _).2, e2]
  have hdeck1 : (deal_players g).deck.Perm (List.range 52) := by
    rw [f1]
    exact hdeck
  have hmono : (deal_players g).deck_top ≤ (deal_card (deal_players g).deck
      (deal_card (deal_players g).deck (deal_players g).deck_top).2).2 :=
    le_trans (deal_card_snd _ _).1 (deal_card_snd _ _).1
  refine ⟨hd.trans f1, fun j => by rw [hp]; exact f3 j, ?_, ?_, ?_⟩
  · intro i hi hin
    rw [hd, ht, hp]
    exact dealt_from_mono _ _ _ _ hmono (f5 i (List.mem_range.mpr hi) hin)
  · rw [hd, ht, deal_round_dealer_hand, e3]
    exact dealt_from_deal _ _ _ hdeck1 (dealt_from_deal _ _ _ hdeck1 (dealt_from_nil _ _))
  · rw [deal_round_dealer_hand, e3]
    rfl

/-- The turn loop of slot `i`, entered with a hand dealt from the deck and worth at most
21, leaves a hand dealt from the deck of at most 12 cards: every Hit is taken with at
most 11 cards in the hand. -/
theorem player_turn_loop_capacity (i : Nat) :
    ∀ (fuel : Nat) (g : GameState) (os : List WaitOracle) (res : GameState × List PlayerAction),
      g.deck.Perm (List.range 52) → player_turn_loop fuel g i os = some res →
      dealt_from g.deck g.deck_top (g.player i).hand → hand_value (g.player i).hand ≤ 21 →
      dealt_from res.1.deck res.1.deck_top (res.1.player i).hand ∧
        (res.1.player i).hand.length ≤ 12 := by
  intro fuel
  induction fuel with
  | zero =>
    intro g os res _ h
    simp [player_turn_loop] at h
  | succ fuel ih =>
    intro g os res hdeck h hd hv
    have h11 := dealt_from_le_eleven g.deck g.deck_top _ hdeck hd hv
    rw [player_turn_loop] at h
    split at h
    · simp only [] at h
      have hle := player_turn_iter_le g i (os.headD ⟨[], []⟩)
      have hspec := player_turn_iter_spec g i (os.headD ⟨[], []⟩)
      have hdeal := dealt_from_deal g.deck g.deck_top _ hdeck hd
      split at h
      · rename_i hagain
        split at h
        · exact absurd h (by simp)
        · rename_i r hr
          simp only [Option.some.injEq] at h
          rw [← h]
          rcases hspec with ⟨-, h2, -⟩ | ⟨-, -, hh, ht, -, hcase⟩ | ⟨-, -, -, -, -, -, h2⟩
          · rw [h2] at hagain
            exact absurd hagain (by decide)
          · rcases hcase with ⟨-, -, h2⟩ | ⟨hv2, -, -⟩
            · rw [h2] at hagain
              exact absurd hagain (by decide)
            · exact ih _ _ r (by rw [hle.1]; exact hdeck) hr
                (by rw [hle.1, hh, ht]; exact hdeal) hv2
          · rw [h2] at hagain
            exact absurd hagain (by decide)
      · simp only [Option.some.injEq] at h
        rw [← h]
        simp only []
        rcases hspec with ⟨-, -, he⟩ | ⟨-, -, hh, ht, -, -⟩ | ⟨-, -, hh, ht, -⟩
        · rw [he.1, he.2.1, (he.2.2.2.2 i).1]
          exact ⟨hd, by omega⟩
        · rw [hle.1, hh, ht]
          exact ⟨hdeal, by rw [List.length_append]; simp; omega⟩
        · rw [hle.1, hh, ht]
          exact ⟨hd, by omega⟩
    · simp only [Option.some.injEq] at h
      rw [← h]
      simp only []
      exact ⟨hd, by omega⟩

/-- The turn of slot `i`: the deck is kept, the cursor only advances, the other hands are
kept, and the hand of slot `i`, if it entered the turn dealt from the deck and worth at
most 21, is dealt from the deck and holds at most 12 cards. -/
theorem player_turn_capacity (g g' : GameState) (i : Nat) (os : List WaitOracle)
    (hdeck : g.deck.Perm (List.range 52)) (h : player_turn g i os = some g')
    (hd : dealt_from g.deck g.deck_top (g.player i).hand)
    (hlen : (g.player i).hand.length ≤ 12)
    (hv : (g.player i).in_round = true → hand_value (g.player i).hand ≤ 21) :
    dealt_from g'.deck g'.deck_top (g'.player i).hand ∧ (g'.player i).hand.length ≤ 12 := by
  unfold player_turn at h
  split at h
  · simp only [Option.some.injEq] at h
    rw [← h]
    exact ⟨hd, hlen⟩
  · rename_i hin
    cases hr : player_turn_loop 22 g i os with
    | none => simp [hr] at h
    | some res =>
      simp only [hr, Option.map_some', Option.some.injEq] at h
      rw [← h]
      exact player_turn_loop_capacity i 22 g os res hdeck hr hd (hv (by simpa using hin))

/-- After the turns of the first `n` slots, the hand of every slot of the round was
dealt from the deck and holds at most 12 cards. -/
theorem turns_capacity (rand_r : Nat → Nat × Nat) (g : GameState)
    (oracles : List (List WaitOracle))
    (hdeck : (reshuffle_check rand_r g).deck.Perm (List.range 52)) :
    ∀ (n : Nat), n ≤ MAX_PLAYERS → ∀ gn : GameState,
      (List.range n).foldlM (fun g j => player_turn g j (oracles.getD j []))
        (deal_round (reshuffle_check rand_r g)).g = some gn →
      gn.deck = (reshuffle_check rand_r g).deck ∧
      ∀ i, i < MAX_PLAYERS → ((reshuffle_check rand_r g).player i).in_round = true →
        dealt_from gn.deck gn.deck_top (gn.player i).hand ∧ (gn.player i).hand.length ≤ 12 := by
  obtain ⟨b1, b2, b3, -, -⟩ := deal_round_dealt (reshuffle_check rand_r g) hdeck
  intro n
  induction n with
  | zero =>
    intro _ gn h
    simp only [List.range_zero, List.foldlM_nil] at h
    cases h
    refine ⟨b1, fun i hi hin => ⟨b3 i hi hin, ?_⟩⟩
    have := (deal_round_spec (reshuffle_check rand_r g) i hi (by rw [b2]; exact hin)).1
    omega
  | succ n ih =>
    intro hn g' h
    rw [List.range_succ, List.foldlM_append] at h
    cases hp : (List.range n).foldlM (fun g j => player_turn g j (oracles.getD j []))
        (deal_round (reshuffle_check rand_r g)).g with
    | none =>
      rw [hp] at h
      cases h
    | some gn =>
      rw [hp] at h
      have hturn : player_turn gn n (oracles.getD n []) = some g' := by
        change [n].foldlM (fun g j => player_turn g j (oracles.getD j [])) gn = some g' at h
        rw [List.foldlM_cons] at h
        cases ht : player_turn gn n (oracles.getD n []) with
        | none =>
          rw [ht] at h
          cases h
        | some g2 =>
          rw [ht] at h
          exact h
      obtain ⟨hd1, hall⟩ := ih (by omega) gn hp
      obtain ⟨g2, hg2, hle⟩ := player_turn_le gn n (oracles.getD n [])
      rw [hturn] at hg2
      cases hg2
      have hoff := player_turn_off gn g' n _ hturn
      refine ⟨hle.1.trans hd1, fun i hi hin => ?_⟩
      obtain ⟨hdi, hli⟩ := hall i hi hin
      by_cases hin2 : i = n
      · subst hin2
        exact player_turn_capacity gn g' i _ (by rw [hd1]; exact hdeck) hturn hdi hli
          (fun hr => (turn_entry_state rand_r g gn oracles i hi hp hr).2.2.2)
      · rw [hle.1, (hoff i hin2).1]
        exact ⟨dealt_from_mono _ _ _ _ hle.2.2.2.1 hdi, hli⟩

theorem deal_stream_length (deck : List Nat) (n : Nat) :
    ∀ top, (deal_stream deck top n).length = n := by
  induction n with
  | zero => intro top; rfl
  | succ n ih =>
    intro top
    rw [deal_stream, List.length_cons, ih]

theorem dealt_from_stream (deck : List Nat) (hdeck : deck.Perm (List.range 52)) (n : Nat) :
    ∀ (top : Nat) (hand : List Nat), dealt_from deck top hand →
      dealt_from deck (deal_cursor deck top n) (hand ++ deal_stream deck top n) := by
  induction n with
  | zero =>
    intro top hand h
    simpa [deal_stream, deal_cursor] using h
  | succ n ih =>
    intro top hand h
    have := ih (deal_card deck top).2 _ (dealt_from_deal deck top hand hdeck h)
    rw [List.append_assoc] at this
    exact this

theorem dealer_draw_players (r : Round) : (dealer_draw r).g.players = r.g.players := rfl

theorem dealer_reveal_players (r : Round) : (dealer_reveal r).g.players = r.g.players := rfl

theorem dealer_loop_players :
    ∀ (fuel : Nat) (r : Round) (dv : Nat) (res : Round × Nat),
      dealer_loop fuel r dv = some res → res.1.g.players = r.g.players := by
  intro fuel
  induction fuel with
  | zero =>
    intro r dv res h
    simp [dealer_loop] at h
  | succ fuel ih =>
    intro r dv res h
    rw [dealer_loop] at h
    split at h
    · exact (ih _ _ res h).trans (dealer_draw_players r)
    · simp only [Option.some.injEq] at h
      rw [← h]

theorem dealer_play_players (r : Round) (res : Round × Nat) (h : dealer_play r = some res) :
    res.1.g.players = r.g.players := by
  unfold dealer_play at h
  exact (dealer_loop_players 18 _ _ res h).trans (dealer_reveal_players r)

theorem settle_players (g : GameState) (dv : Nat) : (settle g dv).players = g.players := rfl

/-- The dealer's play, entered with a two-card hand dealt from the deck: every draw is
made with at most 9 cards in the hand, so the final hand holds at most 10. -/
theorem dealer_play_capacity (r : Round) (hdeck : r.g.deck.Perm (List.range 52))
    (hd : dealt_from r.g.deck r.g.deck_top r.dealer_hand) (hlen : r.dealer_hand.length = 2) :
    ∃ res n, dealer_play r = some res ∧
      res.1.dealer_hand = r.dealer_hand ++ deal_stream r.g.deck r.g.deck_top n ∧
      (∀ m, m < n → (r.dealer_hand ++ deal_stream r.g.deck r.g.deck_top m).length ≤ 9) ∧
      res.1.dealer_hand.length ≤ 10 := by
  obtain ⟨res, n, hrun, -, -, hhand, -, -, hmin⟩ := dealer_play_spec r
  have hdraw : ∀ m, m < n →
      (r.dealer_hand ++ deal_stream r.g.deck r.g.deck_top m).length ≤ 9 := fun m hm =>
    dealt_from_le_nine r.g.deck _ _ hdeck (dealt_from_stream r.g.deck hdeck m _ _ hd) (hmin m hm)
  refine ⟨res, n, hrun, hhand, hdraw, ?_⟩
  rw [hhand, List.length_append, deal_stream_length, hlen]
  cases n with
  | zero => omega
  | succ k =>
    have := hdraw k (by omega)
    rw [List.length_append, deal_stream_length, hlen] at this
    omega

theorem reshuffle_check_deck (rand_r : Nat → Nat × Nat) (g : GameState) :
    (reshuffle_check rand_r g).deck = (shuffle_deck rand_r init_deck g.rand_seed).1 ∨
    (reshuffle_check rand_r g).deck = g.deck := by
  by_cases h2 : g.deck_top > 52 - RESHUFFLE_THRESHOLD
  · left
    simp [reshuffle_check, GameState.emit, h2]
  · right
    simp [reshuffle_check, GameState.emit, h2]

theorem reshuffle_check_perm (rand_r : Nat → Nat × Nat) (g : GameState)
    (hdeck : g.deck.Perm (List.range 52)) :
    (reshuffle_check rand_r g).deck.Perm (List.range 52) := by
  have hs : (shuffle_deck rand_r init_deck g.rand_seed).1.Perm (List.range 52) :=
    shuffle_loop_perm rand_r 51 init_deck g.rand_seed (by simp [init_deck])
  rcases reshuffle_check_deck rand_r g with h | h
  · rw [h]
    exact hs
  · rw [h]
    exact hdeck

theorem reshuffle_check_players (rand_r : Nat → Nat × Nat) (g : GameState) (i : Nat) :
    (reshuffle_check rand_r g).player i = g.player i := by
  have h : (reshuffle_check rand_r g).players = g.players := by
    unfold reshuffle_check
    simp only []
    split <;> rfl
  unfold GameState.player
  rw [h]

/-! ## The round and the registry mutex -/

theorem deal_cards_log (g : GameState) : (deal_cards g).g.log = g.log := by
  unfold deal_cards
  rw [deal_to_dealer_log, deal_to_dealer_log, deal_players_log]

theorem reshuffle_check_log (rand_r : Nat → Nat × Nat) (g : GameState) :
    (reshuffle_check rand_r g).log = g.log ++ tagged .coordinator [.lock_G] := by
  unfold reshuffle_check
  simp only []
  split <;> rfl

theorem deal_round_of_deal_cards (g : GameState) :
    deal_round g = ⟨send_to_round_players (deal_cards g).g
      (fun p => [send_hand_to_player p]), (deal_cards g).dealer_hand⟩ := rfl

/-- Every round stops at line 398: the coordinator has taken `G.lock` for the reshuffle
check and not released it. -/
theorem game_loop_round_blocked (rand_r : Nat → Nat × Nat) (g : GameState)
    (oracles : List (List WaitOracle)) :
    game_loop_round rand_r g oracles
      = some (.blocked (deal_cards (reshuffle_check rand_r g))) := by
  have hlog : (deal_cards (reshuffle_check rand_r g)).g.log
      = g.log ++ tagged .coordinator [.lock_G] := by
    rw [deal_cards_log, reshuffle_check_log]
  unfold game_loop_round
  simp only [hlog, List.drop_left]
  rfl

/-- The threshold of 15 does not cover the body of a round.  In `game_round`, where the
lock call of line 398 returns, at `table_six` (six live in-game players, 15 undealt
cards, so no reshuffle) the initial deal takes 14 cards; the first player hits and takes
the last card; the second player hits, `deal_card` is called with the cursor at 52, and
`0xFF` is stored in that player's hand. -/
theorem game_round_deals_sentinel :
    table_six.deck.Perm (List.range 52) ∧
    ¬ (52 : Int) - table_six.deck_top < 15 ∧
    (game_round (fun s => (s, s)) table_six
        [[⟨[], [⟨[⟨0, 10, str "ACTION HIT"⟩], false⟩]⟩],
         [⟨[], [⟨[⟨1, 10, str "ACTION HIT"⟩], false⟩]⟩,
          ⟨[], [⟨[⟨1, 12, str "ACTION STAND"⟩], false⟩]⟩]]).map
      (fun g => ((g.player 0).hand, (g.player 1).hand, g.deck_top))
      = some ([37, 38, 51], [39, 40, 255], 52) := by
  refine ⟨by decide, by decide, by decide⟩


/-! # Claims -/

/-- C1: for every hand, `hand_value` is the standard blackjack total: with `hard` the sum
that counts each Ace as 1, each J/Q/K as 10 and any other card at its pip value, the result
is `hard + 10 * k` for some `k` between 0 and the number of Aces; it is `hard` itself when
`hard > 21`, and otherwise it is at most 21 and no other admissible `hard + 10 * j` that is
at most 21 is larger.  `[A,K]` and `[A,A,9]` give 21, `[A,A,A,8]` stays at most 21 and
`[10,9,5]` gives 24. -/
theorem hand_value_standard (hand : List Nat) :
    (∃ k, k ≤ ace_count hand ∧ hand_value hand = hard_total hand + 10 * k) ∧
    (21 < hard_total hand → hand_value hand = hard_total hand) ∧
    (hard_total hand ≤ 21 → hand_value hand ≤ 21 ∧
      ∀ j, j ≤ ace_count hand → hard_total hand + 10 * j ≤ 21 →
        hard_total hand + 10 * j ≤ hand_value hand) ∧
    hand_value [0, 12] = 21 ∧ hand_value [0, 13, 8] = 21 ∧
    hand_value [0, 13, 26, 7] ≤ 21 ∧ hand_value [9, 8, 4] = 24 := by
  obtain ⟨k, hk, he, hz, hm⟩ := hand_value_demote_spec (hard_total hand) (ace_count hand)
  rw [← hand_value_eq] at he
  refine ⟨⟨k, hk, he⟩, ?_, ?_, by decide, by decide, by decide, by decide⟩
  · intro h
    have : k = 0 := hz (by omega)
    simp [he, this]
  · intro h
    refine ⟨?_, ?_⟩
    · by_contra hc
      have : k = 0 := hz (by omega)
      subst this
      omega
    · intro j hj hle
      have := hm j hj hle
      omega

/-- C1, at a concrete hand: Ace, Ace, 9 has hard total 11, two Aces, and value 21. -/
theorem hand_value_standard_witness :
    hard_total [0, 13, 8] ≤ 21 ∧ hand_value [0, 13, 8] ≤ 21 ∧
      hard_total [0, 13, 8] + 10 * 1 ≤ hand_value [0, 13, 8] :=
  ⟨by decide, ((hand_value_standard [0, 13, 8]).2.2.1 (by decide)).1,
    ((hand_value_standard [0, 13, 8]).2.2.1 (by decide)).2 1 (by decide) (by decide)⟩

/-- C2: a NUL-free payload of at most 1024 bytes that `send_msg` has written
successfully is on the wire as its 4-byte big-endian length followed by the payload, and
`recv_msg`, reading that stream (whatever follows it, however the reads are split or
interrupted, as long as no `read` fails), returns the payload length, hands back the
payload bytes, and leaves what follows the frame unread. -/
theorem send_recv_roundtrip (msg rest junk : List Nat) (wev : List WriteEvent)
    (rev : List ReadEvent) (out : OutFd)
    (hnul : ∀ b ∈ msg, b ≠ 0) (hlen : msg.length ≤ 1024)
    (hsend : send_msg ⟨[], wev⟩ msg = (0, out))
    (hrev : ReadEvent.error ∉ rev) :
    out.written = htonl msg.length ++ msg ∧
    (recv_msg ⟨out.written ++ rest, rev⟩ junk true).ret = (msg.length : Int) ∧
    (recv_msg ⟨out.written ++ rest, rev⟩ junk true).out_buf = some msg ∧
    (recv_msg ⟨out.written ++ rest, rev⟩ junk true).fd.bytes = rest := by
  have hstr : strlen msg % 2 ^ 32 = msg.length := by
    rw [strlen_of_no_nul msg hnul]
    omega
  -- the write side
  have hw : out.written = htonl msg.length ++ msg := by
    unfold send_msg at hsend
    simp only [hstr] at hsend
    have h1 := write_all_ok ⟨[], wev⟩ (htonl msg.length) 4
    have h2 := write_all_ok (write_all ⟨[], wev⟩ (htonl msg.length) 4).2 msg msg.length
    split at hsend
    · simp at hsend
    · rename_i hw1
      split at hsend
      · simp at hsend
      · rename_i hw2
        simp only [Prod.mk.injEq, true_and] at hsend
        rcases h1 with h1 | h1
        · exact absurd (by rw [h1]; decide) hw1
        · rcases h2 with h2 | h2
          · exact absurd (by rw [h2]; decide) hw2
          · rw [← hsend, h2.2, h1.2]
            simp [htonl]
  refine ⟨hw, ?_⟩
  -- the read side
  have hhead : (htonl msg.length).length = 4 := by simp [htonl]
  obtain ⟨es1, he1, hes1⟩ := (read_all_full ⟨out.written ++ rest, rev⟩ (htonl msg.length)
    (msg ++ rest) (by simp [hw])).1 hrev
  rw [hhead] at he1
  have hes1n : ReadEvent.error ∉ es1 := fun hm => hrev (hes1 _ hm)
  obtain ⟨es2, he2, -⟩ := (read_all_full ⟨msg ++ rest, es1⟩ msg rest rfl).1 hes1n
  have hnt : ntohl (htonl msg.length ++ List.drop 4 (List.take 4 junk)) = msg.length := by
    have : List.drop 4 (List.take 4 junk) = [] := by
      apply List.drop_eq_nil_of_le
      simp
    rw [this, List.append_nil]
    exact ntohl_htonl _ (by omega)
  unfold recv_msg
  simp only [he1, hhead, hnt]
  by_cases h0 : msg.length = 0
  · have hm : msg = [] := List.length_eq_zero.mp h0
    subst hm
    simp
  · have hmax : ¬ msg.length > MAX_PAYLOAD := by
      unfold MAX_PAYLOAD
      omega
    simp [h0, hmax, he2]

/-- C2, at a concrete frame: the payload `HI`, written with a short write and an
interrupted one, read back with an interrupted and a short read. -/
theorem send_recv_roundtrip_witness :
    (∀ b ∈ [72, 73], b ≠ 0) ∧ [72, 73].length ≤ 1024 ∧
    send_msg ⟨[], [.short 0, .eintr]⟩ [72, 73] = (0, ⟨[0, 0, 0, 2, 72, 73], []⟩) ∧
    ReadEvent.error ∉ [ReadEvent.eintr, ReadEvent.short 1] ∧
    (recv_msg ⟨[0, 0, 0, 2, 72, 73] ++ [9], [.eintr, .short 1]⟩ [] true).ret = 2 ∧
    (recv_msg ⟨[0, 0, 0, 2, 72, 73] ++ [9], [.eintr, .short 1]⟩ [] true).out_buf
      = some [72, 73] :=
  have h1 : ∀ b ∈ [72, 73], b ≠ 0 := by decide
  have h2 : [72, 73].length ≤ 1024 := by decide
  have h3 : send_msg ⟨[], [.short 0, .eintr]⟩ [72, 73] = (0, ⟨[0, 0, 0, 2, 72, 73], []⟩) := by
    simp [send_msg, write_all, write_all_loop, sys_write, strlen, htonl]
  have h4 : ReadEvent.error ∉ [ReadEvent.eintr, ReadEvent.short 1] := by decide
  have h := send_recv_roundtrip [72, 73] [9] [] [.short 0, .eintr] [.eintr, .short 1]
    ⟨[0, 0, 0, 2, 72, 73], []⟩ h1 h2 h3 h4
  ⟨h1, h2, h3, h4, h.2.1, h.2.2.1⟩

/-- C3: when the first four bytes of the stream declare, big-endian, a length above
1024, `recv_msg` returns -1, stores no payload pointer and requests no heap block,
whatever bytes follow and however the reads behave; the same holds for the client's
`recv_msg`. -/
theorem recv_msg_oversized (b0 b1 b2 b3 : Nat) (rest junk : List Nat) (ev : List ReadEvent)
    (malloc_ok : Bool) (hbig : ntohl [b0, b1, b2, b3] > 1024) :
    (recv_msg ⟨b0 :: b1 :: b2 :: b3 :: rest, ev⟩ junk malloc_ok).ret = -1 ∧
    (recv_msg ⟨b0 :: b1 :: b2 :: b3 :: rest, ev⟩ junk malloc_ok).out_buf = none ∧
    (recv_msg ⟨b0 :: b1 :: b2 :: b3 :: rest, ev⟩ junk malloc_ok).mallocs = [] ∧
    (Client.recv_msg ⟨b0 :: b1 :: b2 :: b3 :: rest, ev⟩ junk malloc_ok).ret = -1 ∧
    (Client.recv_msg ⟨b0 :: b1 :: b2 :: b3 :: rest, ev⟩ junk malloc_ok).out_buf = none ∧
    (Client.recv_msg ⟨b0 :: b1 :: b2 :: b3 :: rest, ev⟩ junk malloc_ok).mallocs = [] := by
  have hr := (read_all_full ⟨b0 :: b1 :: b2 :: b3 :: rest, ev⟩ [b0, b1, b2, b3] rest rfl).2
  simp only [List.length_cons, List.length_nil] at hr
  have hdrop : List.drop 4 (List.take 4 junk) = [] := by
    apply List.drop_eq_nil_of_le
    simp
  rcases hr with hr | ⟨es, hr⟩
  · have hle : (read_all ⟨b0 :: b1 :: b2 :: b3 :: rest, ev⟩ (0 + 1 + 1 + 1 + 1)).1 ≤ 0 := by
      rw [hr]
      decide
    unfold recv_msg Client.recv_msg
    simp only [Nat.zero_add, Nat.reduceAdd] at hle ⊢
    simp [hle]
  · unfold recv_msg Client.recv_msg
    simp only [Nat.zero_add, Nat.reduceAdd] at hr ⊢
    have h0 : ntohl [b0, b1, b2, b3] ≠ 0 := by omega
    have hmax : ntohl [b0, b1, b2, b3] > MAX_PAYLOAD := hbig
    simp [hr, hdrop, h0, hmax]

/-- C3, at a concrete stream: a header declaring 1025 bytes, followed by three bytes. -/
theorem recv_msg_oversized_witness :
    ntohl [0, 0, 4, 1] > 1024 ∧
    (recv_msg ⟨[0, 0, 4, 1, 7, 7, 7], []⟩ [] true).ret = -1 ∧
    (Client.recv_msg ⟨[0, 0, 4, 1, 7, 7, 7], []⟩ [] true).ret = -1 :=
  have h := recv_msg_oversized 0 0 4 1 [7, 7, 7] [] [] true (by decide)
  ⟨by decide, h.1, h.2.2.2.1⟩

/-- C4: for every deck that is a permutation of the identifiers 0..51 and every
behaviour of `rand_r` (every seed), `shuffle_deck` yields a permutation of 0..51; so
the deck made by `init_deck` and `shuffle_deck` has no duplicate and holds exactly
the identifiers below 52. -/
theorem shuffle_deck_perm (rand_r : Nat → Nat × Nat) (deck : List Nat) (seed : Nat)
    (h : deck.Perm (List.range 52)) :
    (shuffle_deck rand_r deck seed).1.Perm (List.range 52) ∧
    (shuffle_deck rand_r init_deck seed).1.Nodup ∧
    (shuffle_deck rand_r init_deck seed).1.length = 52 ∧
    ∀ c, c ∈ (shuffle_deck rand_r init_deck seed).1 ↔ c < 52 := by
  have hlen : deck.length = 52 := by simpa using h.length_eq
  have h1 : (shuffle_deck rand_r deck seed).1.Perm deck :=
    shuffle_loop_perm rand_r 51 deck seed (by omega)
  have h2 : (shuffle_deck rand_r init_deck seed).1.Perm (List.range 52) :=
    shuffle_loop_perm rand_r 51 init_deck seed (by simp [init_deck])
  refine ⟨h1.trans h, ?_, ?_, ?_⟩
  · exact (h2.nodup_iff).mpr (List.nodup_range 52)
  · simpa using h2.length_eq
  · intro c
    rw [h2.mem_iff]
    simp

/-- C4, at a concrete deck: the canonical deck with its first two cards exchanged,
shuffled by a linear congruential `rand_r`. -/
theorem shuffle_deck_perm_witness :
    (1 :: 0 :: (List.range 52).drop 2).Perm (List.range 52) ∧
    (shuffle_deck (fun s => ((1103515245 * s + 12345) % 2147483648, s + 1))
      (1 :: 0 :: (List.range 52).drop 2) 7).1.Perm (List.range 52) :=
  have h : (1 :: 0 :: (List.range 52).drop 2).Perm (List.range 52) := by decide
  ⟨h, (shuffle_deck_perm _ _ 7 h).1⟩

/-- C5: the text of the `RESULT` frame is the tag, the outcome word given by the outcome
policy (LOSE if the player is busted; otherwise WIN if the dealer total exceeds 21;
otherwise WIN, LOSE or PUSH as the player total is above, below or equal to the dealer
total), then the player total and the dealer total in that order; for totals that fit
an `int` the buffer holds the whole text; and the settlement sends exactly this frame
to every live in-game slot, in slot order, with the slot's busted flag and hand value. -/
theorem result_msg_policy (is_busted : Bool) (pval dval : Nat) (g : GameState) :
    result_msg is_busted pval dval
      = snprintf_buf (result_text (outcome_policy is_busted pval dval) pval dval) ∧
    (pval < 2 ^ 31 → dval < 2 ^ 31 →
      result_msg is_busted pval dval
        = result_text (outcome_policy is_busted pval dval) pval dval) ∧
    (settle g dval).log = g.log ++ tagged .coordinator (Ev.lock_G ::
      (((List.range MAX_PLAYERS).filter (fun i => (g.player i).in_round)).map
        (fun i => Ev.send (g.player i).sockfd
          (snprintf_buf (result_text
            (outcome_policy (g.player i).is_busted (hand_value (g.player i).hand) dval)
            (hand_value (g.player i).hand) dval))) ++ [Ev.unlock_G])) := by
  have key : ∀ (b : Bool) (p d : Nat),
      result_msg b p d = snprintf_buf (result_text (outcome_policy b p d) p d) := by
    intro b p d
    have e1 : MSG_RESULT ++ str " LOSE " = str "RESULT" ++ str " " ++ str "LOSE" ++ str " " := by
      decide
    have e2 : MSG_RESULT ++ str " WIN " = str "RESULT" ++ str " " ++ str "WIN" ++ str " " := by
      decide
    have e3 : MSG_RESULT ++ str " PUSH " = str "RESULT" ++ str " " ++ str "PUSH" ++ str " " := by
      decide
    unfold result_msg outcome_policy result_text
    split_ifs <;> simp only [Outcome.word, e1, e2, e3, List.append_assoc]
  refine ⟨key _ _ _, ?_, ?_⟩
  · intro hp hd
    rw [key]
    unfold snprintf_buf
    apply List.take_of_length_le
    have h1 := fmt_d_length pval hp
    have h2 := fmt_d_length dval hd
    have h3 : (outcome_policy is_busted pval dval).word.length ≤ 4 := by
      cases outcome_policy is_busted pval dval <;> decide
    have h4 : (str "RESULT").length = 6 := by decide
    have h5 : (str " ").length = 1 := by decide
    simp only [result_text, List.length_append, h4, h5, MAX_PAYLOAD]
    omega
  · unfold settle
    rw [send_to_round_players_eq]
    simp only [key, tagged, List.append_cancel_left_eq, List.map_cons, List.map_append,
      List.map_map, List.map_flatten, List.cons.injEq, true_and, List.map_nil,
      List.append_cancel_right_eq, Function.comp_def]
    exact flatten_map_singleton _ _

/-- C5, at concrete totals: a player who stands on 20 against a dealer on 17 is sent
`RESULT WIN 20 17`. -/
theorem result_msg_policy_witness :
    (20 : Nat) < 2 ^ 31 ∧ (17 : Nat) < 2 ^ 31 ∧
    result_msg false 20 17 = result_text (outcome_policy false 20 17) 20 17 ∧
    result_text (outcome_policy false 20 17) 20 17 = str "RESULT WIN 20 17" :=
  ⟨by decide, by decide,
    (result_msg_policy false 20 17 ⟨[], 0, [], 0, 0, []⟩).2.1 (by decide) (by decide),
    by decide⟩

/-- C7: at the start of a round the deck is re-initialised, reshuffled (from the
canonical deck, with the stored seed) and its cursor reset to 0 when fewer than 15
cards are undealt; when 15 or more are undealt the check leaves deck, cursor and seed
as they are; the check never touches the slots; and the round ends with the deck
contents and the seed that the check left, so nothing else in the round reshuffles. -/
theorem reshuffle_only_at_round_start (rand_r : Nat → Nat × Nat) (g : GameState)
    (oracles : List (List WaitOracle)) :
    ((52 : Int) - g.deck_top < 15 →
      (reshuffle_check rand_r g).deck = (shuffle_deck rand_r init_deck g.rand_seed).1 ∧
      (reshuffle_check rand_r g).rand_seed = (shuffle_deck rand_r init_deck g.rand_seed).2 ∧
      (reshuffle_check rand_r g).deck_top = 0) ∧
    (¬ (52 : Int) - g.deck_top < 15 →
      (reshuffle_check rand_r g).deck = g.deck ∧
      (reshuffle_check rand_r g).rand_seed = g.rand_seed ∧
      (reshuffle_check rand_r g).deck_top = g.deck_top) ∧
    (reshuffle_check rand_r g).players = g.players ∧
    ∃ g', game_round rand_r g oracles = some g' ∧
      g'.deck = (reshuffle_check rand_r g).deck ∧
      g'.rand_seed = (reshuffle_check rand_r g).rand_seed := by
  refine ⟨?_, ?_, ?_, ?_⟩
  · intro h
    have h2 : g.deck_top > 52 - RESHUFFLE_THRESHOLD := by
      unfold RESHUFFLE_THRESHOLD
      omega
    simp [reshuffle_check, GameState.emit, h2]
  · intro h
    have h2 : ¬ g.deck_top > 52 - RESHUFFLE_THRESHOLD := by
      unfold RESHUFFLE_THRESHOLD
      omega
    simp [reshuffle_check, GameState.emit, h2]
  · unfold reshuffle_check
    simp only []
    split <;> rfl
  · obtain ⟨g', hrun, hle⟩ := game_round_le rand_r g oracles
    exact ⟨g', hrun, hle.1, hle.2.1⟩

/-- C7, at concrete tables: with 48 undealt cards nothing is reshuffled; with 14 the
deck is rebuilt and the cursor reset. -/
theorem reshuffle_only_at_round_start_witness :
    ¬ (52 : Int) - table_one.deck_top < 15 ∧
    (reshuffle_check (fun s => (s, s)) table_one).deck = table_one.deck ∧
    (reshuffle_check (fun s => (s, s)) table_one).deck_top = table_one.deck_top ∧
    (52 : Int) - ({ table_one with deck_top := 38 } : GameState).deck_top < 15 ∧
    (reshuffle_check (fun s => (s, s)) { table_one with deck_top := 38 }).deck_top = 0 :=
  have h1 : ¬ (52 : Int) - table_one.deck_top < 15 := by decide
  have h2 : (52 : Int) - ({ table_one with deck_top := 38 } : GameState).deck_top < 15 := by
    decide
  have a := (reshuffle_only_at_round_start (fun s => (s, s)) table_one []).2.1 h1
  have b := (reshuffle_only_at_round_start (fun s => (s, s))
    { table_one with deck_top := 38 } []).1 h2
  ⟨h1, a.1, a.2.2, h2, b.2.2⟩

/-- C8, as stated, fails when the deck runs out: with a two and a three in the dealer's
hand and a king as the only undealt card, the dealer draws the king (15), and then the
sentinel `0xFF` that `deal_card` returns for an exhausted deck (counted as a nine); the
final hand is not an initial segment of the two initial cards followed by the cards at
the successive cursor positions. -/
theorem dealer_play_exhausted_deck :
    round_last_card.g.deck.Perm (List.range 52) ∧
    round_last_card.dealer_hand.length = 2 ∧
    (dealer_play round_last_card).map (fun x => (x.1.dealer_hand, x.2))
      = some ([1, 2, 51, 255], 24) ∧
    ¬ ([1, 2, 51, 255] <+:
        round_last_card.dealer_hand
          ++ round_last_card.g.deck.drop round_last_card.g.deck_top) := by
  refine ⟨by decide, by decide, by decide, by decide⟩

/-- C8 (amended): for every dealer hand and every deck state the dealer's loop ends,
after some number `n` of draws, with `dealer_val` the value of the final hand and at
least 17, a draw having been made exactly while the value was below 17 (every hand
before the final one is worth less than 17), each draw appending one `deal_card`
result; and whenever the cursor does not pass 52 during these draws, the final hand is
the shortest initial segment of the initial cards followed by the cards at the
successive cursor positions whose value is at least 17, the cursor having advanced by
`n`. -/
theorem dealer_play_shortest (r : Round) :
    ∃ res n, dealer_play r = some res ∧
      res.2 = hand_value res.1.dealer_hand ∧ 17 ≤ res.2 ∧
      res.1.dealer_hand = r.dealer_hand ++ deal_stream r.g.deck r.g.deck_top n ∧
      (∀ m, m < n → hand_value (r.dealer_hand ++ deal_stream r.g.deck r.g.deck_top m) < 17) ∧
      (r.g.deck_top + n ≤ 52 → r.g.deck.length = 52 →
        res.1.dealer_hand = r.dealer_hand ++ (r.g.deck.drop r.g.deck_top).take n ∧
        res.1.g.deck_top = r.g.deck_top + n ∧
        ∀ m, m < n →
          hand_value (r.dealer_hand ++ (r.g.deck.drop r.g.deck_top).take m) < 17) := by
  obtain ⟨res, n, hrun, hval, h17, hhand, htop, -, hmin⟩ := dealer_play_spec r
  refine ⟨res, n, hrun, hval, h17, hhand, hmin, ?_⟩
  intro h52 hlen
  have hd : ∀ m, m ≤ n → deal_stream r.g.deck r.g.deck_top m
      = (r.g.deck.drop r.g.deck_top).take m :=
    fun m hm => deal_stream_of_le r.g.deck m r.g.deck_top (by omega) (by omega)
  refine ⟨?_, ?_, ?_⟩
  · rw [hhand]
    exact congrArg _ (hd n (le_refl _))
  · rw [htop]
    exact deal_cursor_of_le r.g.deck n r.g.deck_top h52
  · intro m hm
    rw [← hd m (by omega)]
    exact hmin m hm

/-- C8 (amended), at a concrete round: the dealer of `table_one`, holding a two and
a three, draws a five, a six and a seven. -/
theorem dealer_play_shortest_witness :
    (dealer_play ⟨table_one, [1, 2]⟩).map (fun x => (x.1.dealer_hand, x.2, x.1.g.deck_top))
      = some ([1, 2, 4, 5, 6], 23, 7) ∧
    ∃ res n, dealer_play ⟨table_one, [1, 2]⟩ = some res ∧
      res.2 = hand_value res.1.dealer_hand ∧ 17 ≤ res.2 ∧
      res.1.dealer_hand = [1, 2] ++ deal_stream table_one.deck table_one.deck_top n ∧
      (∀ m, m < n → hand_value ([1, 2] ++ deal_stream table_one.deck table_one.deck_top m)
        < 17) ∧
      (table_one.deck_top + n ≤ 52 → table_one.deck.length = 52 →
        res.1.dealer_hand = [1, 2] ++ (table_one.deck.drop table_one.deck_top).take n ∧
        res.1.g.deck_top = table_one.deck_top + n ∧
        ∀ m, m < n →
          hand_value ([1, 2] ++ (table_one.deck.drop table_one.deck_top).take m) < 17) :=
  ⟨by decide, dealer_play_shortest ⟨table_one, [1, 2]⟩⟩

/-- Claim C10 fails as stated when the action arrives during a call that times out.  At
the one-player table the session handles the frame `ACTION HIT` while the coordinator
is blocked (the frame stores `PLAYER_ACTION_HIT` and signals the condition), and the
`pthread_cond_timedwait` call returns `ETIMEDOUT`: the `ETIMEDOUT` branch stores
`PLAYER_ACTION_STAND` over the delivered action, and the coordinator reads Stand for a
session that is alive. -/
theorem wait_timeout_overrides_hit :
    wait_cond (table_waiting.player 0) = true ∧
    ((client_reader_iter table_waiting 0 10 (str "ACTION HIT")).player 0).pending_action
      = .HIT ∧
    (wait_action table_one 0 ⟨[], [⟨[⟨0, 10, str "ACTION HIT"⟩], true⟩]⟩).1 = .STAND ∧
    (Thread.reader 0, Ev.cond_signal 0)
      ∈ (wait_action table_one 0 ⟨[], [⟨[⟨0, 10, str "ACTION HIT"⟩], true⟩]⟩).2.log ∧
    ((wait_action table_one 0 ⟨[], [⟨[⟨0, 10, str "ACTION HIT"⟩], true⟩]⟩).2.player
      0).alive = true := by
  decide

/-- C10, amended: the timed wait on slot `i`.  After the read the slot's pending action
is None and `awaiting_action` is 0; for a slot that is still alive the action read is
never None.  For a live slot with no action pending: after any number of spurious
wake-ups, a wake-up by the frame `ACTION HIT` in a call that does not return
`ETIMEDOUT` resolves to Hit and one by `ACTION STAND` to Stand; a call that returns
`ETIMEDOUT` resolves to Stand whatever the session delivered while it was blocked
(nothing, or any frames `evs`), and so does the passing of the deadline; and a frame
handled before the wait is armed resolves to its action whatever the wait then meets. -/
theorem wait_action_resolution (g : GameState) (i : Nat) (o : WaitOracle) (k : Nat) (rr : Int)
    (rest : List WaitStep) (evs : List ReaderEvent) :
    ((wait_action g i o).2.player i).pending_action = .NONE ∧
    ((wait_action g i o).2.player i).awaiting_action = false ∧
    (((wait_action g i o).2.player i).alive = true → (wait_action g i o).1 ≠ .NONE) ∧
    (i < g.players.length → (g.player i).alive = true →
      (g.player i).pending_action = .NONE → 0 < rr →
      (wait_action g i ⟨[], List.replicate k ⟨[], false⟩ ++
        ⟨[⟨i, rr, str "ACTION HIT"⟩], false⟩ :: rest⟩).1 = .HIT ∧
      (wait_action g i ⟨[], List.replicate k ⟨[], false⟩ ++
        ⟨[⟨i, rr, str "ACTION STAND"⟩], false⟩ :: rest⟩).1 = .STAND ∧
      (wait_action g i ⟨[], List.replicate k ⟨[], false⟩ ++ ⟨[], true⟩ :: rest⟩).1 = .STAND ∧
      (wait_action g i ⟨[], List.replicate k ⟨[], false⟩ ++ ⟨evs, true⟩ :: rest⟩).1 = .STAND ∧
      (wait_action g i ⟨[], List.replicate k ⟨[], false⟩⟩).1 = .STAND ∧
      (wait_action g i ⟨[⟨i, rr, str "ACTION HIT"⟩], rest⟩).1 = .HIT ∧
      (wait_action g i ⟨[⟨i, rr, str "ACTION STAND"⟩], rest⟩).1 = .STAND) := by
  have hfin : ∀ (g2 : GameState) (q : Player), q.pending_action = .NONE →
      q.awaiting_action = false →
      ((g2.set_player i q).player i).pending_action = .NONE ∧
      ((g2.set_player i q).player i).awaiting_action = false := by
    intro g2 q h1 h2
    rw [player_set_player]
    split
    · exact ⟨h1, h2⟩
    · rename_i hn
      have hle : g2.players.length ≤ i := by
        by_contra hlt
        exact hn ⟨rfl, by omega⟩
      rw [player_default_of_le g2 i hle]
      exact ⟨rfl, rfl⟩
  refine ⟨(hfin _ _ rfl rfl).1, (hfin _ _ rfl rfl).2, ?_, ?_⟩
  · -- a live slot never resolves to None
    intro hal
    rw [wait_action_fst]
    have hal2 : ((wait_loop i
        (((apply_reader_events g o.pre).emit .coordinator [.lock_action i]).set_player i
          { ((apply_reader_events g o.pre).emit .coordinator [.lock_action i]).player i with
            awaiting_action := true }) o.steps).player i).alive = true := by
      have : ((wait_action g i o).2.player i).alive
          = ((wait_loop i
        (((apply_reader_events g o.pre).emit .coordinator [.lock_action i]).set_player i
          { ((apply_reader_events g o.pre).emit .coordinator [.lock_action i]).player i with
            awaiting_action := true }) o.steps).player i).alive := by
        unfold wait_action
        simp only [player_emit]
        rw [player_set_player]
        split <;> rfl
      rw [← this]
      exact hal
    apply wait_loop_pending i o.steps _ _ hal2
    intro hal3
    exact Or.inl (armed_awaiting _ i hal3)
  · -- the scenarios
    intro hi hal hp hrr
    have hc := armed_cond (g.emit .coordinator [.lock_action i]) i hi hal hp
    refine ⟨?_, ?_, ?_, ?_, ?_, ?_, ?_⟩
    · rw [wait_action_fst]
      exact wait_loop_spurious i k _ (fun p => p.pending_action = .HIT)
        (fun g' hc' => wait_loop_hit i rr hrr rest g' hc') _ hc
    · rw [wait_action_fst]
      exact wait_loop_spurious i k _ (fun p => p.pending_action = .STAND)
        (fun g' hc' => wait_loop_stand i rr hrr rest g' hc') _ hc
    · rw [wait_action_fst]
      exact wait_loop_spurious i k _ (fun p => p.pending_action = .STAND)
        (fun g' hc' => wait_loop_timedout i [] rest g' hc') _ hc
    · rw [wait_action_fst]
      exact wait_loop_spurious i k _ (fun p => p.pending_action = .STAND)
        (fun g' hc' => wait_loop_timedout i evs rest g' hc') _ hc
    · rw [wait_action_fst]
      have := wait_loop_spurious i k [] (fun p => p.pending_action = .STAND)
        (fun g' hc' => wait_loop_deadline i g' hc') _ hc
      simpa using this
    · rw [wait_action_fst]
      have h1 := client_reader_iter_hit g i rr hi hal hrr
      have hlen := (client_reader_iter_le g i rr (str "ACTION HIT")).2.2.2.1
      rw [wait_loop_of_not_cond]
      · simp only [apply_reader_events, List.foldl_cons, List.foldl_nil]
        rw [player_set_player_same _ _ _ (by rw [players_length_emit, hlen]; exact hi),
          player_emit, h1]
      · simp only [apply_reader_events, List.foldl_cons, List.foldl_nil]
        rw [player_set_player_same _ _ _ (by rw [players_length_emit, hlen]; exact hi),
          player_emit, h1]
        simp [wait_cond]
    · rw [wait_action_fst]
      have h1 := client_reader_iter_stand g i rr hi hal hrr
      have hlen := (client_reader_iter_le g i rr (str "ACTION STAND")).2.2.2.1
      rw [wait_loop_of_not_cond]
      · simp only [apply_reader_events, List.foldl_cons, List.foldl_nil]
        rw [player_set_player_same _ _ _ (by rw [players_length_emit, hlen]; exact hi),
          player_emit, h1]
      · simp only [apply_reader_events, List.foldl_cons, List.foldl_nil]
        rw [player_set_player_same _ _ _ (by rw [players_length_emit, hlen]; exact hi),
          player_emit, h1]
        simp [wait_cond]

/-- C10 (amended), at a concrete table: the slot of `table_one`, after two spurious
wake-ups; in the timed-out call the session delivers `ACTION HIT`. -/
theorem wait_action_resolution_witness :
    0 < table_one.players.length ∧ (table_one.player 0).alive = true ∧
    (table_one.player 0).pending_action = .NONE ∧ (0 : Int) < 10 ∧
    (wait_action table_one 0 ⟨[], List.replicate 2 ⟨[], false⟩ ++
      ⟨[⟨0, 10, str "ACTION HIT"⟩], false⟩ :: []⟩).1 = .HIT ∧
    (wait_action table_one 0 ⟨[], List.replicate 2 ⟨[], false⟩ ++ ⟨[], true⟩ :: []⟩).1
      = .STAND ∧
    (wait_action table_one 0 ⟨[], List.replicate 2 ⟨[], false⟩ ++
      ⟨[⟨0, 10, str "ACTION HIT"⟩], true⟩ :: []⟩).1 = .STAND :=
  have h := (wait_action_resolution table_one 0 ⟨[], []⟩ 2 10 []
    [⟨0, 10, str "ACTION HIT"⟩]).2.2.2 (by decide) (by decide) (by decide) (by decide)
  ⟨by decide, by decide, by decide, by decide, h.1, h.2.2.1, h.2.2.2.1⟩

/-- Claim C11, at a session the coordinator is waiting on: the `QUIT` branch marks the
session not alive, empties its slot and decrements `connected_count`, but leaves
`pending_action` at `PLAYER_ACTION_NONE` and `awaiting_action` set and signals nothing,
so nothing wakes a coordinator blocked in `pthread_cond_timedwait` before its deadline;
the `rr <= 0` branch on the same state does set `pending_action` to
`PLAYER_ACTION_STAND`, clears `awaiting_action` and signals the condition. -/
theorem quit_leaves_coordinator_waiting :
    wait_cond (table_waiting.player 0) = true ∧
    ((client_reader_iter table_waiting 0 4 (str "QUIT")).player 0).alive = false ∧
    ((client_reader_iter table_waiting 0 4 (str "QUIT")).player 0).state = .EMPTY ∧
    (client_reader_iter table_waiting 0 4 (str "QUIT")).connected_count =
      table_waiting.connected_count - 1 ∧
    ((client_reader_iter table_waiting 0 4 (str "QUIT")).player 0).pending_action = .NONE ∧
    ((client_reader_iter table_waiting 0 4 (str "QUIT")).player 0).awaiting_action = true ∧
    (Thread.reader 0, Ev.cond_signal 0) ∉
      (client_reader_iter table_waiting 0 4 (str "QUIT")).log ∧
    (client_reader_iter table_waiting 0 4 (str "QUIT")).log =
      tagged (.reader 0) [.lock_G, .unlock_G, .close 10] ∧
    ((client_reader_iter table_waiting 0 0 []).player 0).alive = false ∧
    ((client_reader_iter table_waiting 0 0 []).player 0).state = .EMPTY ∧
    (client_reader_iter table_waiting 0 0 []).connected_count =
      table_waiting.connected_count - 1 ∧
    ((client_reader_iter table_waiting 0 0 []).player 0).pending_action = .STAND ∧
    ((client_reader_iter table_waiting 0 0 []).player 0).awaiting_action = false ∧
    (Thread.reader 0, Ev.cond_signal 0) ∈ (client_reader_iter table_waiting 0 0 []).log := by
  decide

/-- Claim C12 fails as stated at two frames that `recv_msg` decodes without error.  The
frame with the empty payload makes `recv_msg` return 0, which the actor handles in its
`rr <= 0` branch: it leaves the loop, and the session is not alive, its slot is empty,
`pending_action` is `PLAYER_ACTION_STAND` and `connected_count` is one less.  The frame
with the payload `QUITE`, which is not one of the three commands, is matched by the
prefix comparison with `QUIT`: the actor leaves the loop and the session is not alive. -/
theorem reader_leaves_on_empty_frame :
    (recv_msg ⟨[0, 0, 0, 0], []⟩ [] true).ret = 0 ∧
    (recv_msg ⟨[0, 0, 0, 0], []⟩ [] true).out_buf = some [] ∧
    (client_reader_recv table_one 0 ⟨[0, 0, 0, 0], []⟩ [] true).2.1 = true ∧
    ((client_reader_recv table_one 0 ⟨[0, 0, 0, 0], []⟩ [] true).1.player 0).alive = false ∧
    ((client_reader_recv table_one 0 ⟨[0, 0, 0, 0], []⟩ [] true).1.player 0).state = .EMPTY ∧
    ((client_reader_recv table_one 0 ⟨[0, 0, 0, 0], []⟩ [] true).1.player 0).pending_action
      = .STAND ∧
    (table_one.player 0).pending_action = .NONE ∧
    (client_reader_recv table_one 0 ⟨[0, 0, 0, 0], []⟩ [] true).1.connected_count = 0 ∧
    table_one.connected_count = 1 ∧
    (recv_msg ⟨[0, 0, 0, 5] ++ str "QUITE", []⟩ [] true).ret = 5 ∧
    (client_reader_recv table_one 0 ⟨[0, 0, 0, 5] ++ str "QUITE", []⟩ [] true).2.1 = true ∧
    ((client_reader_recv table_one 0 ⟨[0, 0, 0, 5] ++ str "QUITE", []⟩ [] true).1.player
      0).alive = false := by
  have h0 : recv_msg ⟨[0, 0, 0, 0], []⟩ [] true = ⟨0, some [], [1], ⟨[], []⟩⟩ := by
    simp [recv_msg, read_all, read_all_loop, sys_read, ntohl]
  have h5 : recv_msg ⟨[0, 0, 0, 5] ++ str "QUITE", []⟩ [] true
      = ⟨5, some (str "QUITE"), [6], ⟨[], []⟩⟩ := by
    simp [recv_msg, read_all, read_all_loop, sys_read, ntohl, str, MAX_PAYLOAD]
  unfold client_reader_recv
  rw [h0, h5]
  decide

/-- C12, amended: for every frame of one to 1024 payload bytes that `recv_msg` decodes
(no `read` failing), whose payload, read as a C string, does not begin with `QUIT`, or
begins with `ACTION` followed, after any spaces, by neither `HIT` nor `STAND` - so for
every `CHAT` frame and every frame that begins with none of the three command words -
the actor does not leave its loop, the session stays alive, and the whole player table
(alive flags, slot states, pending actions, awaiting flags) and `connected_count` are
unchanged; what follows the frame on the stream is left for the next iteration. -/
theorem reader_ignores_frame (g : GameState) (i : Nat) (payload rest junk : List Nat)
    (ev : List ReadEvent)
    (halive : (g.player i).alive = true)
    (hpos : 0 < payload.length) (hlen : payload.length ≤ 1024)
    (hev : ReadEvent.error ∉ ev)
    (hact : strncmp_eq (c_string payload) CMD_ACTION = true →
      strncmp_eq (skip_spaces ((c_string payload).drop CMD_ACTION.length)) (str "HIT")
        = false ∧
      strncmp_eq (skip_spaces ((c_string payload).drop CMD_ACTION.length)) (str "STAND")
        = false)
    (hquit : strncmp_eq (c_string payload) CMD_ACTION = false →
      strncmp_eq (c_string payload) CMD_QUIT = false) :
    (client_reader_recv g i ⟨htonl payload.length ++ payload ++ rest, ev⟩ junk true).2.1
      = false ∧
    (client_reader_recv g i ⟨htonl payload.length ++ payload ++ rest, ev⟩ junk true).2.2.bytes
      = rest ∧
    ((client_reader_recv g i ⟨htonl payload.length ++ payload ++ rest, ev⟩ junk true).1.player
      i).alive = true ∧
    (client_reader_recv g i ⟨htonl payload.length ++ payload ++ rest, ev⟩ junk true).1.players
      = g.players ∧
    (client_reader_recv g i ⟨htonl payload.length ++ payload ++ rest, ev⟩ junk
      true).1.connected_count = g.connected_count := by
  obtain ⟨h1, h2, h3⟩ := recv_msg_frame payload rest junk ev hlen hev
  have hrr : (0 : Int) < (payload.length : Int) := by exact_mod_cast hpos
  obtain ⟨k1, k2, k3⟩ := client_reader_iter_ignored g i (payload.length : Int) payload hrr
    hact hquit
  unfold client_reader_recv
  simp only [h1, h2, h3, Option.getD_some]
  refine ⟨k1, trivial, ?_, k2, k3⟩
  unfold GameState.player
  rw [k2]
  exact halive

/-- C12 (amended), at concrete frames: the chat line `CHAT hi` sent to a live session
of a one-player table, read with an interrupted and a short read. -/
theorem reader_ignores_frame_witness :
    (table_one.player 0).alive = true ∧
    (client_reader_recv table_one 0
      ⟨htonl (str "CHAT hi").length ++ str "CHAT hi" ++ [0, 0, 0, 4],
        [.eintr, .short 2]⟩ [] true).2.1 = false ∧
    (client_reader_recv table_one 0
      ⟨htonl (str "CHAT hi").length ++ str "CHAT hi" ++ [0, 0, 0, 4],
        [.eintr, .short 2]⟩ [] true).1.players = table_one.players ∧
    (client_reader_recv table_one 0
      ⟨htonl (str "CHAT hi").length ++ str "CHAT hi" ++ [0, 0, 0, 4],
        [.eintr, .short 2]⟩ [] true).1.connected_count = 1 :=
  have h := reader_ignores_frame table_one 0 (str "CHAT hi") [0, 0, 0, 4] []
    [.eintr, .short 2] (by decide) (by decide) (by decide) (by decide) (by decide)
    (by decide)
  ⟨by decide, h.1, h.2.2.2.1, h.2.2.2.2⟩

/-- Claim C13 fails as stated: `recv_msg` returns -1, and stores no buffer, on a stream
that ends where a frame should start, on a frame whose header declares 1025 bytes, and
on a frame whose payload stops after one of its five declared bytes; the three return
values are the same. -/
theorem recv_msg_eof_like_malformed :
    (recv_msg ⟨[], []⟩ [] true).ret = -1 ∧
    (recv_msg ⟨[0, 0, 4, 1, 7, 7, 7], []⟩ [] true).ret = -1 ∧
    (recv_msg ⟨[0, 0, 0, 5, 72], []⟩ [] true).ret = -1 ∧
    (recv_msg ⟨[], []⟩ [] true).ret = (recv_msg ⟨[0, 0, 4, 1, 7, 7, 7], []⟩ [] true).ret ∧
    (recv_msg ⟨[], []⟩ [] true).ret = (recv_msg ⟨[0, 0, 0, 5, 72], []⟩ [] true).ret ∧
    (recv_msg ⟨[], []⟩ [] true).out_buf = none ∧
    (recv_msg ⟨[0, 0, 4, 1, 7, 7, 7], []⟩ [] true).out_buf = none ∧
    (recv_msg ⟨[0, 0, 0, 5, 72], []⟩ [] true).out_buf = none := by
  have h1 : recv_msg ⟨[], []⟩ [] true = ⟨-1, none, [], ⟨[], []⟩⟩ := by
    simp [recv_msg, read_all, read_all_loop, sys_read]
  have h2 : recv_msg ⟨[0, 0, 4, 1, 7, 7, 7], []⟩ [] true = ⟨-1, none, [], ⟨[], []⟩⟩ := by
    simp [recv_msg, read_all, read_all_loop, sys_read, ntohl, MAX_PAYLOAD, drain]
  have h3 : recv_msg ⟨[0, 0, 0, 5, 72], []⟩ [] true = ⟨-1, none, [6], ⟨[], []⟩⟩ := by
    simp [recv_msg, read_all, read_all_loop, sys_read, ntohl, MAX_PAYLOAD]
  rw [h1, h2, h3]
  decide

/-- C13, amended: `recv_msg` reports a clean end-of-stream where a frame should start
with the same result, -1 and no buffer, as an oversized declared length and as a
payload cut short before the declared count, whatever the reads do; the difference is
only visible one level down, where `read_all` returns 0 at a clean end-of-stream and -1
when a `read` fails. -/
theorem recv_msg_failures_alike (ev : List ReadEvent) (junk : List Nat) (malloc_ok : Bool)
    (a0 a1 a2 a3 b0 b1 b2 b3 : Nat) (rest payload : List Nat)
    (hbig : ntohl [a0, a1, a2, a3] > 1024)
    (hpos : 0 < ntohl [b0, b1, b2, b3]) (hmax : ntohl [b0, b1, b2, b3] ≤ 1024)
    (hcut : payload.length < ntohl [b0, b1, b2, b3]) :
    ((recv_msg ⟨[], ev⟩ junk malloc_ok).ret = -1 ∧
      (recv_msg ⟨[], ev⟩ junk malloc_ok).out_buf = none) ∧
    ((recv_msg ⟨a0 :: a1 :: a2 :: a3 :: rest, ev⟩ junk malloc_ok).ret = -1 ∧
      (recv_msg ⟨a0 :: a1 :: a2 :: a3 :: rest, ev⟩ junk malloc_ok).out_buf = none) ∧
    ((recv_msg ⟨b0 :: b1 :: b2 :: b3 :: payload, ev⟩ junk malloc_ok).ret = -1 ∧
      (recv_msg ⟨b0 :: b1 :: b2 :: b3 :: payload, ev⟩ junk malloc_ok).out_buf = none) ∧
    (ReadEvent.error ∉ ev → (read_all ⟨[], ev⟩ 4).1 = 0) ∧
    (read_all ⟨[], .error :: ev⟩ 4).1 = -1 := by
  have hdrop : List.drop 4 (List.take 4 junk) = [] := by
    apply List.drop_eq_nil_of_le
    simp
  refine ⟨?_, ?_, ?_, ?_, ?_⟩
  · have h := (read_all_short ⟨[], ev⟩ 4 (by simp)).2
    have hle : (read_all ⟨[], ev⟩ 4).1 ≤ 0 := by
      rcases h with h | h <;> rw [h] <;> simp
    unfold recv_msg
    simp [hle]
  · have hr := (read_all_full ⟨a0 :: a1 :: a2 :: a3 :: rest, ev⟩ [a0, a1, a2, a3] rest rfl).2
    simp only [List.length_cons, List.length_nil] at hr
    rcases hr with hr | ⟨es, hr⟩
    · have hle : (read_all ⟨a0 :: a1 :: a2 :: a3 :: rest, ev⟩ (0 + 1 + 1 + 1 + 1)).1 ≤ 0 := by
        rw [hr]
        decide
      unfold recv_msg
      simp only [Nat.zero_add, Nat.reduceAdd] at hle ⊢
      simp [hle]
    · unfold recv_msg
      simp only [Nat.zero_add, Nat.reduceAdd] at hr ⊢
      have h0 : ntohl [a0, a1, a2, a3] ≠ 0 := by omega
      have hm : ntohl [a0, a1, a2, a3] > MAX_PAYLOAD := hbig
      simp [hr, hdrop, h0, hm]
  · have hr := (read_all_full ⟨b0 :: b1 :: b2 :: b3 :: payload, ev⟩ [b0, b1, b2, b3]
      payload rfl).2
    simp only [List.length_cons, List.length_nil] at hr
    rcases hr with hr | ⟨es, hr⟩
    · have hle : (read_all ⟨b0 :: b1 :: b2 :: b3 :: payload, ev⟩ (0 + 1 + 1 + 1 + 1)).1 ≤ 0 := by
        rw [hr]
        decide
      unfold recv_msg
      simp only [Nat.zero_add, Nat.reduceAdd] at hle ⊢
      simp [hle]
    · have hs := (read_all_short ⟨payload, es⟩ (ntohl [b0, b1, b2, b3]) hcut).2
      have hne : (read_all ⟨payload, es⟩ (ntohl [b0, b1, b2, b3])).1
          ≠ ((ntohl [b0, b1, b2, b3] : Nat) : Int) := by
        rcases hs with hs | hs <;> rw [hs]
        · omega
        · simp only [ne_eq, Nat.cast_inj]
          omega
      unfold recv_msg
      simp only [Nat.zero_add, Nat.reduceAdd] at hr ⊢
      have h0 : ntohl [b0, b1, b2, b3] ≠ 0 := by omega
      have hm : ¬ ntohl [b0, b1, b2, b3] > MAX_PAYLOAD := by
        unfold MAX_PAYLOAD
        omega
      cases malloc_ok <;> simp [hr, hdrop, h0, hm, hne]
  · intro hne
    have h := (read_all_short ⟨[], ev⟩ 4 (by simp)).1 hne
    simpa using h
  · simp [read_all, read_all_loop, sys_read]

/-- C13 (amended), at concrete streams: the empty stream, a header declaring 1025
bytes, and a header declaring five bytes followed by one, read with an interrupted
`read` first. -/
theorem recv_msg_failures_alike_witness :
    ntohl [0, 0, 4, 1] > 1024 ∧ 0 < ntohl [0, 0, 0, 5] ∧ ntohl [0, 0, 0, 5] ≤ 1024 ∧
    [72].length < ntohl [0, 0, 0, 5] ∧
    (recv_msg ⟨[], [.eintr]⟩ [] true).ret = -1 ∧
    (recv_msg ⟨[0, 0, 4, 1, 7, 7, 7], [.eintr]⟩ [] true).ret = -1 ∧
    (recv_msg ⟨[0, 0, 0, 5, 72], [.eintr]⟩ [] true).ret = -1 ∧
    (read_all ⟨[], [.eintr]⟩ 4).1 = 0 ∧
    (read_all ⟨[], [.error, .eintr]⟩ 4).1 = -1 :=
  have h := recv_msg_failures_alike [.eintr] [] true 0 0 4 1 0 0 0 5 [7, 7, 7] [72]
    (by decide) (by decide) (by decide) (by decide)
  ⟨by decide, by decide, by decide, by decide, h.1.1, h.2.1.1, h.2.2.1.1,
    h.2.2.2.1 (by decide), h.2.2.2.2⟩

/-- Claim C14 fails on the code in every round.  The coordinator takes `G.lock` for the
reshuffle check (line 373) and, having recorded no other operation, calls
`pthread_mutex_lock(&G.lock)` again for the `DEAL` loop (line 398): the lock is acquired
while it is already held, by the same thread, and the call does not return, so the round
stops there with `G.lock` held.  In the broadcast paths the lock is held across the sends: the `CHAT` relay
and `broadcast_msg` send their first frame right after taking `G.lock`. -/
theorem round_relocks_registry (rand_r : Nat → Nat × Nat) (g : GameState)
    (oracles : List (List WaitOracle)) :
    game_loop_round rand_r g oracles
      = some (.blocked (deal_cards (reshuffle_check rand_r g))) ∧
    (deal_cards (reshuffle_check rand_r g)).g.log = g.log ++ tagged .coordinator [.lock_G] ∧
    holds_G .coordinator false (tagged .coordinator [.lock_G]) = true ∧
    lock_free_run ⟨0, []⟩ [.lock_G] = some ⟨1, []⟩ ∧
    lock_free_step ⟨1, []⟩ .lock_G = none ∧
    (∃ sends, all_sends sends = true ∧
      (deal_round (reshuffle_check rand_r g)).g.log
        = g.log ++ tagged .coordinator (Ev.lock_G :: Ev.lock_G :: (sends ++ [Ev.unlock_G]))) ∧
    (thread_events (.reader 0) (client_reader_iter table_six 0 7 (str "CHAT hi")).log).take 2
      = [.lock_G, .send 11 MSG_BROADCAST] ∧
    lock_free (thread_events (.reader 0)
      (client_reader_iter table_six 0 7 (str "CHAT hi")).log) = false ∧
    (thread_events (.reader 0) (broadcast_msg table_one (.reader 0) (str "hi")).log).take 2
      = [.lock_G, .send 10 (MSG_BROADCAST ++ str " ")] ∧
    lock_free (thread_events (.reader 0)
      (broadcast_msg table_one (.reader 0) (str "hi")).log) = false := by
  have hlog : (deal_cards (reshuffle_check rand_r g)).g.log
      = g.log ++ tagged .coordinator [.lock_G] := by
    rw [deal_cards_log, reshuffle_check_log]
  refine ⟨game_loop_round_blocked rand_r g oracles, hlog, by decide, by decide, by decide,
    ?_, by decide, by decide, by decide, by decide⟩
  obtain ⟨sends, hs, hl⟩ := deal_round_locked (reshuffle_check rand_r g)
  refine ⟨sends, hs, ?_⟩
  rw [hl, reshuffle_check_log]
  simp [tagged]

/-- C15: `shuffle_deck` on the canonical deck, as a function of the indices chosen at
its steps (for `i` from 51 down to 1 an index `j i` in `[0, i]`, handed out by
`index_source`), is one-to-one and onto the permutations of the 52 identifiers: step
`i + 1` exchanges the entries `i + 1` and `j (i + 1)`; two index sequences that give the
same deck agree at every step; every result is a permutation of 0..51; every
permutation of 0..51 is the result for some index sequence; and every run of
`shuffle_deck`, whatever `rand_r` does, is the run for some index sequence.  Each
permutation is thus produced by exactly one of the 52! index sequences. -/
theorem shuffle_deck_index_bijection (j j' : Nat → Nat) (deck : List Nat)
    (rand_r : Nat → Nat × Nat) (seed : Nat)
    (hj : ∀ i, 1 ≤ i → i ≤ 51 → j i ≤ i) (hj' : ∀ i, 1 ≤ i → i ≤ 51 → j' i ≤ i)
    (hdeck : deck.Perm (List.range 52)) :
    (∀ i d, 1 ≤ i → i ≤ 51 →
      shuffle_loop (index_source j) i d i
        = shuffle_loop (index_source j) (i - 1) (swap_cards d i (j i)) (i - 1)) ∧
    ((shuffle_deck (index_source j) init_deck 51).1
        = (shuffle_deck (index_source j') init_deck 51).1 →
      ∀ i, 1 ≤ i → i ≤ 51 → j i = j' i) ∧
    (shuffle_deck (index_source j) init_deck 51).1.Perm (List.range 52) ∧
    (∃ j0 : Nat → Nat, (∀ i, j0 i ≤ i) ∧
      (shuffle_deck (index_source j0) init_deck 51).1 = deck) ∧
    (∃ j1 : Nat → Nat, (∀ i, j1 i ≤ i) ∧
      (shuffle_deck rand_r init_deck seed).1
        = (shuffle_deck (index_source j1) init_deck 51).1) := by
  have hnd : init_deck.Nodup := List.nodup_range 52
  have hlen : 51 < init_deck.length := by simp [init_deck]
  have hsurj : ∀ t : List Nat, t.Perm (List.range 52) →
      ∃ j0 : Nat → Nat, (∀ i, j0 i ≤ i) ∧
        (shuffle_deck (index_source j0) init_deck 51).1 = t := by
    intro t ht
    have hall : ∀ k, 51 < k → t.getD k 0 = init_deck.getD k 0 := by
      intro k hk
      have h1 : t.length = 52 := by simpa using ht.length_eq
      rw [List.getD_eq_default _ _ (by omega), List.getD_eq_default _ _ (by simp [init_deck]; omega)]
    exact shuffle_loop_index_surj 51 init_deck t hnd ht hlen hall
  refine ⟨?_, ?_, ?_, hsurj deck hdeck, ?_⟩
  · intro i d h1 h2
    obtain ⟨n, rfl⟩ : ∃ n, i = n + 1 := ⟨i - 1, by omega⟩
    rw [shuffle_loop_index_succ, Nat.mod_eq_of_lt (by have := hj (n + 1) h1 h2; omega)]
    rfl
  · intro heq i h1 h2
    have h := shuffle_loop_index_inj j j' 51 init_deck hnd hlen heq i h1 h2
    rw [Nat.mod_eq_of_lt (by have := hj i h1 h2; omega),
      Nat.mod_eq_of_lt (by have := hj' i h1 h2; omega)] at h
    exact h
  · exact shuffle_loop_perm _ 51 init_deck 51 hlen
  · obtain ⟨j1, h1, h2⟩ := hsurj (shuffle_deck rand_r init_deck seed).1
      (shuffle_loop_perm rand_r 51 init_deck seed hlen)
    exact ⟨j1, h1, h2.symm⟩

/-- C15, at concrete index sequences: the sequence `j i = i`, which exchanges every
entry with itself, and the sequence `j i = 0` differ at step 1, so they give different
decks; and the deck with its first two cards exchanged is reached. -/
theorem shuffle_deck_index_bijection_witness :
    (∀ i, 1 ≤ i → i ≤ 51 → (fun i : Nat => i) i ≤ i) ∧
    (∀ i, 1 ≤ i → i ≤ 51 → (fun _ : Nat => 0) i ≤ i) ∧
    (1 :: 0 :: (List.range 52).drop 2).Perm (List.range 52) ∧
    (shuffle_deck (index_source (fun i => i)) init_deck 51).1
      ≠ (shuffle_deck (index_source (fun _ => 0)) init_deck 51).1 ∧
    (∃ j0 : Nat → Nat, (∀ i, j0 i ≤ i) ∧
      (shuffle_deck (index_source j0) init_deck 51).1 = 1 :: 0 :: (List.range 52).drop 2) :=
  have h1 : ∀ i, 1 ≤ i → i ≤ 51 → (fun i : Nat => i) i ≤ i := fun i _ _ => le_refl i
  have h2 : ∀ i, 1 ≤ i → i ≤ 51 → (fun _ : Nat => 0) i ≤ i := fun i _ _ => Nat.zero_le i
  have h3 : (1 :: 0 :: (List.range 52).drop 2).Perm (List.range 52) := by decide
  have h := shuffle_deck_index_bijection (fun i => i) (fun _ => 0)
    (1 :: 0 :: (List.range 52).drop 2) (fun s => (s, s)) 1 h1 h2 h3
  ⟨h1, h2, h3, fun heq => absurd (h.2.1 heq 1 (le_refl 1) (by decide)) (by decide), h.2.2.2.1⟩

/-- C16: in every round started from a deck that is a permutation of 0..51 (whether or
not the reshuffle check rebuilds it, so in particular with at least 15 undealt cards),
whatever the players answer and whenever they answer, the round ends and no hand
outgrows its 12-entry array.  Every player of the round holds two cards after the deal
and at most 12 after the turns of any number of slots, and keeps that hand to the end
of the round; the dealer holds two cards after the deal, draws only with at most 9
cards in hand and ends with at most 10.  Hands only grow within a round, so these
sizes bound the index of every store.  The reason is that a hand dealt from such a
deck (entries `0xFF` of an exhausted deck included) that is worth at most 21 holds at
most 11 cards, and one worth less than 17 holds at most 9. -/
theorem hand_capacity (rand_r : Nat → Nat × Nat) (g : GameState)
    (oracles : List (List WaitOracle)) (hdeck : g.deck.Perm (List.range 52)) :
    ∃ g3 res n,
      player_turns (deal_round (reshuffle_check rand_r g)).g oracles = some g3 ∧
      dealer_play ⟨g3, (deal_round (reshuffle_check rand_r g)).dealer_hand⟩ = some res ∧
      game_round rand_r g oracles = some (settle res.1.g res.2) ∧
      (∀ i, i < MAX_PLAYERS → (g.player i).in_round = true →
        ((deal_round (reshuffle_check rand_r g)).g.player i).hand.length = 2 ∧
        (∀ k gk, k ≤ MAX_PLAYERS →
          (List.range k).foldlM (fun g j => player_turn g j (oracles.getD j []))
            (deal_round (reshuffle_check rand_r g)).g = some gk →
          (gk.player i).hand.length ≤ HAND_CAPACITY) ∧
        (g3.player i).hand.length ≤ HAND_CAPACITY ∧
        ((settle res.1.g res.2).player i).hand = (g3.player i).hand) ∧
      (deal_round (reshuffle_check rand_r g)).dealer_hand.length = 2 ∧
      res.1.dealer_hand = (deal_round (reshuffle_check rand_r g)).dealer_hand
        ++ deal_stream g3.deck g3.deck_top n ∧
      (∀ m, m < n → ((deal_round (reshuffle_check rand_r g)).dealer_hand
        ++ deal_stream g3.deck g3.deck_top m).length ≤ 9) ∧
      res.1.dealer_hand.length ≤ 10 ∧ res.1.dealer_hand.length ≤ HAND_CAPACITY ∧
      (∀ top hand, dealt_from g3.deck top hand →
        (hand_value hand ≤ 21 → hand.length ≤ 11) ∧ (hand_value hand < 17 → hand.length ≤ 9)) := by
  have hdeck1 := reshuffle_check_perm rand_r g hdeck
  obtain ⟨b1, b2, -, b4, b5⟩ := deal_round_dealt (reshuffle_check rand_r g) hdeck1
  obtain ⟨g3, hg3, hle3⟩ := player_turns_le (deal_round (reshuffle_check rand_r g)).g oracles
  have hcap := turns_capacity rand_r g oracles hdeck1
  obtain ⟨hd3, hall3⟩ := hcap MAX_PLAYERS (le_refl _) g3 hg3
  have hdeck3 : g3.deck.Perm (List.range 52) := by
    rw [hd3]
    exact hdeck1
  have hdealer : dealt_from g3.deck g3.deck_top
      (deal_round (reshuffle_check rand_r g)).dealer_hand := by
    rw [hle3.1]
    exact dealt_from_mono _ _ _ _ hle3.2.2.2.1 b4
  obtain ⟨res, n, hres, hhand, hdraw, hten⟩ := dealer_play_capacity
    { g := g3, dealer_hand := (deal_round (reshuffle_check rand_r g)).dealer_hand }
    hdeck3 hdealer b5
  have hpl : (settle res.1.g res.2).players = g3.players :=
    (settle_players _ _).trans (dealer_play_players _ res hres)
  refine ⟨g3, res, n, hg3, hres, ?_, ?_, b5, hhand, hdraw, hten, ?_, ?_⟩
  · unfold game_round
    simp only []
    rw [hg3]
    simp only [Option.some_bind, Option.bind_some, hres, Option.map_some']
  · intro i hi hin
    have hin1 : ((reshuffle_check rand_r g).player i).in_round = true := by
      rw [reshuffle_check_players]
      exact hin
    refine ⟨(deal_round_spec (reshuffle_check rand_r g) i hi (by rw [b2]; exact hin1)).1,
      fun k gk hk hgk => ((hcap k hk gk hgk).2 i hi hin1).2, (hall3 i hi hin1).2, ?_⟩
    unfold GameState.player
    rw [hpl]
  · unfold HAND_CAPACITY
    omega
  · intro top hand hd
    exact ⟨dealt_from_le_eleven _ _ _ hdeck3 hd, dealt_from_le_nine _ _ _ hdeck3 hd⟩

/-- C16, at a concrete table: six seated players, the deck in canonical order with 15
undealt cards, the first two players asking for cards until the deck is used up. -/
theorem hand_capacity_witness :
    table_six.deck.Perm (List.range 52) ∧
    ∃ (g3 : GameState) (res : Round × Nat),
      game_round (fun s => (s, s)) table_six
        [[⟨[], [⟨[⟨0, 10, str "ACTION HIT"⟩], false⟩]⟩],
         [⟨[], [⟨[⟨1, 10, str "ACTION HIT"⟩], false⟩]⟩,
          ⟨[], [⟨[⟨1, 12, str "ACTION STAND"⟩], false⟩]⟩]]
        = some (settle res.1.g res.2) ∧
      (∀ i, i < MAX_PLAYERS → (table_six.player i).in_round = true →
        (g3.player i).hand.length ≤ HAND_CAPACITY) ∧
      res.1.dealer_hand.length ≤ HAND_CAPACITY :=
  have hp : table_six.deck.Perm (List.range 52) := List.Perm.refl _
  match hand_capacity (fun s => (s, s)) table_six
    [[⟨[], [⟨[⟨0, 10, str "ACTION HIT"⟩], false⟩]⟩],
     [⟨[], [⟨[⟨1, 10, str "ACTION HIT"⟩], false⟩]⟩,
      ⟨[], [⟨[⟨1, 12, str "ACTION STAND"⟩], false⟩]⟩]] hp with
  | ⟨g3, res, _, _, _, h3, h4, _, _, _, _, h9, _⟩ =>
    ⟨hp, g3, res, h3, fun i hi hin => (h4 i hi hin).2.2.1, h9⟩

end BlackJack
